import Mathlib

/-!
# ColorWheel: radial mesh generators and tessellation morph scheduler

A shallow embedding of `src/ColorWheel/main.cpp`, `math_utils.h` and
`trig_constants.h`.

Modelling conventions
* `float` and `double` are idealised as an arbitrary ordered field `α` with a floor
  function (`ℚ` for evaluation, `ℝ` when `cos` and `sin` are the real functions);
  rounding is not modelled.
* `unsigned int` counts are naturals; a product the source computes in `unsigned int`
  is reduced modulo `2 ^ 32`.  `int` loop counters and tessellation levels are
  unbounded (signed overflow is undefined behaviour and not modelled).
* An output iterator is a position in an idealised unbounded buffer (`OutIt`).
* `assert` is fail-fast: the mesh and saturation generators, whose assertions constrain
  their run-time arguments, return `Option`.
* The tessellation count functions work on `int`: a shift or product that is undefined
  behaviour is `none`.  A `std::vector` is a size with its elements (`StdVector`); an
  indexed store out of range, or a generator that runs past the end, is `none`.
  Conversions between `int` and `unsigned int` are two's complement.
* The frame with buffers (`RunGameLoopFrameBuffers`) adds the regeneration step to the
  frame on scalars; uploads to the GPU and the draw call only read and are not modelled.
-/

namespace ColorWheel

variable {α : Type} [LinearOrderedField α]

/-! ## Scalars, vectors, iterators, loops -/

/-- The conversion `static_cast<int>(x)` of a floating value: truncation toward zero. -/
def static_cast_int [FloorRing α] (x : α) : ℤ := if 0 ≤ x then ⌊x⌋ else ⌈x⌉

/-- The function `std::fmod`, taken as the truncated remainder `x - trunc(x / y) * y`. -/
def fmod [FloorRing α] (x y : α) : α := x - (static_cast_int (x / y) : α) * y

/-- The type `glm::vec2`. -/
structure vec2 (α : Type) where
  x : α
  y : α

/-- The types `glm::vec3` and `glm::dvec3`. -/
structure vec3 (α : Type) where
  r : α
  g : α
  b : α

/-- The product `v * s` of a `glm::vec2` and a scalar. -/
def vec2.scale (v : vec2 α) (s : α) : vec2 α := ⟨v.x * s, v.y * s⟩

/-- An iterator into a buffer: `it` is its position, `buf` the buffer contents. -/
structure OutIt (β : Type) where
  it : ℕ
  buf : ℕ → β

/-- The statement `*it++ = v`. -/
def OutIt.put {β : Type} (o : OutIt β) (v : β) : OutIt β :=
  ⟨o.it + 1, Function.update o.buf o.it v⟩

/-- The loop `for (i = i0; i < n; i += step) s = body(i, s)`; every loop of the source
has `step` 1 or 2. -/
def forLoop {σ : Type} (n step : ℕ) (body : ℕ → σ → σ) (i : ℕ) (s : σ) : σ :=
  if i < n ∧ 0 < step then forLoop n step body (i + step) (body i s) else s
termination_by n - i
decreasing_by omega

/-! ## `trig_constants.h` and `math_utils.h` -/

/-- The constant `trig::Pi`. -/
def Pi : α := 3.141592653589793

/-- The constant `trig::TwoPi`. -/
def TwoPi : α := 2 * Pi

/-- The template `Clamp`, which is `std::min(std::max(value, minimum), maximum)`. -/
def Clamp (value minimum maximum : α) : α := min (max value minimum) maximum

/-- The template `ClampRadians`. -/
def ClampRadians [FloorRing α] (radians : α) : α :=
  if radians ≥ TwoPi then fmod radians TwoPi
  else if radians < 0 then TwoPi + fmod radians TwoPi
  else radians

/-! ## Colour models and the colour generator -/

/-- The application constants of `main.cpp`. -/
def MinHues : ℤ := 6

/-- The constant `MinSaturations`. -/
def MinSaturations : ℤ := 2

/-- The constant `MaxHueTessellations`. -/
def MaxHueTessellations : ℤ := 7

/-- The constant `MaxSaturationTessellations`. -/
def MaxSaturationTessellations : ℤ := 8

/-- The constant `WheelInnerRadius`. -/
def WheelInnerRadius : α := 0.5

/-- A C array of scalars read at an `int` index. -/
def arrayOf (l : List α) : ℤ → α := fun i => l.getD i.toNat 0

/-- The table `RgbColorModel`. -/
def RgbColorModel : ℤ → α :=
  arrayOf [1, 0, 0,  1, 1, 0,  0, 1, 0,  0, 1, 1,  0, 0, 1,  1, 0, 1]

/-- The table `RybColorModel`. -/
def RybColorModel : ℤ → α :=
  arrayOf [0xfe / 0xff, 0x27 / 0xff, 0x12 / 0xff,
           0xfb / 0xff, 0x99 / 0xff, 0x02 / 0xff,
           0xfe / 0xff, 0xfe / 0xff, 0x33 / 0xff,
           0x66 / 0xff, 0xb0 / 0xff, 0x32 / 0xff,
           0x02 / 0xff, 0x47 / 0xff, 0xfe / 0xff,
           0x86 / 0xff, 0x01 / 0xff, 0xaf / 0xff]

/-- The template `CalculateHueForColorModel<ColorModelSize>`; the result is the value
stored in the `color` reference.  Its assertions require `ColorModelSize / 3 != 0`. -/
def CalculateHueForColorModel [FloorRing α] (ColorModelSize : ℕ) (hueRadians : α) (colorModel : ℤ → α) :
    vec3 α :=
  let ColorCount : ℤ := (ColorModelSize / 3 : ℕ)
  let ColorRange : α := TwoPi / (ColorCount : α)
  let clampedHue : α := ClampRadians hueRadians
  let lowerColor : ℤ :=
    if static_cast_int (clampedHue / ColorRange) ≥ ColorCount then ColorCount - 1
    else static_cast_int (clampedHue / ColorRange)
  let upperColor : ℤ := if lowerColor + 1 ≥ ColorCount then 0 else lowerColor + 1
  let distFromLower : α := clampedHue - ((lowerColor : α) * ColorRange)
  let upperContribution : α := distFromLower / ColorRange
  let lowerContribution : α := 1 - upperContribution
  let i : ℤ := lowerColor * 3
  let j : ℤ := upperColor * 3
  { r := (lowerContribution * colorModel (i + 0)) + (upperContribution * colorModel (j + 0))
    g := (lowerContribution * colorModel (i + 1)) + (upperContribution * colorModel (j + 1))
    b := (lowerContribution * colorModel (i + 2)) + (upperContribution * colorModel (j + 2)) }

/-- Loop state of the first loop of `CreateColorWheelColors`: the iterator and `hue`. -/
structure ColorLoop (α : Type) where
  out : OutIt (vec3 α)
  hue : α

/-- Loop state of the copy loop of `CreateColorWheelColors`: `srcIt` and `it`. -/
structure CopyLoop (α : Type) where
  srcIt : ℕ
  out : OutIt (vec3 α)

/-- Body of the first loop of `CreateColorWheelColors` (one sector): compute the colour
of `hue`, store it 4 times, then `hue += SliceStep`. -/
def emitColor [FloorRing α] (colorModel : ℤ → α) (SliceStep : α) (st : ColorLoop α) :
    ColorLoop α :=
  let color := CalculateHueForColorModel 18 st.hue colorModel
  -- 4 points per quad
  { out := forLoop 4 1 (fun _ o => o.put color) 0 st.out
    hue := st.hue + SliceStep }

/-- Body of the innermost copy loop: `*it = *srcIt` followed by `++srcIt, ++it`. -/
def copyElement (c : CopyLoop α) : CopyLoop α :=
  { srcIt := c.srcIt + 1, out := c.out.put (c.out.buf c.srcIt) }

/-- Body of the loop over the tracks after the first: copy `bound` elements starting
at `position`. -/
def copyTrack (position bound : ℕ) (o : OutIt (vec3 α)) : OutIt (vec3 α) :=
  (forLoop bound 1 (fun _ c => copyElement c) 0 ⟨position, o⟩).out

/-- The template `CreateColorWheelColors`, for the 18-entry colour models; `position`
is the start iterator and the result the returned iterator.  The bound
`colorCount * 4` of the copy loop is an `unsigned int` product. -/
def CreateColorWheelColors [FloorRing α] (colorCount trackCount : ℕ) (colorModel : ℤ → α)
    (position : OutIt (vec3 α)) : OutIt (vec3 α) :=
  let SliceStep : α := TwoPi / (colorCount : α)
  let first : ColorLoop α :=
    forLoop colorCount 1 (fun _ st => emitColor colorModel SliceStep st) 0 ⟨position, 0⟩
  -- Copy the colors of the first track to all the rest.
  forLoop trackCount 1 (fun _ o => copyTrack position.it (colorCount * 4 % 2 ^ 32) o) 1
    first.out

/-! ## The mesh generator -/

/-- Loop state of the track loops of `CreateColorWheelGeometry`. -/
structure TrackLoop (α : Type) where
  out : OutIt (vec2 α)
  trackInnerRadius : α
  isEvenTrack : Bool

/-- Loop state of the outer sector loop of `CreateColorWheelGeometry`. -/
structure SectorLoop (α : Type) where
  out : OutIt (vec2 α)
  sectorAngle : α

/-- Loop state of the inner sector loop of `CreateColorWheelGeometry`. -/
structure SectorPair (α : Type) where
  out : OutIt (vec2 α)
  sectorAngle : α
  isEvenSector : Bool

/-- Body of the loop `for (m ...)` of `CreateColorWheelGeometry`: the four vertices of
one cell. -/
def emitSector (cos sin : α → α) (SliceStep EvenSectorHalfAngle OddSectorHalfAngle : α)
    (Inner Outer : α) (sp : SectorPair α) : SectorPair α :=
  let SectorHalfAngle : α :=
    if sp.isEvenSector then EvenSectorHalfAngle else OddSectorHalfAngle
  let lower : α := sp.sectorAngle - SectorHalfAngle
  let upper : α := sp.sectorAngle + SectorHalfAngle
  let lr : vec2 α := ⟨cos lower, sin lower⟩
  let ur : vec2 α := ⟨cos upper, sin upper⟩
  { out := (((sp.out.put (lr.scale Inner)).put (lr.scale Outer)).put
      (ur.scale Inner)).put (ur.scale Outer)
    sectorAngle := sp.sectorAngle + SliceStep
    isEvenSector := !sp.isEvenSector }

/-- Body of the loop `for (l ...)`: an even and an odd sector. -/
def emitSectorPair (cos sin : α → α) (SliceStep EvenSectorHalfAngle OddSectorHalfAngle : α)
    (Inner Outer : α) (sl : SectorLoop α) : SectorLoop α :=
  let pair : SectorPair α :=
    forLoop 2 1 (fun _ sp =>
      emitSector cos sin SliceStep EvenSectorHalfAngle OddSectorHalfAngle Inner Outer sp) 0
      ⟨sl.out, sl.sectorAngle, true⟩
  ⟨pair.out, pair.sectorAngle⟩

/-- Body of the loop `for (k ...)`: one track. -/
def emitTrack (cos sin : α → α) (sectorCount : ℕ)
    (SliceStep EvenSectorHalfAngle OddSectorHalfAngle EvenTrackWidth OddTrackWidth : α)
    (tr : TrackLoop α) : TrackLoop α :=
  let Inner : α := tr.trackInnerRadius
  let Outer : α := Inner + (if tr.isEvenTrack then EvenTrackWidth else OddTrackWidth)
  let sectors : SectorLoop α :=
    forLoop sectorCount 2 (fun _ sl =>
      emitSectorPair cos sin SliceStep EvenSectorHalfAngle OddSectorHalfAngle Inner Outer sl)
      0 ⟨tr.out, 0⟩
  { out := sectors.out
    trackInnerRadius := Outer
    isEvenTrack := !tr.isEvenTrack }

/-- The body of `CreateColorWheelGeometry` after its assertions. -/
def CreateColorWheelGeometryLoops (cos sin : α → α) (sectorCount trackCount : ℕ)
    (innerRadius sectorBlendT trackBlendT : α) (position : OutIt (vec2 α)) :
    OutIt (vec2 α) :=
  let SliceStep : α := TwoPi / (sectorCount : α)
  let SectorHalfBlend : α := sectorBlendT / 2
  let EvenSectorHalfAngle : α := SliceStep * (1 - SectorHalfBlend)
  let OddSectorHalfAngle : α := SliceStep * SectorHalfBlend
  let TrackStep : α :=
    if trackCount > 0 then (1 - innerRadius) / (trackCount : α) else 1 - innerRadius
  let EvenTrackWidth : α := TrackStep + TrackStep * (1 - trackBlendT)
  let OddTrackWidth : α := TrackStep * trackBlendT
  let minTracks : ℕ := if 0 ≠ trackCount then trackCount else 1
  (forLoop minTracks 2 (fun _ tracks =>
    forLoop 2 1 (fun _ tr =>
      emitTrack cos sin sectorCount SliceStep EvenSectorHalfAngle OddSectorHalfAngle
        EvenTrackWidth OddTrackWidth tr) 0 tracks) 0 ⟨position, innerRadius, true⟩).out

/-- The template `CreateColorWheelGeometry`: `none` when an assertion fails, otherwise
the returned iterator.  `cos` and `sin` stand for `std::cos` and `std::sin`. -/
def CreateColorWheelGeometry (cos sin : α → α) (sectorCount trackCount : ℕ)
    (innerRadius sectorBlendT trackBlendT : α) (position : OutIt (vec2 α)) :
    Option (OutIt (vec2 α)) :=
  if sectorCount ≥ 2 ∧ sectorCount % 2 = 0 ∧ (trackCount = 1 ∨ trackCount % 2 = 0) then
    some (CreateColorWheelGeometryLoops cos sin sectorCount trackCount innerRadius
      sectorBlendT trackBlendT position)
  else none

/-! ## Closed forms used to state the layout of the generated buffers -/

/-- Half-angle of sector `s`: `D * (1 - sectorBlendT / 2)` for even `s` and
`D * (sectorBlendT / 2)` for odd `s`, where `D` is the slice angle. -/
def sectorHalfAngleAt (D sectorBlendT : α) (s : ℕ) : α :=
  if s % 2 = 0 then D * (1 - sectorBlendT / 2) else D * (sectorBlendT / 2)

/-- Inner radius of track `t` for a track step `w`: tracks come in pairs of total
width `2 * w`, the even one of width `w * (2 - trackBlendT)`. -/
def trackInnerAt (w innerRadius trackBlendT : α) (t : ℕ) : α :=
  innerRadius + w * (if t % 2 = 0 then (t : α) else (t : α) + 1 - trackBlendT)

/-- Outer radius of track `t` for a track step `w`. -/
def trackOuterAt (w innerRadius trackBlendT : α) (t : ℕ) : α :=
  innerRadius + w * (if t % 2 = 0 then (t : α) + 2 - trackBlendT else (t : α) + 1)

/-- Corner `c` of a cell: (lower, inner), (lower, outer), (upper, inner),
(upper, outer), each as `(cos angle * radius, sin angle * radius)`. -/
def cellCorner (cos sin : α → α) (lower upper inner outer : α) (c : ℕ) : vec2 α :=
  match c with
  | 0 => ⟨cos lower * inner, sin lower * inner⟩
  | 1 => ⟨cos lower * outer, sin lower * outer⟩
  | 2 => ⟨cos upper * inner, sin upper * inner⟩
  | _ => ⟨cos upper * outer, sin upper * outer⟩

/-- Corner `c` of the cell of track `t` and sector `s` of the wheel with slice angle `D`
and track step `w`. -/
def meshVertex (cos sin : α → α) (D w innerRadius sectorBlendT trackBlendT : α)
    (t s c : ℕ) : vec2 α :=
  cellCorner cos sin
    ((s : α) * D - sectorHalfAngleAt D sectorBlendT s)
    ((s : α) * D + sectorHalfAngleAt D sectorBlendT s)
    (trackInnerAt w innerRadius trackBlendT t)
    (trackOuterAt w innerRadius trackBlendT t) c

/-- The squared Euclidean norm of a `glm::vec2`. -/
def vec2.normSq (v : vec2 α) : α := v.x * v.x + v.y * v.y

/-- The layout of the cell of track `t` and sector `s` in the buffer `o` written from
`position`, in the words of the specification: the cell occupies the four indices from
`(t * S + s) * 4`, holding (lower, inner), (lower, outer), (upper, inner),
(upper, outer) as `(cos angle * radius, sin angle * radius)`, with
`lower = s * D - h`, `upper = s * D + h`, `D = 2 * pi / S`, and `h = D * (1 - sectorBlendT / 2)` for
even `s`, `D * (sectorBlendT / 2)` for odd `s`. -/
def MeshCellAt (cos sin : α → α) (S T : ℕ) (innerRadius sectorBlendT trackBlendT : α)
    (position : ℕ) (o : OutIt (vec2 α)) (t s : ℕ) : Prop :=
  let D : α := TwoPi / (S : α)
  let h : α := if s % 2 = 0 then D * (1 - sectorBlendT / 2) else D * (sectorBlendT / 2)
  let lower : α := (s : α) * D - h
  let upper : α := (s : α) * D + h
  let inner : α := trackInnerAt ((1 - innerRadius) / (T : α)) innerRadius trackBlendT t
  let outer : α := trackOuterAt ((1 - innerRadius) / (T : α)) innerRadius trackBlendT t
  o.buf (position + (t * S + s) * 4 + 0) = ⟨cos lower * inner, sin lower * inner⟩ ∧
  o.buf (position + (t * S + s) * 4 + 1) = ⟨cos lower * outer, sin lower * outer⟩ ∧
  o.buf (position + (t * S + s) * 4 + 2) = ⟨cos upper * inner, sin upper * inner⟩ ∧
  o.buf (position + (t * S + s) * 4 + 3) = ⟨cos upper * outer, sin upper * outer⟩

/-- An all-zero position buffer with the iterator at its start. -/
def zeroPositions : OutIt (vec2 α) := ⟨0, fun _ => ⟨0, 0⟩⟩

/-- Control point `k` of a colour model stored as a flat array of RGB triples. -/
def controlPoint (colorModel : ℤ → α) (k : ℤ) : vec3 α :=
  ⟨colorModel (k * 3 + 0), colorModel (k * 3 + 1), colorModel (k * 3 + 2)⟩

/-- The componentwise blend `(1 - u) * p + u * q` of two colours. -/
def vec3.mix (u : α) (p q : vec3 α) : vec3 α :=
  ⟨(1 - u) * p.r + u * q.r, (1 - u) * p.g + u * q.g, (1 - u) * p.b + u * q.b⟩

/-- An all-zero colour buffer with the iterator at its start. -/
def zeroColors : OutIt (vec3 α) := ⟨0, fun _ => ⟨0, 0, 0⟩⟩

/-! ## The frame loop of `RunGameLoop` -/

/-- The enumeration `ColorModel`. -/
inductive ColorModel where
  | Rgb
  | Ryb
  deriving DecidableEq

/-- The enumeration `ColorSpace : GLint`, represented by its underlying value. -/
abbrev ColorSpace := ℕ

/-- The enumerator `ColorSpace::Undefined`. -/
def ColorSpace.Undefined : ColorSpace := 0

/-- The enumerator `ColorSpace::ColorWheel`. -/
def ColorSpace.ColorWheel : ColorSpace := 1

/-- The enumerator `ColorSpace::Hsl`. -/
def ColorSpace.Hsl : ColorSpace := 2

/-- The enumerator `ColorSpace::Hsv`. -/
def ColorSpace.Hsv : ColorSpace := 3

/-- The rate constants of `RunGameLoop`. -/
def VertexBlendRate : α := 0.005

/-- The constant `InnerRadiusBlendRate`. -/
def InnerRadiusBlendRate : α := 0.005

/-- The constant `ColorBlendRate`. -/
def ColorBlendRate : α := 0.001

/-- The constant `ColorSpaceBlendRate`. -/
def ColorSpaceBlendRate : α := InnerRadiusBlendRate

/-- The constant `ConeScaleRate`. -/
def ConeScaleRate : α := InnerRadiusBlendRate / 4

/-- The local variables of `RunGameLoop` that live across frames (GUI state and
scheduler state), under their source names. -/
structure State (α : Type) where
  colorModel : ColorModel
  colorCountPower : α
  saturationCountPower : α
  colorSpace : ColorSpace
  lightnessValue : α
  isGeometryCylinder : Bool
  prev_ticks : ℕ
  currentColorCountPower : ℤ
  sectorBlendT : α
  sectorBlendVelocity : α
  currentSaturationCountPower : ℤ
  trackBlendT : α
  trackBlendVelocity : α
  innerRadiusBlendDirection : α
  innerRadiusBlendT : α
  currentInnerRadius : α
  colorBlendDirection : α
  colorBlendT : α
  colorSpaceBlendDirection : α
  colorSpaceBlendT : α
  currentColorSpace : ColorSpace
  nextColorSpace : ColorSpace
  hsLightness : α
  hsValue : α
  coneScaleDirection : α
  coneScale : α
  currentConeScale : α
  isUserScalingCone : Bool
  isMorphing : Bool

/-- The values the variables of `RunGameLoop` have when the loop is entered;
`ticks` is the first reading of `SDL_GetTicks`. -/
def initialState [FloorRing α] (ticks : ℕ) : State α where
  colorModel := ColorModel.Rgb
  colorCountPower := 1
  saturationCountPower := 6
  colorSpace := ColorSpace.ColorWheel
  lightnessValue := 0.5
  isGeometryCylinder := true
  prev_ticks := ticks
  currentColorCountPower := static_cast_int (1 : α)
  sectorBlendT := 1
  sectorBlendVelocity := 0
  currentSaturationCountPower := static_cast_int (6 : α)
  trackBlendT := 0
  trackBlendVelocity := 0
  innerRadiusBlendDirection := 0
  innerRadiusBlendT := 1
  currentInnerRadius := 1 * WheelInnerRadius
  colorBlendDirection := 0
  colorBlendT := 0
  colorSpaceBlendDirection := 0
  colorSpaceBlendT := 0
  currentColorSpace := ColorSpace.ColorWheel
  nextColorSpace := ColorSpace.ColorWheel
  hsLightness := 0.5
  hsValue := 1
  coneScaleDirection := 0
  coneScale := 1
  currentConeScale := 1
  isUserScalingCone := false
  isMorphing := true

/-- The block `if (0.0f != colorBlendDirection)` (colour-model blend). -/
def colorBlendBlock (delta_t : α) (s : State α) : State α :=
  if 0 ≠ s.colorBlendDirection then
    let colorBlendT : α := s.colorBlendT + delta_t * s.colorBlendDirection
    let colorBlendDirection : α :=
      if colorBlendT ≤ 0 ∨ colorBlendT ≥ 1 then 0 else s.colorBlendDirection
    { s with
      colorBlendDirection := colorBlendDirection
      colorBlendT := Clamp colorBlendT 0 1 }
  else s

/-- The block `if (colorSpace != currentColorSpace || 0.0f != colorSpaceBlendDirection)`
(colour-space cross-fade). -/
def colorSpaceBlock (delta_t : α) (s : State α) : State α :=
  if s.colorSpace ≠ s.currentColorSpace ∨ 0 ≠ s.colorSpaceBlendDirection then
    let nextColorSpace : ColorSpace :=
      if 0 = s.colorSpaceBlendT then s.colorSpace else s.nextColorSpace
    let colorSpaceBlendDirection : α := ColorSpaceBlendRate
    let colorSpaceBlendT : α :=
      Clamp (s.colorSpaceBlendT + delta_t * colorSpaceBlendDirection) 0 1
    if colorSpaceBlendT ≥ 1 then
      { s with
        nextColorSpace := nextColorSpace
        currentColorSpace := nextColorSpace
        colorSpaceBlendDirection := 0
        colorSpaceBlendT := 0 }
    else
      { s with
        nextColorSpace := nextColorSpace
        colorSpaceBlendDirection := colorSpaceBlendDirection
        colorSpaceBlendT := colorSpaceBlendT }
  else s

/-- The block `if (0.0f != innerRadiusBlendDirection)` (inner-radius blend). -/
def innerRadiusBlock (delta_t : α) (s : State α) : State α :=
  if 0 ≠ s.innerRadiusBlendDirection then
    let innerRadiusBlendT : α := s.innerRadiusBlendT + delta_t * s.innerRadiusBlendDirection
    let innerRadiusBlendDirection : α :=
      if innerRadiusBlendT ≤ 0 ∨ innerRadiusBlendT ≥ 1 then 0
      else s.innerRadiusBlendDirection
    { s with
      innerRadiusBlendDirection := innerRadiusBlendDirection
      innerRadiusBlendT := Clamp innerRadiusBlendT 0 1
      currentInnerRadius := Clamp innerRadiusBlendT 0 1 * WheelInnerRadius
      isMorphing := true }
  else s

/-- The sector-level block
`if (GuiColorCountPower != currentColorCountPower || 0.0f != sectorBlendVelocity)`. -/
def sectorLevelBlock (GuiColorCountPower : ℤ) (delta_t : α) (s : State α) : State α :=
  if GuiColorCountPower ≠ s.currentColorCountPower ∨ 0 ≠ s.sectorBlendVelocity then
    let sectorBlendVelocity : α :=
      if GuiColorCountPower ≥ s.currentColorCountPower then VertexBlendRate
      else if GuiColorCountPower < s.currentColorCountPower then -VertexBlendRate
      else s.sectorBlendVelocity
    let sectorBlendT : α := s.sectorBlendT + delta_t * sectorBlendVelocity
    if sectorBlendT ≤ 0 then
      let currentColorCountPower : ℤ := s.currentColorCountPower - 1
      { s with
        currentColorCountPower := currentColorCountPower
        sectorBlendT := 1
        sectorBlendVelocity :=
          if GuiColorCountPower = currentColorCountPower then 0 else sectorBlendVelocity
        isMorphing := true }
    else if sectorBlendT ≥ 1 then
      if GuiColorCountPower = s.currentColorCountPower then
        { s with
          sectorBlendT := 1
          sectorBlendVelocity := 0
          isMorphing := true }
      else
        { s with
          currentColorCountPower := s.currentColorCountPower + 1
          sectorBlendT := 0
          sectorBlendVelocity := sectorBlendVelocity
          isMorphing := true }
    else
      { s with
        sectorBlendT := sectorBlendT
        sectorBlendVelocity := sectorBlendVelocity
        isMorphing := true }
  else s

/-- The track-level block
`if (GuiSaturationCountPower != currentSaturationCountPower || 0.0f != trackBlendVelocity)`. -/
def trackLevelBlock (GuiSaturationCountPower : ℤ) (delta_t : α) (s : State α) : State α :=
  if GuiSaturationCountPower ≠ s.currentSaturationCountPower ∨ 0 ≠ s.trackBlendVelocity then
    let trackBlendVelocity : α :=
      if GuiSaturationCountPower ≥ s.currentSaturationCountPower then VertexBlendRate
      else if GuiSaturationCountPower < s.currentSaturationCountPower then -VertexBlendRate
      else s.trackBlendVelocity
    let trackBlendT : α := s.trackBlendT + delta_t * trackBlendVelocity
    if trackBlendT ≤ 0 then
      let currentSaturationCountPower : ℤ := s.currentSaturationCountPower - 1
      { s with
        currentSaturationCountPower := currentSaturationCountPower
        trackBlendT := 1
        trackBlendVelocity :=
          if GuiSaturationCountPower = currentSaturationCountPower then 0
          else trackBlendVelocity
        isMorphing := true }
    else if trackBlendT ≥ 1 then
      if GuiSaturationCountPower = s.currentSaturationCountPower then
        { s with
          trackBlendT := 1
          trackBlendVelocity := 0
          isMorphing := true }
      else
        { s with
          currentSaturationCountPower := s.currentSaturationCountPower + 1
          trackBlendT := 0
          trackBlendVelocity := trackBlendVelocity
          isMorphing := true }
    else
      { s with
        trackBlendT := trackBlendT
        trackBlendVelocity := trackBlendVelocity
        isMorphing := true }
  else s

/-- The cone-scale block that follows the two level blocks. -/
def coneScaleBlock (delta_t : α) (s : State α) : State α :=
  let coneScale : α :=
    if s.colorSpace = ColorSpace.ColorWheel ∨ s.isGeometryCylinder = true then 1
    else if s.colorSpace = ColorSpace.Hsl then 1 - |s.hsLightness * 2 - 1|
    else s.hsValue
  if s.isUserScalingCone = true then
    { s with coneScale := coneScale, currentConeScale := coneScale }
  else
    let coneScaleDirection : α :=
      if s.currentConeScale < coneScale then ConeScaleRate
      else if s.currentConeScale > coneScale then -ConeScaleRate
      else s.coneScaleDirection
    if delta_t * coneScaleDirection ≥ |coneScale - s.currentConeScale| then
      { s with
        coneScale := coneScale
        coneScaleDirection := 0
        currentConeScale := coneScale
        isUserScalingCone := true }
    else
      { s with
        coneScale := coneScale
        coneScaleDirection := coneScaleDirection
        currentConeScale := s.currentConeScale + delta_t * coneScaleDirection }

/-- The scheduler part of one frame: the six blocks in source order, with the GUI
targets `static_cast<int>(colorCountPower)` and `static_cast<int>(saturationCountPower)`. -/
def AdvanceMorphs [FloorRing α] (delta_t : α) (s : State α) : State α :=
  let s := colorBlendBlock delta_t s
  let s := colorSpaceBlock delta_t s
  let s := innerRadiusBlock delta_t s
  let s := sectorLevelBlock (static_cast_int s.colorCountPower) delta_t s
  let s := trackLevelBlock (static_cast_int s.saturationCountPower) delta_t s
  coneScaleBlock delta_t s

/-- What the GUI library reports in one frame: the result of every enabled
`imguiCheck` call and the effect of every `imguiSlider` call on its value. -/
structure GuiInput (α : Type) where
  checkRGB : Bool
  checkRYB : Bool
  checkColorWheel : Bool
  checkHSL : Bool
  checkHSV : Bool
  checkCylinder : Bool
  checkHexcone : Bool
  sliderSectors : α → α
  sliderTracks : α → α
  sliderLightness : α → α

/-- The "Color Model" section of the GUI. -/
def guiColorModel (inp : GuiInput α) (s : State α) : State α :=
  let original := s.colorModel
  let colorModel : ColorModel :=
    if ColorModel.Ryb = s.colorModel then
      (if inp.checkRGB = true then ColorModel.Rgb else ColorModel.Ryb)
    else
      (if inp.checkRYB = true then ColorModel.Ryb else ColorModel.Rgb)
  if original ≠ colorModel then
    { s with
      colorModel := colorModel
      colorBlendDirection :=
        if ColorModel.Ryb = colorModel then ColorBlendRate else -ColorBlendRate }
  else { s with colorModel := colorModel }

/-- The "Colors" and "Saturation" sliders of the GUI. -/
def guiSliders (inp : GuiInput α) (s : State α) : State α :=
  { s with
    colorCountPower := inp.sliderSectors s.colorCountPower
    saturationCountPower := inp.sliderTracks s.saturationCountPower }

/-- The "Color Space" section of the GUI. -/
def guiColorSpace (inp : GuiInput α) (s : State α) : State α :=
  let s1 : State α × ℕ :=
    if ColorSpace.Hsl = s.colorSpace then
      let next : ℕ := 0 ||| (if inp.checkColorWheel = true then ColorSpace.ColorWheel
        else ColorSpace.Undefined)
      let next : ℕ := next ||| (if inp.checkHSV = true then ColorSpace.Hsv
        else ColorSpace.Undefined)
      if next = ColorSpace.ColorWheel then
        ({ s with innerRadiusBlendDirection := InnerRadiusBlendRate }, next)
      else (s, next)
    else if ColorSpace.Hsv = s.colorSpace then
      let next : ℕ := 0 ||| (if inp.checkColorWheel = true then ColorSpace.ColorWheel
        else ColorSpace.Undefined)
      let next : ℕ := next ||| (if inp.checkHSL = true then ColorSpace.Hsl
        else ColorSpace.Undefined)
      if next = ColorSpace.ColorWheel then
        ({ s with innerRadiusBlendDirection := InnerRadiusBlendRate }, next)
      else (s, next)
    else
      let next : ℕ := 0 ||| (if inp.checkHSL = true then ColorSpace.Hsl
        else ColorSpace.Undefined)
      let next : ℕ := next ||| (if inp.checkHSV = true then ColorSpace.Hsv
        else ColorSpace.Undefined)
      if next ≠ ColorSpace.Undefined then
        ({ s with
           colorSpace := ColorSpace.ColorWheel
           innerRadiusBlendDirection := -InnerRadiusBlendRate }, next)
      else ({ s with colorSpace := ColorSpace.ColorWheel }, next)
  if s1.2 ≠ ColorSpace.Undefined then
    { s1.1 with colorSpace := s1.2, isUserScalingCone := false }
  else s1.1

/-- The lightness / value slider and the "Geometry Model" section of the GUI. -/
def guiLightness (inp : GuiInput α) (s : State α) : State α :=
  if s.colorSpace ≠ ColorSpace.ColorWheel then
    let lightnessValue : α :=
      inp.sliderLightness (if s.colorSpace = ColorSpace.Hsl then s.hsLightness else s.hsValue)
    let hsLightness : α := if s.colorSpace = ColorSpace.Hsl then lightnessValue else s.hsLightness
    let hsValue : α :=
      if s.colorSpace = ColorSpace.Hsl then s.hsValue
      else if s.colorSpace = ColorSpace.Hsv then lightnessValue
      else s.hsValue
    let originalValue := s.isGeometryCylinder
    let isGeometryCylinder : Bool :=
      if s.isGeometryCylinder = true then !inp.checkHexcone else inp.checkCylinder
    { s with
      lightnessValue := lightnessValue
      hsLightness := hsLightness
      hsValue := hsValue
      isGeometryCylinder := isGeometryCylinder
      isUserScalingCone :=
        if isGeometryCylinder ≠ originalValue then false else s.isUserScalingCone }
  else s

/-- The GUI pass at the end of a frame. -/
def GuiPass (inp : GuiInput α) (s : State α) : State α :=
  guiLightness inp (guiColorSpace inp (guiSliders inp (guiColorModel inp s)))

/-- The elapsed time `delta_t = current_ticks - prev_ticks` of `Uint32` tick counts. -/
def delta_t (current_ticks prev_ticks : ℕ) : ℕ := (current_ticks + 2 ^ 32 - prev_ticks) % 2 ^ 32

/-- The body of one frame for an elapsed time `dt`: advance the morphs, regenerate
(the buffers are write-only for the scheduler, so only `isMorphing = false` remains of
that step), run the GUI. -/
def frameBody [FloorRing α] (inp : GuiInput α) (dt : α) (s : State α) : State α :=
  let s := AdvanceMorphs dt s
  GuiPass inp { s with isMorphing := false }

/-- One iteration of the loop of `RunGameLoop` on the variables of `State`: read the
ticks, then run the frame body with the elapsed milliseconds. -/
def RunGameLoopFrame [FloorRing α] (inp : GuiInput α) (current_ticks : ℕ) (s : State α) :
    State α :=
  frameBody inp ((delta_t current_ticks s.prev_ticks : ℕ) : α)
    { s with prev_ticks := current_ticks }

/-- The states the loop of `RunGameLoop` can be in at the top of an iteration. -/
inductive Reachable [FloorRing α] : State α → Prop where
  | start (ticks : ℕ) : Reachable (initialState ticks)
  | frame (inp : GuiInput α) (current_ticks : ℕ) (s : State α) :
      Reachable s → Reachable (RunGameLoopFrame inp current_ticks s)

/-- The five blend parameters of a state all lie in `[0, 1]`. -/
def BlendsInRange (s : State α) : Prop :=
  (0 ≤ s.sectorBlendT ∧ s.sectorBlendT ≤ 1) ∧
  (0 ≤ s.trackBlendT ∧ s.trackBlendT ≤ 1) ∧
  (0 ≤ s.innerRadiusBlendT ∧ s.innerRadiusBlendT ≤ 1) ∧
  (0 ≤ s.colorBlendT ∧ s.colorBlendT ≤ 1) ∧
  (0 ≤ s.colorSpaceBlendT ∧ s.colorSpaceBlendT ≤ 1)

/-- Two states agree on the five blend parameters and on `currentInnerRadius`. -/
def SameBlends (s t : State α) : Prop :=
  t.sectorBlendT = s.sectorBlendT ∧ t.trackBlendT = s.trackBlendT ∧
  t.innerRadiusBlendT = s.innerRadiusBlendT ∧ t.colorBlendT = s.colorBlendT ∧
  t.colorSpaceBlendT = s.colorSpaceBlendT ∧ t.currentInnerRadius = s.currentInnerRadius

/-- A GUI frame in which nothing is clicked or dragged. -/
def idleGui : GuiInput α :=
  { checkRGB := false, checkRYB := false, checkColorWheel := false, checkHSL := false,
    checkHSV := false, checkCylinder := false, checkHexcone := false,
    sliderSectors := fun v => v, sliderTracks := fun v => v, sliderLightness := fun v => v }

/-- A GUI frame in which only the sector slider is dragged, to the value `v`. -/
def dragSectorsTo (v : α) : GuiInput α :=
  { (idleGui : GuiInput α) with sliderSectors := fun _ => v }

/-- The state of the sector axis after `n` frames with the target held at `target` and
a fixed elapsed time `dt`. -/
def sectorRun (target : ℤ) (dt : α) (n : ℕ) (s : State α) : State α :=
  (sectorLevelBlock target dt)^[n] s

/-- The scheduler state of one discrete axis, as the specification names it. -/
structure AxisState (α : Type) where
  current : ℤ
  blendT : α
  velocity : α

/-- The sector axis of a state. -/
def sectorAxis (s : State α) : AxisState α :=
  ⟨s.currentColorCountPower, s.sectorBlendT, s.sectorBlendVelocity⟩

/-- The track axis of a state. -/
def trackAxis (s : State α) : AxisState α :=
  ⟨s.currentSaturationCountPower, s.trackBlendT, s.trackBlendVelocity⟩

/-- The transition rule of a discrete axis, written from the words of the
specification: unchanged when the target is reached and the axis is at rest;
otherwise pick the velocity from the side of the target, advance the blend, and
step the level at a bound. -/
def specTransition (rate : α) (a : AxisState α) (target : ℤ) (dt : α) : AxisState α :=
  if target = a.current ∧ a.velocity = 0 then a
  else
    let velocity : α := if target ≥ a.current then rate else -rate
    let blendT : α := a.blendT + dt * velocity
    if blendT ≤ 0 then
      ⟨a.current - 1, 1, if a.current - 1 = target then 0 else velocity⟩
    else if blendT ≥ 1 then
      if a.current = target then ⟨a.current, 1, 0⟩ else ⟨a.current + 1, 0, velocity⟩
    else ⟨a.current, blendT, velocity⟩


/-! ## The saturation generator -/

/-- Loop state of `CreateColorWheelSaturation`. -/
structure SaturationLoop (α : Type) where
  out : OutIt α
  trackInnerRadius : α
  isEven : Bool

/-- Body of the track loop of `CreateColorWheelSaturation`: compute `Outer`, flip
`isEven`, store `Outer` four times for each sector, then `trackInnerRadius = Outer`. -/
def emitSaturation (sectorCount : ℕ) (EvenTrackWidth OddTrackWidth : α)
    (st : SaturationLoop α) : SaturationLoop α :=
  let Outer : α := st.trackInnerRadius + (if st.isEven then EvenTrackWidth else OddTrackWidth)
  { out := forLoop sectorCount 1 (fun _ o => forLoop 4 1 (fun _ q => q.put Outer) 0 o) 0 st.out
    trackInnerRadius := Outer
    isEven := !st.isEven }

/-- The body of `CreateColorWheelSaturation` after its assertion. -/
def CreateColorWheelSaturationLoops (sectorCount trackCount : ℕ) (trackBlendT : α)
    (position : OutIt α) : OutIt α :=
  let TrackStep : α := if trackCount > 0 then 1 / (trackCount : α) else 1
  let EvenTrackWidth : α := TrackStep + TrackStep * (1 - trackBlendT)
  let OddTrackWidth : α := TrackStep * trackBlendT
  let minTracks : ℕ := if 0 ≠ trackCount then trackCount else 1
  (forLoop minTracks 1 (fun _ st => emitSaturation sectorCount EvenTrackWidth OddTrackWidth st)
    0 ⟨position, 0, decide (trackCount ≥ 2)⟩).out

/-- The template `CreateColorWheelSaturation`: `none` when its assertion fails, otherwise
the returned iterator. -/
def CreateColorWheelSaturation (sectorCount trackCount : ℕ) (trackBlendT : α)
    (position : OutIt α) : Option (OutIt α) :=
  if trackCount = 1 ∨ trackCount % 2 = 0 then
    some (CreateColorWheelSaturationLoops sectorCount trackCount trackBlendT position)
  else none

/-- The value the specification gives for the scalars of track `t` of `T` tracks:
`(t + 2 - b) / T` for even `t` and `(t + 1) / T` for odd `t`. -/
def saturationOf (T : ℕ) (b : α) (t : ℕ) : α :=
  if t % 2 = 0 then ((t : α) + 2 - b) / (T : α) else ((t : α) + 1) / (T : α)

/-- An all-zero scalar buffer with the iterator at its start. -/
def zeroScalars : OutIt α := ⟨0, fun _ => 0⟩

/-! ## Tessellation counts, vectors and draw ranges -/

/-- The expression `a << n` on `int` for a non-negative `a`: defined for `0 <= n < 32`
when the result is representable; `none` stands for undefined behaviour. -/
def shiftLeftInt (a n : ℤ) : Option ℤ :=
  if 0 ≤ a ∧ 0 ≤ n ∧ n < 32 ∧ a * 2 ^ n.toNat < 2 ^ 31 then some (a * 2 ^ n.toNat) else none

/-- The product of two `int` values; `none` stands for signed overflow. -/
def mulInt (a b : ℤ) : Option ℤ :=
  if -(2 ^ 31) ≤ a * b ∧ a * b < 2 ^ 31 then some (a * b) else none

/-- The function `ColorCountForTessellation`, which is `MinHues * (1 << divisions)`. -/
def ColorCountForTessellation (divisions : ℤ) : Option ℤ :=
  (shiftLeftInt 1 divisions).bind fun v => mulInt MinHues v

/-- The function `SaturationCountForTessellation`, which is `2 << divisions`. -/
def SaturationCountForTessellation (divisions : ℤ) : Option ℤ :=
  shiftLeftInt 2 divisions

/-- The constant `MaxColorCount` of `RunGameLoop`. -/
def MaxColorCount : Option ℤ :=
  (ColorCountForTessellation MaxHueTessellations).bind fun a =>
    (SaturationCountForTessellation MaxSaturationTessellations).bind fun b => mulInt a b

/-- The constant `TotalVertices` of `RunGameLoop`: the size the four vertex buffers are
created with. -/
def TotalVertices : Option ℤ := MaxColorCount.bind fun m => mulInt m 4

/-- A `std::vector`: its size and its elements. -/
structure StdVector (β : Type) where
  size : ℕ
  data : ℕ → β

/-- The call `v.resize(n)` for `n` above the size: the new elements are `fill`. -/
def StdVector.resize {β : Type} (v : StdVector β) (n : ℕ) (fill : β) : StdVector β :=
  ⟨n, fun i => if i < v.size then v.data i else fill⟩

/-- The statement `v[i] = x`; `none` when `i` is out of range. -/
def StdVector.store {β : Type} (v : StdVector β) (i : ℕ) (x : β) : Option (StdVector β) :=
  if i < v.size then some ⟨v.size, Function.update v.data i x⟩ else none

/-- The vector after a generator has written from `std::begin(v)` and returned the
iterator `o`; `none` when the generator ran past the end of the vector. -/
def StdVector.written {β : Type} (v : StdVector β) (o : OutIt β) : Option (StdVector β) :=
  if o.it ≤ v.size then some ⟨v.size, o.buf⟩ else none

/-- Conversion of a 32-bit `unsigned int` value to `int` (two's complement). -/
def toInt32 (n : ℕ) : ℤ :=
  if n % 2 ^ 32 < 2 ^ 31 then ((n % 2 ^ 32 : ℕ) : ℤ) else ((n % 2 ^ 32 : ℕ) : ℤ) - 2 ^ 32

/-- Conversion of an `int` value to 32-bit `unsigned int`. -/
def toUInt32 (z : ℤ) : ℕ := (z % 2 ^ 32).toNat

/-- Loop state of `RecalculateIndices`: the two tables and `startPosition`. -/
structure IndexLoop where
  trackStartPositions : StdVector ℤ
  trackIndiceCounts : StdVector ℤ
  startPosition : ℤ

/-- Body and increment of the loop of `RecalculateIndices` for the counter `i`; the
sum `startPosition += ElementsPerTrack` is computed in `unsigned int`. -/
def recalculateTrack (ElementsPerTrack i : ℕ) (st : Option IndexLoop) : Option IndexLoop :=
  st.bind fun st =>
    (st.trackStartPositions.store i st.startPosition).bind fun starts =>
      (st.trackIndiceCounts.store i (toInt32 ElementsPerTrack)).bind fun counts =>
        some ⟨starts, counts, toInt32 (toUInt32 st.startPosition + ElementsPerTrack)⟩

/-- The function `RecalculateIndices`; `ElementsPerTrack = sectorCount * 4` is an
`unsigned int` product.  `none` when a table is indexed out of range. -/
def RecalculateIndices (sectorCount trackCount : ℕ)
    (trackStartPositions trackIndiceCounts : StdVector ℤ) :
    Option (StdVector ℤ × StdVector ℤ) :=
  let minTracks : ℕ := if 0 ≠ trackCount then trackCount else 1
  let ElementsPerTrack : ℕ := sectorCount * 4 % 2 ^ 32
  (forLoop minTracks 1 (fun i st => recalculateTrack ElementsPerTrack i st) 0
    (some ⟨trackStartPositions, trackIndiceCounts, 0⟩)).map
    fun st => (st.trackStartPositions, st.trackIndiceCounts)

/-- The function `CreateSaturation` on its vector (the upload to the GPU buffer is not
modelled); `TotalVertices` is an `unsigned int` product. -/
def CreateSaturation (colorCount trackCount : ℕ) (trackBlendT : α)
    (colorWheelSaturation : StdVector α) : Option (StdVector α) :=
  let minTracks : ℕ := if 0 ≠ trackCount then trackCount else 1
  let TotalVertices : ℕ := minTracks * colorCount * 4 % 2 ^ 32
  let v : StdVector α :=
    if colorWheelSaturation.size < TotalVertices then colorWheelSaturation.resize TotalVertices 0
    else colorWheelSaturation
  (CreateColorWheelSaturation colorCount minTracks trackBlendT ⟨0, v.data⟩).bind fun o =>
    v.written o

/-- The function `CreateColors` on its two vectors. -/
def CreateColors [FloorRing α] (colorCount trackCount : ℕ)
    (colorWheelColors altColorWheelColors : StdVector (vec3 α)) :
    Option (StdVector (vec3 α) × StdVector (vec3 α)) :=
  let minTracks : ℕ := if 0 ≠ trackCount then trackCount else 1
  let TotalVertices : ℕ := minTracks * colorCount * 4 % 2 ^ 32
  let v : StdVector (vec3 α) :=
    if colorWheelColors.size < TotalVertices then colorWheelColors.resize TotalVertices ⟨0, 0, 0⟩
    else colorWheelColors
  let w : StdVector (vec3 α) :=
    if altColorWheelColors.size < TotalVertices then
      altColorWheelColors.resize TotalVertices ⟨0, 0, 0⟩
    else altColorWheelColors
  (v.written (CreateColorWheelColors colorCount minTracks RgbColorModel ⟨0, v.data⟩)).bind
    fun colors =>
      (w.written (CreateColorWheelColors colorCount minTracks RybColorModel ⟨0, w.data⟩)).bind
        fun alt => some (colors, alt)

/-- The function `CreateGeometry` on its vector. -/
def CreateGeometry (cos sin : α → α) (sectorCount trackCount : ℕ)
    (innerRadius sectorBlendT trackBlendT : α) (colorWheelVerts : StdVector (vec2 α)) :
    Option (StdVector (vec2 α)) :=
  let minTracks : ℕ := if 0 ≠ trackCount then trackCount else 1
  let TotalVertices : ℕ := minTracks * sectorCount * 4 % 2 ^ 32
  let v : StdVector (vec2 α) :=
    if colorWheelVerts.size < TotalVertices then colorWheelVerts.resize TotalVertices ⟨0, 0⟩
    else colorWheelVerts
  (CreateColorWheelGeometry cos sin sectorCount minTracks innerRadius sectorBlendT trackBlendT
    ⟨0, v.data⟩).bind fun o => v.written o

/-- A vector of `n` zeros. -/
def zeroTable (n : ℕ) : StdVector ℤ := ⟨n, fun _ => 0⟩

/-! ## Frame sequences and fields of the colour-space fade -/

/-- The state after `n` iterations of the loop with the GUI inputs `inp k` and the tick
readings `ticks k`. -/
def runFrames [FloorRing α] (inp : ℕ → GuiInput α) (ticks : ℕ → ℕ) : ℕ → State α → State α
  | 0, s => s
  | n + 1, s => RunGameLoopFrame (inp n) (ticks n) (runFrames inp ticks n s)

/-- Two states agree on the variables of the colour-space fade other than the GUI
selection. -/
def SameFade (s t : State α) : Prop :=
  t.currentColorSpace = s.currentColorSpace ∧ t.nextColorSpace = s.nextColorSpace ∧
  t.colorSpaceBlendT = s.colorSpaceBlendT ∧
  t.colorSpaceBlendDirection = s.colorSpaceBlendDirection

/-- A GUI frame in which "HSL" is clicked. -/
def clickHsl : GuiInput α := { (idleGui : GuiInput α) with checkHSL := true }

/-- A GUI frame in which the lightness slider is dragged to `v` and the cone geometry
is clicked. -/
def clickConeAt (v : α) : GuiInput α :=
  { (idleGui : GuiInput α) with checkHexcone := true, sliderLightness := fun _ => v }

/-- The start-up state after HSL with the bi-cone geometry has been selected and the
lightness set to `l`, before the cone has started to move. -/
def hslConeState [FloorRing α] (l : α) : State α :=
  { (initialState 0 : State α) with
    colorSpace := ColorSpace.Hsl, isGeometryCylinder := false, hsLightness := l }

/-- The cone-scale target `coneScale` that the cone block recomputes in every frame. -/
def coneTarget (s : State α) : α :=
  if s.colorSpace = ColorSpace.ColorWheel ∨ s.isGeometryCylinder = true then 1
  else if s.colorSpace = ColorSpace.Hsl then 1 - |s.hsLightness * 2 - 1|
  else s.hsValue

/-! ## Regeneration of the buffers in a frame -/

/-- The vertex buffers and draw-range tables of `RunGameLoop`. -/
structure Buffers (α : Type) where
  colorWheelSaturation : StdVector α
  colorWheelColors : StdVector (vec3 α)
  altColorWheelColors : StdVector (vec3 α)
  colorWheelVerts : StdVector (vec2 α)
  trackStartPositions : StdVector ℤ
  trackIndiceCounts : StdVector ℤ

/-- The four calls inside `if (isMorphing)`, in source order, for the `int` counts
`ColorCount` and `TrackCount` (converted to `unsigned int` by the calls) and the blends of
the state `s`. -/
def RegenerateBuffers [FloorRing α] (cos sin : α → α) (ColorCount TrackCount : ℤ)
    (s : State α) (b : Buffers α) : Option (Buffers α) :=
  (RecalculateIndices (toUInt32 ColorCount) (toUInt32 TrackCount) b.trackStartPositions
    b.trackIndiceCounts).bind fun tables =>
  (CreateColors (toUInt32 ColorCount) (toUInt32 TrackCount) b.colorWheelColors
    b.altColorWheelColors).bind fun colors =>
  (CreateSaturation (toUInt32 ColorCount) (toUInt32 TrackCount) s.trackBlendT
    b.colorWheelSaturation).bind fun saturation =>
  (CreateGeometry cos sin (toUInt32 ColorCount) (toUInt32 TrackCount) s.currentInnerRadius
    s.sectorBlendT s.trackBlendT b.colorWheelVerts).bind fun verts =>
  some
    { colorWheelSaturation := saturation
      colorWheelColors := colors.1
      altColorWheelColors := colors.2
      colorWheelVerts := verts
      trackStartPositions := tables.1
      trackIndiceCounts := tables.2 }

/-- The part of a frame from `const auto TrackCount = ...` to the draw: `TrackCount` is
computed in every frame, the buffers are regenerated when `isMorphing` is set, and
`DrawColorWheel` only reads the tables.  `none` stands for undefined behaviour. -/
def Regenerate [FloorRing α] (cos sin : α → α) (s : State α) (b : Buffers α) :
    Option (State α × Buffers α) :=
  (SaturationCountForTessellation s.currentSaturationCountPower).bind fun TrackCount =>
    if s.isMorphing = true then
      (ColorCountForTessellation s.currentColorCountPower).bind fun ColorCount =>
        (RegenerateBuffers cos sin ColorCount TrackCount s b).bind fun b1 =>
          some ({ s with isMorphing := false }, b1)
    else some (s, b)

/-- The state of a frame when its regeneration step is reached: the ticks have been read
and the scheduler blocks have run. -/
def FrameMorphs [FloorRing α] (current_ticks : ℕ) (s : State α) : State α :=
  AdvanceMorphs ((delta_t current_ticks s.prev_ticks : ℕ) : α)
    { s with prev_ticks := current_ticks }

/-- One iteration of the loop of `RunGameLoop` on the variables of `State` and the
buffers: read the ticks, advance the morphs, regenerate, run the GUI. -/
def RunGameLoopFrameBuffers [FloorRing α] (cos sin : α → α) (inp : GuiInput α)
    (current_ticks : ℕ) (s : State α) (b : Buffers α) : Option (State α × Buffers α) :=
  (Regenerate cos sin (FrameMorphs current_ticks s) b).map fun r => (GuiPass inp r.1, r.2)

/-- The state `t` has `isMorphing` set, or agrees with `s` on `isMorphing` and on the five
variables the generators depend on. -/
def Marked (s t : State α) : Prop :=
  t.isMorphing = true ∨
  (t.isMorphing = s.isMorphing ∧
    t.currentColorCountPower = s.currentColorCountPower ∧
    t.currentSaturationCountPower = s.currentSaturationCountPower ∧
    t.sectorBlendT = s.sectorBlendT ∧ t.trackBlendT = s.trackBlendT ∧
    t.currentInnerRadius = s.currentInnerRadius)

/-- Two states agree on `isMorphing` and on the variables that decide whether the
inner-radius, sector and track axes are active. -/
def SameAxes (s t : State α) : Prop :=
  t.isMorphing = s.isMorphing ∧
  t.innerRadiusBlendDirection = s.innerRadiusBlendDirection ∧
  t.colorCountPower = s.colorCountPower ∧
  t.currentColorCountPower = s.currentColorCountPower ∧
  t.sectorBlendVelocity = s.sectorBlendVelocity ∧
  t.saturationCountPower = s.saturationCountPower ∧
  t.currentSaturationCountPower = s.currentSaturationCountPower ∧
  t.trackBlendVelocity = s.trackBlendVelocity

/-- The buffers as `RunGameLoop` allocates them: `TotalVertices` elements per vertex
buffer and `SaturationCountForTessellation(MaxSaturationTessellations)` table entries. -/
def zeroBuffers : Buffers α :=
  { colorWheelSaturation := ⟨1572864, fun _ => 0⟩
    colorWheelColors := ⟨1572864, fun _ => ⟨0, 0, 0⟩⟩
    altColorWheelColors := ⟨1572864, fun _ => ⟨0, 0, 0⟩⟩
    colorWheelVerts := ⟨1572864, fun _ => ⟨0, 0⟩⟩
    trackStartPositions := zeroTable 512
    trackIndiceCounts := zeroTable 512 }

/-- A GUI frame in which only the track slider is dragged, to the value `v`. -/
def dragTracksTo (v : α) : GuiInput α :=
  { (idleGui : GuiInput α) with sliderTracks := fun _ => v }

/-! ## `RgbToCircularHue` of `math_utils.h` -/

/-- The component `v[i]` of a `glm::tvec3`. -/
def vec3.get (v : vec3 α) (i : ℤ) : α :=
  if i = 0 then v.r else if i = 1 then v.g else v.b

/-- The function `MaxIndex`. -/
def MaxIndex (v : vec3 α) : ℤ :=
  if v.get 0 > v.get 1 then (if v.get 0 > v.get 2 then 0 else 2)
  else (if v.get 1 > v.get 2 then 1 else 2)

/-- The function `MinIndex`. -/
def MinIndex (v : vec3 α) : ℤ :=
  if v.get 0 < v.get 1 then (if v.get 0 < v.get 2 then 0 else 2)
  else (if v.get 1 < v.get 2 then 1 else 2)

/-- The constant `trig::_60Degrees`. -/
def _60Degrees : α := Pi / 3

/-- The function `RgbToCircularHue`: the returned hue and the value of the reference
parameter `chroma` afterwards.  The tests `&v.r == &v[Mi]` compare `Mi` with 0, 1, 2. -/
def RgbToCircularHue [FloorRing α] (v : vec3 α) (chroma : α) : α × α :=
  let Mi : ℤ := MaxIndex v
  let mi : ℤ := MinIndex v
  let M : α := v.get Mi
  let m : α := v.get mi
  let C : α := M - m
  if C = 0 then (0, chroma)
  else
    let Hp : α :=
      if Mi = 0 then fmod ((v.g - v.b) / C) 6
      else if Mi = 1 then (v.b - v.r) / C + 2
      else if Mi = 2 then (v.r - v.g) / C + 4
      else 0
    (_60Degrees * Hp, C)

/-! ## Theorems -/

theorem sectorAxis_sectorLevelBlock (target : ℤ) (dt : α) (s : State α) :
    sectorAxis (sectorLevelBlock target dt s)
      = specTransition VertexBlendRate (sectorAxis s) target dt := by
  unfold sectorLevelBlock specTransition sectorAxis
  simp only [ne_eq, @eq_comm α 0 s.sectorBlendVelocity, ge_iff_le]
  split_ifs <;> first | rfl | (exfalso; omega) | (exfalso; tauto)

theorem trackAxis_trackLevelBlock (target : ℤ) (dt : α) (s : State α) :
    trackAxis (trackLevelBlock target dt s)
      = specTransition VertexBlendRate (trackAxis s) target dt := by
  unfold trackLevelBlock specTransition trackAxis
  simp only [ne_eq, @eq_comm α 0 s.trackBlendVelocity, ge_iff_le]
  split_ifs <;> first | rfl | (exfalso; omega) | (exfalso; tauto)

/-! ### Which variables each block of the frame touches -/

theorem colorBlendBlock_levels (dt : α) (s : State α) :
    sectorAxis (colorBlendBlock dt s) = sectorAxis s ∧
    trackAxis (colorBlendBlock dt s) = trackAxis s ∧
    (colorBlendBlock dt s).colorCountPower = s.colorCountPower ∧
    (colorBlendBlock dt s).saturationCountPower = s.saturationCountPower ∧
    (colorBlendBlock dt s).prev_ticks = s.prev_ticks := by
  unfold colorBlendBlock sectorAxis trackAxis
  dsimp only
  split_ifs <;> exact ⟨rfl, rfl, rfl, rfl, rfl⟩

theorem colorSpaceBlock_levels (dt : α) (s : State α) :
    sectorAxis (colorSpaceBlock dt s) = sectorAxis s ∧
    trackAxis (colorSpaceBlock dt s) = trackAxis s ∧
    (colorSpaceBlock dt s).colorCountPower = s.colorCountPower ∧
    (colorSpaceBlock dt s).saturationCountPower = s.saturationCountPower ∧
    (colorSpaceBlock dt s).prev_ticks = s.prev_ticks := by
  unfold colorSpaceBlock sectorAxis trackAxis
  dsimp only
  split_ifs <;> exact ⟨rfl, rfl, rfl, rfl, rfl⟩

theorem innerRadiusBlock_levels (dt : α) (s : State α) :
    sectorAxis (innerRadiusBlock dt s) = sectorAxis s ∧
    trackAxis (innerRadiusBlock dt s) = trackAxis s ∧
    (innerRadiusBlock dt s).colorCountPower = s.colorCountPower ∧
    (innerRadiusBlock dt s).saturationCountPower = s.saturationCountPower ∧
    (innerRadiusBlock dt s).prev_ticks = s.prev_ticks := by
  unfold innerRadiusBlock sectorAxis trackAxis
  dsimp only
  split_ifs <;> exact ⟨rfl, rfl, rfl, rfl, rfl⟩

theorem sectorLevelBlock_levels (target : ℤ) (dt : α) (s : State α) :
    trackAxis (sectorLevelBlock target dt s) = trackAxis s ∧
    (sectorLevelBlock target dt s).colorCountPower = s.colorCountPower ∧
    (sectorLevelBlock target dt s).saturationCountPower = s.saturationCountPower ∧
    (sectorLevelBlock target dt s).prev_ticks = s.prev_ticks := by
  unfold sectorLevelBlock trackAxis
  dsimp only
  split_ifs <;> exact ⟨rfl, rfl, rfl, rfl⟩

theorem trackLevelBlock_levels (target : ℤ) (dt : α) (s : State α) :
    sectorAxis (trackLevelBlock target dt s) = sectorAxis s ∧
    (trackLevelBlock target dt s).colorCountPower = s.colorCountPower ∧
    (trackLevelBlock target dt s).saturationCountPower = s.saturationCountPower ∧
    (trackLevelBlock target dt s).prev_ticks = s.prev_ticks := by
  unfold trackLevelBlock sectorAxis
  dsimp only
  split_ifs <;> exact ⟨rfl, rfl, rfl, rfl⟩

theorem coneScaleBlock_levels (dt : α) (s : State α) :
    sectorAxis (coneScaleBlock dt s) = sectorAxis s ∧
    trackAxis (coneScaleBlock dt s) = trackAxis s ∧
    (coneScaleBlock dt s).colorCountPower = s.colorCountPower ∧
    (coneScaleBlock dt s).saturationCountPower = s.saturationCountPower ∧
    (coneScaleBlock dt s).prev_ticks = s.prev_ticks := by
  unfold coneScaleBlock sectorAxis trackAxis
  dsimp only
  split_ifs <;> exact ⟨rfl, rfl, rfl, rfl, rfl⟩

theorem guiColorModel_levels (inp : GuiInput α) (s : State α) :
    sectorAxis (guiColorModel inp s) = sectorAxis s ∧
    trackAxis (guiColorModel inp s) = trackAxis s ∧
    (guiColorModel inp s).colorCountPower = s.colorCountPower ∧
    (guiColorModel inp s).saturationCountPower = s.saturationCountPower ∧
    (guiColorModel inp s).prev_ticks = s.prev_ticks := by
  unfold guiColorModel sectorAxis trackAxis
  dsimp only
  split_ifs <;> exact ⟨rfl, rfl, rfl, rfl, rfl⟩

theorem guiColorSpace_levels (inp : GuiInput α) (s : State α) :
    sectorAxis (guiColorSpace inp s) = sectorAxis s ∧
    trackAxis (guiColorSpace inp s) = trackAxis s ∧
    (guiColorSpace inp s).colorCountPower = s.colorCountPower ∧
    (guiColorSpace inp s).saturationCountPower = s.saturationCountPower ∧
    (guiColorSpace inp s).prev_ticks = s.prev_ticks := by
  unfold guiColorSpace sectorAxis trackAxis
  dsimp only
  split_ifs <;> exact ⟨rfl, rfl, rfl, rfl, rfl⟩

theorem guiLightness_levels (inp : GuiInput α) (s : State α) :
    sectorAxis (guiLightness inp s) = sectorAxis s ∧
    trackAxis (guiLightness inp s) = trackAxis s ∧
    (guiLightness inp s).colorCountPower = s.colorCountPower ∧
    (guiLightness inp s).saturationCountPower = s.saturationCountPower ∧
    (guiLightness inp s).prev_ticks = s.prev_ticks := by
  unfold guiLightness sectorAxis trackAxis
  dsimp only
  split_ifs <;> exact ⟨rfl, rfl, rfl, rfl, rfl⟩

theorem GuiPass_levels (inp : GuiInput α) (s : State α) :
    sectorAxis (GuiPass inp s) = sectorAxis s ∧
    trackAxis (GuiPass inp s) = trackAxis s ∧
    (GuiPass inp s).colorCountPower = inp.sliderSectors s.colorCountPower ∧
    (GuiPass inp s).saturationCountPower = inp.sliderTracks s.saturationCountPower ∧
    (GuiPass inp s).prev_ticks = s.prev_ticks := by
  obtain ⟨a1, a2, a3, a4, a5⟩ := guiColorModel_levels inp s
  obtain ⟨b1, b2, b3, b4, b5⟩ := guiColorSpace_levels inp (guiSliders inp (guiColorModel inp s))
  obtain ⟨c1, c2, c3, c4, c5⟩ :=
    guiLightness_levels inp (guiColorSpace inp (guiSliders inp (guiColorModel inp s)))
  unfold GuiPass
  rw [c1, c2, c3, c4, c5, b1, b2, b3, b4, b5]
  refine ⟨a1, a2, ?_, ?_, a5⟩
  · show inp.sliderSectors (guiColorModel inp s).colorCountPower = _
    rw [a3]
  · show inp.sliderTracks (guiColorModel inp s).saturationCountPower = _
    rw [a4]

theorem AdvanceMorphs_levels [FloorRing α] (dt : α) (s : State α) :
    sectorAxis (AdvanceMorphs dt s)
      = specTransition VertexBlendRate (sectorAxis s) (static_cast_int s.colorCountPower) dt ∧
    trackAxis (AdvanceMorphs dt s)
      = specTransition VertexBlendRate (trackAxis s) (static_cast_int s.saturationCountPower) dt ∧
    (AdvanceMorphs dt s).colorCountPower = s.colorCountPower ∧
    (AdvanceMorphs dt s).saturationCountPower = s.saturationCountPower ∧
    (AdvanceMorphs dt s).prev_ticks = s.prev_ticks := by
  unfold AdvanceMorphs
  dsimp only
  obtain ⟨a1, a2, a3, a4, a5⟩ := colorBlendBlock_levels dt s
  obtain ⟨b1, b2, b3, b4, b5⟩ := colorSpaceBlock_levels dt (colorBlendBlock dt s)
  obtain ⟨c1, c2, c3, c4, c5⟩ :=
    innerRadiusBlock_levels dt (colorSpaceBlock dt (colorBlendBlock dt s))
  generalize innerRadiusBlock dt (colorSpaceBlock dt (colorBlendBlock dt s)) = u at *
  have hu1 : sectorAxis u = sectorAxis s := by rw [c1, b1, a1]
  have hu2 : trackAxis u = trackAxis s := by rw [c2, b2, a2]
  have hu3 : u.colorCountPower = s.colorCountPower := by rw [c3, b3, a3]
  have hu4 : u.saturationCountPower = s.saturationCountPower := by rw [c4, b4, a4]
  have hu5 : u.prev_ticks = s.prev_ticks := by rw [c5, b5, a5]
  obtain ⟨d1, d2, d3, d4⟩ := sectorLevelBlock_levels (static_cast_int u.colorCountPower) dt u
  have d0 := sectorAxis_sectorLevelBlock (static_cast_int u.colorCountPower) dt u
  generalize sectorLevelBlock (static_cast_int u.colorCountPower) dt u = v at *
  obtain ⟨e1, e2, e3, e4⟩ := trackLevelBlock_levels (static_cast_int v.saturationCountPower) dt v
  have e0 := trackAxis_trackLevelBlock (static_cast_int v.saturationCountPower) dt v
  generalize trackLevelBlock (static_cast_int v.saturationCountPower) dt v = w at *
  obtain ⟨f1, f2, f3, f4, f5⟩ := coneScaleBlock_levels dt w
  refine ⟨?_, ?_, ?_, ?_, ?_⟩
  · rw [f1, e1, d0, hu1, hu3]
  · rw [f2, e0, d1, d3, hu2, hu4]
  · rw [f3, e2, d2, hu3]
  · rw [f4, e3, d3, hu4]
  · rw [f5, e4, d4, hu5]

theorem RunGameLoopFrame_levels [FloorRing α] (inp : GuiInput α) (current_ticks : ℕ)
    (s : State α) :
    sectorAxis (RunGameLoopFrame inp current_ticks s)
      = specTransition VertexBlendRate (sectorAxis s) (static_cast_int s.colorCountPower)
          ((delta_t current_ticks s.prev_ticks : ℕ) : α) ∧
    trackAxis (RunGameLoopFrame inp current_ticks s)
      = specTransition VertexBlendRate (trackAxis s) (static_cast_int s.saturationCountPower)
          ((delta_t current_ticks s.prev_ticks : ℕ) : α) ∧
    (RunGameLoopFrame inp current_ticks s).colorCountPower
      = inp.sliderSectors s.colorCountPower ∧
    (RunGameLoopFrame inp current_ticks s).saturationCountPower
      = inp.sliderTracks s.saturationCountPower ∧
    (RunGameLoopFrame inp current_ticks s).prev_ticks = current_ticks := by
  unfold RunGameLoopFrame frameBody
  dsimp only
  obtain ⟨a1, a2, a3, a4, a5⟩ :=
    AdvanceMorphs_levels ((delta_t current_ticks s.prev_ticks : ℕ) : α)
      { s with prev_ticks := current_ticks }
  generalize AdvanceMorphs ((delta_t current_ticks s.prev_ticks : ℕ) : α)
      { s with prev_ticks := current_ticks } = u at *
  obtain ⟨b1, b2, b3, b4, b5⟩ := GuiPass_levels inp { u with isMorphing := false }
  rw [b1, b2, b3, b4, b5]
  exact ⟨a1, a2, by rw [show ({ u with isMorphing := false } : State α).colorCountPower
    = u.colorCountPower from rfl, a3], by rw [show ({ u with isMorphing := false } :
    State α).saturationCountPower = u.saturationCountPower from rfl, a4], a5⟩

/-! ### Scheduler claims -/

/-- C1: one frame step of a discrete tessellation axis, the sector-level block and
identically the track-level block of `RunGameLoop`, equals the specified transition
rule for every state, target and elapsed time. -/
theorem axis_step_refines_rule (target : ℤ) (dt : α) (s : State α) :
    sectorAxis (sectorLevelBlock target dt s)
      = specTransition VertexBlendRate (sectorAxis s) target dt ∧
    trackAxis (trackLevelBlock target dt s)
      = specTransition VertexBlendRate (trackAxis s) target dt :=
  ⟨sectorAxis_sectorLevelBlock target dt s, trackAxis_trackLevelBlock target dt s⟩

theorem specTransition_up_zero (c target : ℤ) (v : α) (h : c < target) :
    specTransition (VertexBlendRate : α) ⟨c, 0, v⟩ target 0 = ⟨c - 1, 1, VertexBlendRate⟩ := by
  unfold specTransition
  have h1 : ¬ (target = c) := by omega
  have h2 : c ≤ target := by omega
  have h3 : ¬ (c - 1 = target) := by omega
  simp [h1, h2, h3]

/-- C2 (violated by the code): from the start-up state, drag the sector slider to 3,
let one frame of 16 ms pass (the level rises from 1 to 2 and the blend restarts at 0),
then run a frame with a tick difference of 0: the blend is still 0, the test
`sectorBlendT <= 0` fires and the level drops to 1, farther from the target 3. -/
theorem chase_moves_away_at_zero_dt :
    sectorAxis (RunGameLoopFrame idleGui 16
        (RunGameLoopFrame (dragSectorsTo 3) 0 (initialState 0 : State ℚ)))
      = ⟨2, 0, VertexBlendRate⟩ ∧
    static_cast_int (RunGameLoopFrame idleGui 16
        (RunGameLoopFrame (dragSectorsTo 3) 0 (initialState 0 : State ℚ))).colorCountPower = 3 ∧
    sectorAxis (RunGameLoopFrame idleGui 16 (RunGameLoopFrame idleGui 16
        (RunGameLoopFrame (dragSectorsTo 3) 0 (initialState 0 : State ℚ))))
      = ⟨1, 1, VertexBlendRate⟩ ∧
    |(3 : ℤ) - 2| < |(3 : ℤ) - 1| := by
  obtain ⟨a1, _, a3, _, a5⟩ :=
    RunGameLoopFrame_levels (dragSectorsTo 3) 0 (initialState 0 : State ℚ)
  generalize RunGameLoopFrame (dragSectorsTo 3) 0 (initialState 0 : State ℚ) = s1 at *
  have h1 : sectorAxis s1 = ⟨1, 1, 0⟩ := by
    rw [a1]
    simp [sectorAxis, initialState, specTransition, static_cast_int]
  have h1c : s1.colorCountPower = 3 := by rw [a3]; rfl
  obtain ⟨b1, _, b3, _, b5⟩ := RunGameLoopFrame_levels idleGui 16 s1
  generalize RunGameLoopFrame idleGui 16 s1 = s2 at *
  have h2c : s2.colorCountPower = 3 := by rw [b3, h1c]; rfl
  have hc3 : static_cast_int (3 : ℚ) = 3 := by simp [static_cast_int]
  have h2 : sectorAxis s2 = ⟨2, 0, VertexBlendRate⟩ := by
    rw [b1, h1, h1c, a5, hc3]
    norm_num [specTransition, delta_t, VertexBlendRate]
  obtain ⟨c1, _, _, _, _⟩ := RunGameLoopFrame_levels idleGui 16 s2
  refine ⟨h2, by rw [h2c, hc3], ?_, by norm_num⟩
  rw [c1, h2, h2c, b5, hc3]
  have hd : ((delta_t 16 16 : ℕ) : ℚ) = 0 := by norm_num [delta_t]
  rw [hd]
  exact specTransition_up_zero 2 3 _ (by norm_num)

theorem specTransition_chase (r : α) (hr : 0 < r) (a : AxisState α) (target : ℤ) (dt : α)
    (hdt : 0 < dt) (hb0 : 0 ≤ a.blendT) (hb1 : a.blendT ≤ 1) :
    |target - (specTransition r a target dt).current| ≤ |target - a.current| := by
  have hpos : 0 < dt * r := mul_pos hdt hr
  unfold specTransition
  by_cases hle : a.current ≤ target
  · have h1 : ¬ (a.blendT + dt * r ≤ 0) := by linarith
    simp only [ge_iff_le, hle, if_true, h1, if_false]
    split_ifs with h2 h3 h4
    · exact le_rfl
    · exact le_rfl
    · dsimp only
      have : a.current < target := by omega
      rw [abs_of_nonneg (by omega), abs_of_nonneg (by omega)]
      omega
    · exact le_rfl
  · have h1 : ¬ (1 ≤ a.blendT + dt * -r) := by
      have : dt * -r = -(dt * r) := by ring
      rw [this]
      linarith
    have h2 : ¬ (target = a.current) := by omega
    simp only [ge_iff_le, hle, if_false, h1, h2, false_and]
    have e1 : |target - (a.current - 1)| = -(target - (a.current - 1)) :=
      abs_of_nonpos (by omega)
    have e2 : |target - a.current| = -(target - a.current) := abs_of_nonpos (by omega)
    split_ifs <;> dsimp only <;> first | exact le_rfl | (rw [e1, e2]; omega)

theorem specTransition_level_step (r : α) (a : AxisState α) (target : ℤ) (dt : α) :
    ((specTransition r a target dt).current = a.current + 1 →
      (specTransition r a target dt).blendT = 0) ∧
    ((specTransition r a target dt).current = a.current - 1 →
      (specTransition r a target dt).blendT = 1) := by
  unfold specTransition
  dsimp only
  split_ifs <;> (try dsimp only) <;> constructor <;> intro h <;>
    first | rfl | (exfalso; omega)

/-- C4 (as stated, fails): in the start-up state with the sector target at 3, a frame of
16 ms increments the sector level, and the blend parameter is then 0, not 1. -/
theorem increment_resets_blend_to_zero :
    (sectorLevelBlock 3 16 (initialState 0 : State ℚ)).currentColorCountPower
      = (initialState 0 : State ℚ).currentColorCountPower + 1 ∧
    (sectorLevelBlock 3 16 (initialState 0 : State ℚ)).sectorBlendT = 0 ∧
    (sectorLevelBlock 3 16 (initialState 0 : State ℚ)).sectorBlendT ≠ 1 := by
  have h := sectorAxis_sectorLevelBlock 3 16 (initialState 0 : State ℚ)
  have h' : sectorAxis (sectorLevelBlock 3 16 (initialState 0 : State ℚ))
      = ⟨2, 0, VertexBlendRate⟩ := by
    rw [h]
    norm_num [sectorAxis, initialState, specTransition, static_cast_int, VertexBlendRate]
  have hc : (sectorLevelBlock 3 16 (initialState 0 : State ℚ)).currentColorCountPower = 2 :=
    congrArg AxisState.current h'
  have hb : (sectorLevelBlock 3 16 (initialState 0 : State ℚ)).sectorBlendT = 0 :=
    congrArg AxisState.blendT h'
  refine ⟨?_, hb, by rw [hb]; norm_num⟩
  rw [hc]
  simp [initialState, static_cast_int]

/-- C4 (amended): when a frame step of the sector-level or track-level axis changes the
level, the blend parameter restarts at the bound next to the old level: 0 after an
increment, 1 after a decrement. -/
theorem level_step_resets_blend (target : ℤ) (dt : α) (s : State α) :
    ((sectorLevelBlock target dt s).currentColorCountPower = s.currentColorCountPower + 1 →
      (sectorLevelBlock target dt s).sectorBlendT = 0) ∧
    ((sectorLevelBlock target dt s).currentColorCountPower = s.currentColorCountPower - 1 →
      (sectorLevelBlock target dt s).sectorBlendT = 1) ∧
    ((trackLevelBlock target dt s).currentSaturationCountPower
        = s.currentSaturationCountPower + 1 →
      (trackLevelBlock target dt s).trackBlendT = 0) ∧
    ((trackLevelBlock target dt s).currentSaturationCountPower
        = s.currentSaturationCountPower - 1 →
      (trackLevelBlock target dt s).trackBlendT = 1) := by
  have hs := sectorAxis_sectorLevelBlock target dt s
  have ht := trackAxis_trackLevelBlock target dt s
  have ks := specTransition_level_step VertexBlendRate (sectorAxis s) target dt
  have kt := specTransition_level_step VertexBlendRate (trackAxis s) target dt
  rw [← hs] at ks
  rw [← ht] at kt
  exact ⟨ks.1, ks.2, kt.1, kt.2⟩

/-- Witness for C4 (amended): the increment of the start-up state towards target 3. -/
theorem level_step_resets_blend_witness :
    (sectorLevelBlock 3 16 (initialState 0 : State ℚ)).sectorBlendT = 0 :=
  (level_step_resets_blend 3 16 (initialState 0 : State ℚ)).1 (by
    have h := sectorAxis_sectorLevelBlock 3 16 (initialState 0 : State ℚ)
    have h' : sectorAxis (sectorLevelBlock 3 16 (initialState 0 : State ℚ))
        = ⟨2, 0, VertexBlendRate⟩ := by
      rw [h]
      norm_num [sectorAxis, initialState, specTransition, static_cast_int, VertexBlendRate]
    have hc : (sectorLevelBlock 3 16 (initialState 0 : State ℚ)).currentColorCountPower = 2 :=
      congrArg AxisState.current h'
    rw [hc]
    simp [initialState, static_cast_int])


/-! ### The morph scenario -/

theorem specTransition_rising (r : α) (hr : 0 < r) (dt : α) (hdt : 0 < dt) (target c : ℤ)
    (b v : α) (hc : c < target) (hb : 0 ≤ b) :
    specTransition r ⟨c, b, v⟩ target dt
      = if 1 ≤ b + dt * r then ⟨c + 1, 0, r⟩ else ⟨c, b + dt * r, r⟩ := by
  have hpos : 0 < dt * r := mul_pos hdt hr
  have h1 : ¬ (target = c) := by omega
  have h1' : ¬ (c = target) := by omega
  have h2 : c ≤ target := by omega
  have h3 : ¬ (b + dt * r ≤ 0) := by linarith
  unfold specTransition
  simp only [h1, h1', h2, h3, false_and, if_false, ge_iff_le, if_true]

theorem specTransition_settling (r : α) (hr : 0 < r) (dt : α) (hdt : 0 < dt) (target : ℤ)
    (b : α) (hb : 0 ≤ b) :
    specTransition r ⟨target, b, r⟩ target dt
      = if 1 ≤ b + dt * r then ⟨target, 1, 0⟩ else ⟨target, b + dt * r, r⟩ := by
  have hpos : 0 < dt * r := mul_pos hdt hr
  have h0 : ¬ (r = 0) := ne_of_gt hr
  have h3 : ¬ (b + dt * r ≤ 0) := by linarith
  unfold specTransition
  simp only [h0, h3, and_false, if_false, ge_iff_le, le_refl, if_true]

theorem specTransition_rest (r : α) (target : ℤ) (b dt : α) :
    specTransition r ⟨target, b, 0⟩ target dt = ⟨target, b, 0⟩ := by
  unfold specTransition
  simp

theorem rising_sweep (r : α) (hr : 0 < r) (dt : α) (hdt : 0 < dt) (target : ℤ) (k : ℕ) :
    ∀ (c : ℤ) (b v : α), c < target → 0 ≤ b → 1 ≤ b + ((k : α) + 1) * (dt * r) →
      ∃ m : ℕ, (fun a => specTransition r a target dt)^[m + 1] ⟨c, b, v⟩ = ⟨c + 1, 0, r⟩ := by
  induction k with
  | zero =>
    intro c b v hc hb h1
    refine ⟨0, ?_⟩
    have h1' : 1 ≤ b + dt * r := by simpa using h1
    simp only [zero_add, Function.iterate_one]
    rw [specTransition_rising r hr dt hdt target c b v hc hb, if_pos h1']
  | succ k ih =>
    intro c b v hc hb h1
    by_cases h : 1 ≤ b + dt * r
    · refine ⟨0, ?_⟩
      simp only [zero_add, Function.iterate_one]
      rw [specTransition_rising r hr dt hdt target c b v hc hb, if_pos h]
    · have hpos : 0 < dt * r := mul_pos hdt hr
      obtain ⟨m, hm⟩ := ih c (b + dt * r) r hc (by linarith) (by
        push_cast at h1
        linarith)
      refine ⟨m + 1, ?_⟩
      rw [Function.iterate_succ_apply]
      rw [specTransition_rising r hr dt hdt target c b v hc hb, if_neg h]
      exact hm

theorem settling_sweep (r : α) (hr : 0 < r) (dt : α) (hdt : 0 < dt) (target : ℤ) (k : ℕ) :
    ∀ (b : α), 0 ≤ b → 1 ≤ b + ((k : α) + 1) * (dt * r) →
      ∃ m : ℕ, (fun a => specTransition r a target dt)^[m + 1] ⟨target, b, r⟩
        = ⟨target, 1, 0⟩ := by
  induction k with
  | zero =>
    intro b hb h1
    refine ⟨0, ?_⟩
    have h1' : 1 ≤ b + dt * r := by simpa using h1
    simp only [zero_add, Function.iterate_one]
    rw [specTransition_settling r hr dt hdt target b hb, if_pos h1']
  | succ k ih =>
    intro b hb h1
    by_cases h : 1 ≤ b + dt * r
    · refine ⟨0, ?_⟩
      simp only [zero_add, Function.iterate_one]
      rw [specTransition_settling r hr dt hdt target b hb, if_pos h]
    · have hpos : 0 < dt * r := mul_pos hdt hr
      obtain ⟨m, hm⟩ := ih (b + dt * r) (by linarith) (by
        push_cast at h1
        linarith)
      refine ⟨m + 1, ?_⟩
      rw [Function.iterate_succ_apply]
      rw [specTransition_settling r hr dt hdt target b hb, if_neg h]
      exact hm

theorem exists_steps_cover [FloorRing α] (d : α) (hd : 0 < d) :
    ∃ k : ℕ, ∀ b : α, 0 ≤ b → 1 ≤ b + ((k : α) + 1) * d := by
  obtain ⟨n, hn⟩ := exists_nat_gt (1 / d)
  refine ⟨n, fun b hb => ?_⟩
  have h1 : 1 < (n : α) * d := by
    have := (div_lt_iff₀ hd).mp hn
    linarith
  nlinarith


theorem sectorRun_axis (target : ℤ) (dt : α) (n : ℕ) (s : State α) :
    sectorAxis (sectorRun target dt n s)
      = (fun a => specTransition VertexBlendRate a target dt)^[n] (sectorAxis s) := by
  induction n with
  | zero => rfl
  | succ n ih =>
    unfold sectorRun at *
    rw [Function.iterate_succ_apply', Function.iterate_succ_apply',
      sectorAxis_sectorLevelBlock, ih]

theorem reaches_target_three [FloorRing α] (r : α) (hr : 0 < r) (dt : α) (hdt : 0 < dt)
    (b : α) (hb : 0 ≤ b) :
    ∃ N : ℕ, ∀ n, N ≤ n →
      (fun a => specTransition r a 3 dt)^[n] ⟨0, b, 0⟩ = ⟨3, 1, 0⟩ := by
  obtain ⟨k, hk⟩ := exists_steps_cover (dt * r) (mul_pos hdt hr)
  obtain ⟨A0, h0⟩ : ∃ A, (fun a => specTransition r a 3 dt)^[A] ⟨0, b, 0⟩ = ⟨1, 0, r⟩ := by
    obtain ⟨m, hm⟩ := rising_sweep r hr dt hdt 3 k 0 b 0 (by norm_num) hb (hk b hb)
    exact ⟨m + 1, hm⟩
  obtain ⟨A1, h1⟩ : ∃ A, (fun a => specTransition r a 3 dt)^[A] ⟨1, 0, r⟩ = ⟨2, 0, r⟩ := by
    obtain ⟨m, hm⟩ := rising_sweep r hr dt hdt 3 k 1 0 r (by norm_num) le_rfl (hk 0 le_rfl)
    exact ⟨m + 1, hm⟩
  obtain ⟨A2, h2⟩ : ∃ A, (fun a => specTransition r a 3 dt)^[A] ⟨2, 0, r⟩ = ⟨3, 0, r⟩ := by
    obtain ⟨m, hm⟩ := rising_sweep r hr dt hdt 3 k 2 0 r (by norm_num) le_rfl (hk 0 le_rfl)
    exact ⟨m + 1, hm⟩
  obtain ⟨A3, h3⟩ : ∃ A, (fun a => specTransition r a 3 dt)^[A] ⟨3, 0, r⟩ = ⟨3, 1, 0⟩ := by
    obtain ⟨m, hm⟩ := settling_sweep r hr dt hdt 3 k 0 le_rfl (hk 0 le_rfl)
    exact ⟨m + 1, hm⟩
  refine ⟨A3 + (A2 + (A1 + A0)), fun n hn => ?_⟩
  obtain ⟨j, rfl⟩ := Nat.exists_eq_add_of_le hn
  rw [Nat.add_comm _ j, Function.iterate_add_apply, Function.iterate_add_apply,
    Function.iterate_add_apply, Function.iterate_add_apply, h0, h1, h2, h3]
  have hfix : (fun a => specTransition r a 3 dt) ⟨3, 1, 0⟩ = ⟨3, 1, 0⟩ :=
    specTransition_rest r 3 1 dt
  exact @Function.iterate_fixed _ (fun a => specTransition r a 3 dt) _ hfix j

theorem rising_invariant (r : α) (hr : 0 < r) (dt : α) (hdt : 0 < dt) (target : ℤ)
    (a : AxisState α) (hb : 0 ≤ a.blendT) (hc : a.current ≤ target) :
    0 ≤ (specTransition r a target dt).blendT ∧
    (specTransition r a target dt).current ≤ target ∧
    ((specTransition r a target dt).current = a.current ∨
      (specTransition r a target dt).current = a.current + 1) ∧
    ((specTransition r a target dt).current ≠ a.current →
      (specTransition r a target dt).blendT = 0) := by
  have hpos : 0 < dt * r := mul_pos hdt hr
  have h3 : ¬ (a.blendT + dt * r ≤ 0) := by linarith
  unfold specTransition
  simp only [ge_iff_le, hc, if_true, h3, if_false]
  split_ifs <;> (try dsimp only) <;> refine ⟨?_, ?_, ?_, ?_⟩ <;>
    first
      | assumption
      | linarith
      | omega
      | exact Or.inl rfl
      | exact Or.inr rfl
      | (intro h; rfl)

theorem entered_exactly_once (c : ℕ → ℤ) (hstep : ∀ n, c (n + 1) = c n ∨ c (n + 1) = c n + 1)
    (h0 : c 0 = 0) (N : ℕ) (hN : c N = 3) (L : ℤ) (hL1 : 1 ≤ L) (hL3 : L ≤ 3) :
    ∃! n, c n ≠ L ∧ c (n + 1) = L := by
  have mono : ∀ i j, i ≤ j → c i ≤ c j := by
    intro i j hij
    induction j, hij using Nat.le_induction with
    | base => exact le_rfl
    | succ j _ ih => rcases hstep j with h | h <;> omega
  have hex : ∃ n, L ≤ c (n + 1) := by
    cases N with
    | zero => omega
    | succ N => exact ⟨N, by omega⟩
  classical
  let n0 := Nat.find hex
  have hn0 : L ≤ c (n0 + 1) := Nat.find_spec hex
  have hlt : c n0 < L := by
    cases h : n0 with
    | zero => omega
    | succ m =>
      have := Nat.find_min hex (show m < n0 by omega)
      omega
  refine ⟨n0, ⟨by omega, by rcases hstep n0 with h | h <;> omega⟩, ?_⟩
  rintro n ⟨hn1, hn2⟩
  have hnL : c n = L - 1 := by rcases hstep n with h | h <;> omega
  have hn0L : c n0 = L - 1 := by rcases hstep n0 with h | h <;> omega
  have hn0L' : c (n0 + 1) = L := by rcases hstep n0 with h | h <;> omega
  by_contra hne
  rcases Nat.lt_or_gt_of_ne hne with h | h
  · have := mono (n + 1) n0 h
    omega
  · have := mono (n0 + 1) n h
    omega


theorem VertexBlendRate_pos : (0 : α) < VertexBlendRate := by
  unfold VertexBlendRate
  norm_num

/-- C3: morph scheduler scenario.  Start the sector axis at level 0 at rest with the
blend in `[0, 1]`, hold the target at 3 and step with a fixed `dt > 0`.  Then from some
frame on the level is 3 and the velocity 0; the level never decreases and rises by
exactly one at a time; each of the levels 1, 2 and 3 is entered exactly once; and every
frame that changes the level ends with the blend at 0 or 1. -/
theorem morph_scenario [FloorRing α] (dt : α) (hdt : 0 < dt) (s : State α)
    (hc : s.currentColorCountPower = 0) (hv : s.sectorBlendVelocity = 0)
    (hb0 : 0 ≤ s.sectorBlendT) (_hb1 : s.sectorBlendT ≤ 1) :
    (∃ N : ℕ, ∀ n, N ≤ n →
      (sectorRun 3 dt n s).currentColorCountPower = 3 ∧
      (sectorRun 3 dt n s).sectorBlendVelocity = 0) ∧
    (∀ n, (sectorRun 3 dt (n + 1) s).currentColorCountPower
        = (sectorRun 3 dt n s).currentColorCountPower ∨
      (sectorRun 3 dt (n + 1) s).currentColorCountPower
        = (sectorRun 3 dt n s).currentColorCountPower + 1) ∧
    (∀ L : ℤ, 1 ≤ L → L ≤ 3 →
      ∃! n, (sectorRun 3 dt n s).currentColorCountPower ≠ L ∧
        (sectorRun 3 dt (n + 1) s).currentColorCountPower = L) ∧
    (∀ n, (sectorRun 3 dt (n + 1) s).currentColorCountPower
        ≠ (sectorRun 3 dt n s).currentColorCountPower →
      (sectorRun 3 dt (n + 1) s).sectorBlendT = 0 ∨
      (sectorRun 3 dt (n + 1) s).sectorBlendT = 1) := by
  have hr : (0 : α) < VertexBlendRate := VertexBlendRate_pos
  have hax : sectorAxis s = ⟨0, s.sectorBlendT, 0⟩ := by
    unfold sectorAxis
    rw [hc, hv]
  -- the run, seen on the axis
  have hrun : ∀ n, sectorAxis (sectorRun 3 dt n s)
      = (fun a => specTransition VertexBlendRate a 3 dt)^[n] ⟨0, s.sectorBlendT, 0⟩ := by
    intro n
    rw [sectorRun_axis, hax]
  have hsucc : ∀ n, sectorAxis (sectorRun 3 dt (n + 1) s)
      = specTransition VertexBlendRate (sectorAxis (sectorRun 3 dt n s)) 3 dt := by
    intro n
    rw [hrun, hrun, Function.iterate_succ_apply']
  -- invariant: blend non-negative, level at most the target
  have hinv : ∀ n, 0 ≤ (sectorAxis (sectorRun 3 dt n s)).blendT ∧
      (sectorAxis (sectorRun 3 dt n s)).current ≤ 3 := by
    intro n
    induction n with
    | zero =>
      rw [hrun]
      exact ⟨hb0, by norm_num⟩
    | succ n ih =>
      rw [hsucc]
      have := rising_invariant VertexBlendRate hr dt hdt 3 _ ih.1 ih.2
      exact ⟨this.1, this.2.1⟩
  have hstep : ∀ n, (sectorRun 3 dt (n + 1) s).currentColorCountPower
        = (sectorRun 3 dt n s).currentColorCountPower ∨
      (sectorRun 3 dt (n + 1) s).currentColorCountPower
        = (sectorRun 3 dt n s).currentColorCountPower + 1 := by
    intro n
    have := (rising_invariant VertexBlendRate hr dt hdt 3 _ (hinv n).1 (hinv n).2).2.2.1
    rw [← hsucc] at this
    exact this
  obtain ⟨N, hN⟩ := reaches_target_three VertexBlendRate hr dt hdt s.sectorBlendT hb0
  have hfinal : ∀ n, N ≤ n → sectorAxis (sectorRun 3 dt n s) = ⟨3, 1, 0⟩ := by
    intro n hn
    rw [hrun]
    exact hN n hn
  refine ⟨⟨N, fun n hn => ?_⟩, hstep, ?_, ?_⟩
  · exact ⟨congrArg AxisState.current (hfinal n hn), congrArg AxisState.velocity (hfinal n hn)⟩
  · intro L hL1 hL3
    exact entered_exactly_once (fun n => (sectorRun 3 dt n s).currentColorCountPower) hstep
      hc N (congrArg AxisState.current (hfinal N le_rfl)) L hL1 hL3
  · intro n hne
    have := (rising_invariant VertexBlendRate hr dt hdt 3 _ (hinv n).1 (hinv n).2).2.2.2
    rw [← hsucc] at this
    exact Or.inl (this hne)

/-- Witness for C3: the scenario started from the start-up state with the level reset
to 0, at 16 ms per frame. -/
theorem morph_scenario_witness :
    (∃ N : ℕ, ∀ n, N ≤ n →
      (sectorRun 3 (16 : ℚ) n
        { (initialState 0 : State ℚ) with currentColorCountPower := 0 }).currentColorCountPower
          = 3 ∧
      (sectorRun 3 (16 : ℚ) n
        { (initialState 0 : State ℚ) with currentColorCountPower := 0 }).sectorBlendVelocity
          = 0) :=
  (morph_scenario (16 : ℚ) (by norm_num)
    { (initialState 0 : State ℚ) with currentColorCountPower := 0 } rfl rfl
    (by norm_num [initialState]) (by norm_num [initialState])).1


/-! ### Range of the blend parameters -/

theorem Clamp_unit (x : α) : 0 ≤ Clamp x 0 1 ∧ Clamp x 0 1 ≤ 1 := by
  unfold Clamp
  exact ⟨le_min (le_max_right _ _) zero_le_one, min_le_right _ _⟩

theorem colorBlendBlock_range (dt : α) (s : State α) (h : BlendsInRange s) :
    BlendsInRange (colorBlendBlock dt s) ∧
    (colorBlendBlock dt s).currentInnerRadius = s.currentInnerRadius ∧
    (colorBlendBlock dt s).innerRadiusBlendT = s.innerRadiusBlendT := by
  obtain ⟨h1, h2, h3, h4, h5⟩ := h
  unfold colorBlendBlock
  dsimp only
  split_ifs
  · exact ⟨⟨h1, h2, h3, Clamp_unit _, h5⟩, rfl, rfl⟩
  · exact ⟨⟨h1, h2, h3, Clamp_unit _, h5⟩, rfl, rfl⟩
  · exact ⟨⟨h1, h2, h3, h4, h5⟩, rfl, rfl⟩

theorem colorSpaceBlock_range (dt : α) (s : State α) (h : BlendsInRange s) :
    BlendsInRange (colorSpaceBlock dt s) ∧
    (colorSpaceBlock dt s).currentInnerRadius = s.currentInnerRadius ∧
    (colorSpaceBlock dt s).innerRadiusBlendT = s.innerRadiusBlendT := by
  obtain ⟨h1, h2, h3, h4, h5⟩ := h
  unfold colorSpaceBlock
  dsimp only
  split_ifs <;>
    first
      | exact ⟨⟨h1, h2, h3, h4, le_rfl, zero_le_one⟩, rfl, rfl⟩
      | exact ⟨⟨h1, h2, h3, h4, Clamp_unit _⟩, rfl, rfl⟩
      | exact ⟨⟨h1, h2, h3, h4, h5⟩, rfl, rfl⟩

theorem innerRadiusBlock_range (dt : α) (s : State α) (h : BlendsInRange s) :
    BlendsInRange (innerRadiusBlock dt s) ∧
    (s.currentInnerRadius = s.innerRadiusBlendT * WheelInnerRadius →
      (innerRadiusBlock dt s).currentInnerRadius
        = (innerRadiusBlock dt s).innerRadiusBlendT * WheelInnerRadius) := by
  obtain ⟨h1, h2, h3, h4, h5⟩ := h
  unfold innerRadiusBlock
  dsimp only
  split_ifs <;>
    first
      | exact ⟨⟨h1, h2, Clamp_unit _, h4, h5⟩, fun _ => rfl⟩
      | exact ⟨⟨h1, h2, h3, h4, h5⟩, fun hr => hr⟩

theorem specTransition_range (r : α) (a : AxisState α) (target : ℤ) (dt : α)
    (h0 : 0 ≤ a.blendT) (h1 : a.blendT ≤ 1) :
    0 ≤ (specTransition r a target dt).blendT ∧ (specTransition r a target dt).blendT ≤ 1 := by
  unfold specTransition
  dsimp only
  split_ifs <;> (try dsimp only) <;> constructor <;>
    first
      | assumption
      | exact zero_le_one
      | exact le_rfl
      | (apply le_of_lt; apply lt_of_not_ge; assumption)

theorem sectorLevelBlock_range (target : ℤ) (dt : α) (s : State α) (h : BlendsInRange s) :
    BlendsInRange (sectorLevelBlock target dt s) ∧
    (sectorLevelBlock target dt s).currentInnerRadius = s.currentInnerRadius ∧
    (sectorLevelBlock target dt s).innerRadiusBlendT = s.innerRadiusBlendT := by
  obtain ⟨h1, h2, h3, h4, h5⟩ := h
  unfold sectorLevelBlock
  dsimp only
  split_ifs <;> refine ⟨⟨⟨?_, ?_⟩, h2, h3, h4, h5⟩, rfl, rfl⟩ <;>
    first
      | exact zero_le_one
      | exact le_rfl
      | exact h1.1
      | exact h1.2
      | (apply le_of_lt; apply lt_of_not_ge; assumption)

theorem trackLevelBlock_range (target : ℤ) (dt : α) (s : State α) (h : BlendsInRange s) :
    BlendsInRange (trackLevelBlock target dt s) ∧
    (trackLevelBlock target dt s).currentInnerRadius = s.currentInnerRadius ∧
    (trackLevelBlock target dt s).innerRadiusBlendT = s.innerRadiusBlendT := by
  obtain ⟨h1, h2, h3, h4, h5⟩ := h
  unfold trackLevelBlock
  dsimp only
  split_ifs <;> refine ⟨⟨h1, ⟨?_, ?_⟩, h3, h4, h5⟩, rfl, rfl⟩ <;>
    first
      | exact zero_le_one
      | exact le_rfl
      | exact h2.1
      | exact h2.2
      | (apply le_of_lt; apply lt_of_not_ge; assumption)

theorem coneScaleBlock_blends (dt : α) (s : State α) : SameBlends s (coneScaleBlock dt s) := by
  unfold coneScaleBlock SameBlends
  dsimp only
  split_ifs <;> exact ⟨rfl, rfl, rfl, rfl, rfl, rfl⟩

theorem guiColorModel_blends (inp : GuiInput α) (s : State α) :
    SameBlends s (guiColorModel inp s) := by
  unfold guiColorModel SameBlends
  dsimp only
  split_ifs <;> exact ⟨rfl, rfl, rfl, rfl, rfl, rfl⟩

theorem guiColorSpace_blends (inp : GuiInput α) (s : State α) :
    SameBlends s (guiColorSpace inp s) := by
  unfold guiColorSpace SameBlends
  dsimp only
  split_ifs <;> exact ⟨rfl, rfl, rfl, rfl, rfl, rfl⟩

theorem guiLightness_blends (inp : GuiInput α) (s : State α) :
    SameBlends s (guiLightness inp s) := by
  unfold guiLightness SameBlends
  dsimp only
  split_ifs <;> exact ⟨rfl, rfl, rfl, rfl, rfl, rfl⟩

theorem SameBlends.trans {s t u : State α} (h1 : SameBlends s t) (h2 : SameBlends t u) :
    SameBlends s u := by
  unfold SameBlends at *
  refine ⟨?_, ?_, ?_, ?_, ?_, ?_⟩
  · rw [h2.1, h1.1]
  · rw [h2.2.1, h1.2.1]
  · rw [h2.2.2.1, h1.2.2.1]
  · rw [h2.2.2.2.1, h1.2.2.2.1]
  · rw [h2.2.2.2.2.1, h1.2.2.2.2.1]
  · rw [h2.2.2.2.2.2, h1.2.2.2.2.2]

theorem SameBlends.range {s t : State α} (h : SameBlends s t) (hs : BlendsInRange s) :
    BlendsInRange t := by
  obtain ⟨a1, a2, a3, a4, a5, _⟩ := h
  unfold BlendsInRange
  rw [a1, a2, a3, a4, a5]
  exact hs

theorem GuiPass_blends (inp : GuiInput α) (s : State α) : SameBlends s (GuiPass inp s) := by
  unfold GuiPass
  have h1 := guiColorModel_blends inp s
  have h2 : SameBlends (guiColorModel inp s) (guiSliders inp (guiColorModel inp s)) :=
    ⟨rfl, rfl, rfl, rfl, rfl, rfl⟩
  have h3 := guiColorSpace_blends inp (guiSliders inp (guiColorModel inp s))
  have h4 := guiLightness_blends inp (guiColorSpace inp (guiSliders inp (guiColorModel inp s)))
  exact ((h1.trans h2).trans h3).trans h4

theorem AdvanceMorphs_range [FloorRing α] (dt : α) (s : State α) (h : BlendsInRange s) :
    BlendsInRange (AdvanceMorphs dt s) ∧
    (s.currentInnerRadius = s.innerRadiusBlendT * WheelInnerRadius →
      (AdvanceMorphs dt s).currentInnerRadius
        = (AdvanceMorphs dt s).innerRadiusBlendT * WheelInnerRadius) := by
  unfold AdvanceMorphs
  dsimp only
  obtain ⟨a1, a2, a3⟩ := colorBlendBlock_range dt s h
  obtain ⟨b1, b2, b3⟩ := colorSpaceBlock_range dt _ a1
  obtain ⟨c1, c2⟩ := innerRadiusBlock_range dt (colorSpaceBlock dt (colorBlendBlock dt s)) b1
  rw [b2, b3, a2, a3] at c2
  generalize innerRadiusBlock dt (colorSpaceBlock dt (colorBlendBlock dt s)) = u at *
  obtain ⟨d1, d2, d3⟩ := sectorLevelBlock_range (static_cast_int u.colorCountPower) dt u c1
  generalize sectorLevelBlock (static_cast_int u.colorCountPower) dt u = v at *
  obtain ⟨e1, e2, e3⟩ := trackLevelBlock_range (static_cast_int v.saturationCountPower) dt v d1
  generalize trackLevelBlock (static_cast_int v.saturationCountPower) dt v = w at *
  have f := coneScaleBlock_blends dt w
  refine ⟨f.range e1, fun hr => ?_⟩
  obtain ⟨_, _, f3, _, _, f6⟩ := f
  rw [f6, f3, e2, e3, d2, d3, c2 hr]

theorem frameBody_range [FloorRing α] (inp : GuiInput α) (dt : α) (s : State α)
    (h : BlendsInRange s) :
    BlendsInRange (frameBody inp dt s) ∧
    (s.currentInnerRadius = s.innerRadiusBlendT * WheelInnerRadius →
      (frameBody inp dt s).currentInnerRadius
        = (frameBody inp dt s).innerRadiusBlendT * WheelInnerRadius) := by
  unfold frameBody
  dsimp only
  obtain ⟨a1, a2⟩ := AdvanceMorphs_range dt s h
  generalize AdvanceMorphs dt s = u at *
  have g := GuiPass_blends inp { u with isMorphing := false }
  refine ⟨g.range a1, fun hr => ?_⟩
  obtain ⟨_, _, g3, _, _, g6⟩ := g
  rw [g6, g3]
  exact a2 hr

theorem RunGameLoopFrame_range [FloorRing α] (inp : GuiInput α) (current_ticks : ℕ)
    (s : State α) (h : BlendsInRange s) :
    BlendsInRange (RunGameLoopFrame inp current_ticks s) ∧
    (s.currentInnerRadius = s.innerRadiusBlendT * WheelInnerRadius →
      (RunGameLoopFrame inp current_ticks s).currentInnerRadius
        = (RunGameLoopFrame inp current_ticks s).innerRadiusBlendT * WheelInnerRadius) := by
  unfold RunGameLoopFrame
  exact frameBody_range inp _ { s with prev_ticks := current_ticks } h

theorem initialState_range [FloorRing α] (ticks : ℕ) :
    BlendsInRange (initialState ticks : State α) ∧
    (initialState ticks : State α).currentInnerRadius
      = (initialState ticks : State α).innerRadiusBlendT * WheelInnerRadius := by
  unfold BlendsInRange initialState
  dsimp only
  norm_num

theorem Reachable_range [FloorRing α] (s : State α) (h : Reachable s) :
    BlendsInRange s ∧ s.currentInnerRadius = s.innerRadiusBlendT * WheelInnerRadius := by
  induction h with
  | start ticks => exact initialState_range ticks
  | frame inp t s _ ih => exact ⟨(RunGameLoopFrame_range inp t s ih.1).1,
      (RunGameLoopFrame_range inp t s ih.1).2 ih.2⟩

/-- C5: range invariant of the blend parameters.  If the five blend parameters lie in
`[0, 1]` before a frame they do so after it, for every elapsed time (any `dt` for the
frame body, any tick reading for the frame) and every GUI input; consequently, in every
state the loop reaches, `currentInnerRadius = innerRadiusBlendT * WheelInnerRadius` and
it lies in `[0, 0.5]`. -/
theorem blend_range_invariant [FloorRing α] (inp : GuiInput α) (dt : α) (current_ticks : ℕ)
    (s : State α) (h : BlendsInRange s) :
    BlendsInRange (frameBody inp dt s) ∧
    BlendsInRange (RunGameLoopFrame inp current_ticks s) ∧
    (∀ t : State α, Reachable t →
      BlendsInRange t ∧
      t.currentInnerRadius = t.innerRadiusBlendT * WheelInnerRadius ∧
      0 ≤ t.currentInnerRadius ∧ t.currentInnerRadius ≤ 0.5) := by
  refine ⟨(frameBody_range inp dt s h).1, (RunGameLoopFrame_range inp current_ticks s h).1,
    fun t ht => ?_⟩
  obtain ⟨h1, h2⟩ := Reachable_range t ht
  refine ⟨h1, h2, ?_, ?_⟩
  · rw [h2]
    exact mul_nonneg h1.2.2.1.1 (by unfold WheelInnerRadius; norm_num)
  · rw [h2]
    have := h1.2.2.1.2
    unfold WheelInnerRadius
    linarith

/-- Witness for C5: the start-up state, a frame 16 ms later with the sector slider
dragged to 3. -/
theorem blend_range_invariant_witness :
    BlendsInRange (RunGameLoopFrame (dragSectorsTo 3) 16 (initialState 0 : State ℚ)) :=
  (blend_range_invariant (dragSectorsTo 3) (16 : ℚ) 16 (initialState 0 : State ℚ)
    (initialState_range 0).1).2.1


/-! ### Loops and output iterators -/

theorem forLoop_one {σ : Type} (n : ℕ) (f : σ → σ) :
    ∀ (k i : ℕ) (s : σ), n - i = k → forLoop n 1 (fun _ => f) i s = f^[k] s := by
  intro k
  induction k with
  | zero =>
    intro i s h
    rw [forLoop, if_neg (by omega)]
    rfl
  | succ k ih =>
    intro i s h
    rw [forLoop, if_pos ⟨by omega, by norm_num⟩, ih (i + 1) (f s) (by omega)]
    rfl

theorem forLoop_two {σ : Type} (n : ℕ) (f : σ → σ) :
    ∀ (k i : ℕ) (s : σ), (n + 1 - i) / 2 = k → forLoop n 2 (fun _ => f) i s = f^[k] s := by
  intro k
  induction k with
  | zero =>
    intro i s h
    rw [forLoop, if_neg (by omega)]
    rfl
  | succ k ih =>
    intro i s h
    rw [forLoop, if_pos ⟨by omega, by norm_num⟩, ih (i + 2) (f s) (by omega)]
    rfl

theorem OutIt.put_it {β : Type} (o : OutIt β) (v : β) : (o.put v).it = o.it + 1 := rfl

theorem OutIt.put_buf {β : Type} (o : OutIt β) (v : β) (j : ℕ) :
    (o.put v).buf j = if j = o.it then v else o.buf j := by
  unfold OutIt.put Function.update
  simp

theorem iterate_writes_upto {σ β : Type} (out : σ → OutIt β) (step : σ → σ) (n K : ℕ)
    (P : ℕ → σ → Prop) (f : ℕ → ℕ → β)
    (hstep : ∀ i s, i < K → P i s →
      P (i + 1) (step s) ∧ (out (step s)).it = (out s).it + n ∧
      (∀ c, c < n → (out (step s)).buf ((out s).it + c) = f i c) ∧
      (∀ j, j < (out s).it ∨ (out s).it + n ≤ j → (out (step s)).buf j = (out s).buf j))
    (s0 : σ) (h0 : P 0 s0) (k : ℕ) (hk : k ≤ K) :
    P k (step^[k] s0) ∧ (out (step^[k] s0)).it = (out s0).it + k * n ∧
    (∀ i c, i < k → c < n → (out (step^[k] s0)).buf ((out s0).it + i * n + c) = f i c) ∧
    (∀ j, j < (out s0).it ∨ (out s0).it + k * n ≤ j →
      (out (step^[k] s0)).buf j = (out s0).buf j) := by
  induction k with
  | zero =>
    refine ⟨h0, by simp, ?_, fun j _ => rfl⟩
    intro i c hi
    omega
  | succ k ih =>
    obtain ⟨hP, hit, hbuf, hframe⟩ := ih (by omega)
    rw [Function.iterate_succ_apply']
    obtain ⟨sP, sit, sbuf, sframe⟩ := hstep k _ (by omega) hP
    have hmul : (k + 1) * n = k * n + n := Nat.succ_mul k n
    refine ⟨sP, by rw [sit, hit, hmul]; omega, ?_, ?_⟩
    · intro i c hi hc
      by_cases hik : i < k
      · have hlt : i * n + c < k * n := by
          have : (i + 1) * n ≤ k * n := Nat.mul_le_mul_right n hik
          rw [Nat.succ_mul] at this
          omega
        rw [sframe _ (Or.inl (by rw [hit]; omega))]
        exact hbuf i c hik hc
      · have hik' : i = k := by omega
        subst hik'
        have := sbuf c hc
        rw [hit] at this
        exact this
    · intro j hj
      rw [sframe j (by rw [hit]; omega)]
      exact hframe j (by omega)

theorem iterate_writes {σ β : Type} (out : σ → OutIt β) (step : σ → σ) (n : ℕ)
    (P : ℕ → σ → Prop) (f : ℕ → ℕ → β)
    (hstep : ∀ i s, P i s →
      P (i + 1) (step s) ∧ (out (step s)).it = (out s).it + n ∧
      (∀ c, c < n → (out (step s)).buf ((out s).it + c) = f i c) ∧
      (∀ j, j < (out s).it ∨ (out s).it + n ≤ j → (out (step s)).buf j = (out s).buf j))
    (s0 : σ) (h0 : P 0 s0) (k : ℕ) :
    P k (step^[k] s0) ∧ (out (step^[k] s0)).it = (out s0).it + k * n ∧
    (∀ i c, i < k → c < n → (out (step^[k] s0)).buf ((out s0).it + i * n + c) = f i c) ∧
    (∀ j, j < (out s0).it ∨ (out s0).it + k * n ≤ j →
      (out (step^[k] s0)).buf j = (out s0).buf j) :=
  iterate_writes_upto out step n k P f (fun i s _ hP => hstep i s hP) s0 h0 k le_rfl

/-! ### The mesh generator -/

theorem emitSector_spec (cos sin : α → α) (D E O Inner Outer : α) (sp : SectorPair α) :
    (emitSector cos sin D E O Inner Outer sp).sectorAngle = sp.sectorAngle + D ∧
    (emitSector cos sin D E O Inner Outer sp).isEvenSector = !sp.isEvenSector ∧
    (emitSector cos sin D E O Inner Outer sp).out.it = sp.out.it + 4 ∧
    (∀ c, c < 4 → (emitSector cos sin D E O Inner Outer sp).out.buf (sp.out.it + c)
      = cellCorner cos sin (sp.sectorAngle - if sp.isEvenSector then E else O)
          (sp.sectorAngle + if sp.isEvenSector then E else O) Inner Outer c) ∧
    (∀ j, j < sp.out.it ∨ sp.out.it + 4 ≤ j →
      (emitSector cos sin D E O Inner Outer sp).out.buf j = sp.out.buf j) := by
  refine ⟨rfl, rfl, rfl, ?_, ?_⟩
  · intro c hc
    unfold emitSector
    simp only [OutIt.put_buf, OutIt.put_it]
    interval_cases c <;> simp only [cellCorner, vec2.scale, Nat.add_zero] <;>
      split_ifs <;> first | rfl | (exfalso; omega)
  · intro j hj
    unfold emitSector
    simp only [OutIt.put_buf, OutIt.put_it]
    have h0 : ¬ (j = sp.out.it) := by omega
    have h1 : ¬ (j = sp.out.it + 1) := by omega
    have h2 : ¬ (j = sp.out.it + 1 + 1) := by omega
    have h3 : ¬ (j = sp.out.it + 1 + 1 + 1) := by omega
    simp only [h0, h1, h2, h3, if_false]


theorem sectors_emitted (cos sin : α → α) (D E O Inner Outer : α) (o : OutIt (vec2 α))
    (k : ℕ) :
    ((emitSector cos sin D E O Inner Outer)^[k] ⟨o, 0, true⟩).sectorAngle = (k : α) * D ∧
    ((emitSector cos sin D E O Inner Outer)^[k] ⟨o, 0, true⟩).isEvenSector
      = decide (k % 2 = 0) ∧
    ((emitSector cos sin D E O Inner Outer)^[k] ⟨o, 0, true⟩).out.it = o.it + k * 4 ∧
    (∀ s c, s < k → c < 4 →
      ((emitSector cos sin D E O Inner Outer)^[k] ⟨o, 0, true⟩).out.buf (o.it + s * 4 + c)
        = cellCorner cos sin ((s : α) * D - if s % 2 = 0 then E else O)
            ((s : α) * D + if s % 2 = 0 then E else O) Inner Outer c) ∧
    (∀ j, j < o.it ∨ o.it + k * 4 ≤ j →
      ((emitSector cos sin D E O Inner Outer)^[k] ⟨o, 0, true⟩).out.buf j = o.buf j) := by
  have h := iterate_writes SectorPair.out (emitSector cos sin D E O Inner Outer) 4
    (fun i sp => sp.sectorAngle = (i : α) * D ∧ sp.isEvenSector = decide (i % 2 = 0))
    (fun s c => cellCorner cos sin ((s : α) * D - if s % 2 = 0 then E else O)
      ((s : α) * D + if s % 2 = 0 then E else O) Inner Outer c)
    (by
      intro i sp hP
      obtain ⟨hA, hE⟩ := hP
      obtain ⟨a1, a2, a3, a4, a5⟩ := emitSector_spec cos sin D E O Inner Outer sp
      refine ⟨⟨?_, ?_⟩, a3, ?_, a5⟩
      · rw [a1, hA]
        push_cast
        ring
      · rw [a2, hE]
        rcases Nat.mod_two_eq_zero_or_one i with h | h <;>
          simp [h, Nat.add_mod]
      · intro c hc
        rw [a4 c hc, hA, hE]
        simp only [decide_eq_true_eq])
    ⟨o, 0, true⟩ ⟨by simp, by simp⟩ k
  exact ⟨h.1.1, h.1.2, h.2.1, h.2.2.1, h.2.2.2⟩

theorem sectorPairs_eq (cos sin : α → α) (D E O Inner Outer : α) (k : ℕ) :
    ∀ sp : SectorPair α, sp.isEvenSector = true →
      (emitSectorPair cos sin D E O Inner Outer)^[k] ⟨sp.out, sp.sectorAngle⟩
        = ⟨((emitSector cos sin D E O Inner Outer)^[2 * k] sp).out,
           ((emitSector cos sin D E O Inner Outer)^[2 * k] sp).sectorAngle⟩ := by
  induction k with
  | zero => intro sp _; rfl
  | succ k ih =>
    intro sp hsp
    have hstep : emitSectorPair cos sin D E O Inner Outer ⟨sp.out, sp.sectorAngle⟩
        = ⟨(emitSector cos sin D E O Inner Outer
              (emitSector cos sin D E O Inner Outer sp)).out,
           (emitSector cos sin D E O Inner Outer
              (emitSector cos sin D E O Inner Outer sp)).sectorAngle⟩ := by
      unfold emitSectorPair
      dsimp only
      rw [forLoop_one 2 _ 2 0 _ rfl]
      have : (⟨sp.out, sp.sectorAngle, true⟩ : SectorPair α) = sp := by
        cases sp
        simp only at hsp
        subst hsp
        rfl
      rw [this]
      rfl
    rw [Function.iterate_succ_apply, hstep]
    have h2 : 2 * (k + 1) = 2 * k + 1 + 1 := by ring
    rw [h2, Function.iterate_succ_apply, Function.iterate_succ_apply]
    exact ih (emitSector cos sin D E O Inner Outer (emitSector cos sin D E O Inner Outer sp))
      (by
        obtain ⟨_, a2, _⟩ := emitSector_spec cos sin D E O Inner Outer sp
        obtain ⟨_, b2, _⟩ := emitSector_spec cos sin D E O Inner Outer
          (emitSector cos sin D E O Inner Outer sp)
        rw [b2, a2, hsp]
        rfl)

theorem emitTrack_spec (cos sin : α → α) (S : ℕ) (D E O We Wo : α) (tr : TrackLoop α) :
    (emitTrack cos sin S D E O We Wo tr).trackInnerRadius
      = tr.trackInnerRadius + (if tr.isEvenTrack then We else Wo) ∧
    (emitTrack cos sin S D E O We Wo tr).isEvenTrack = !tr.isEvenTrack ∧
    (emitTrack cos sin S D E O We Wo tr).out.it = tr.out.it + 2 * ((S + 1) / 2) * 4 ∧
    (∀ s c, s < 2 * ((S + 1) / 2) → c < 4 →
      (emitTrack cos sin S D E O We Wo tr).out.buf (tr.out.it + s * 4 + c)
        = cellCorner cos sin ((s : α) * D - if s % 2 = 0 then E else O)
            ((s : α) * D + if s % 2 = 0 then E else O) tr.trackInnerRadius
            (tr.trackInnerRadius + (if tr.isEvenTrack then We else Wo)) c) ∧
    (∀ j, j < tr.out.it ∨ tr.out.it + 2 * ((S + 1) / 2) * 4 ≤ j →
      (emitTrack cos sin S D E O We Wo tr).out.buf j = tr.out.buf j) := by
  have hout : (emitTrack cos sin S D E O We Wo tr).out
      = ((emitSector cos sin D E O tr.trackInnerRadius
          (tr.trackInnerRadius + (if tr.isEvenTrack then We else Wo)))^[2 * ((S + 1) / 2)]
          ⟨tr.out, 0, true⟩).out := by
    unfold emitTrack
    dsimp only
    rw [forLoop_two S _ ((S + 1) / 2) 0 _ rfl]
    have := sectorPairs_eq cos sin D E O tr.trackInnerRadius
      (tr.trackInnerRadius + (if tr.isEvenTrack then We else Wo)) ((S + 1) / 2)
      ⟨tr.out, 0, true⟩ rfl
    dsimp only at this
    rw [this]
  obtain ⟨_, _, a3, a4, a5⟩ := sectors_emitted cos sin D E O tr.trackInnerRadius
    (tr.trackInnerRadius + (if tr.isEvenTrack then We else Wo)) tr.out (2 * ((S + 1) / 2))
  refine ⟨rfl, rfl, ?_, ?_, ?_⟩
  · rw [hout, a3]
  · intro s c hs hc
    rw [hout, a4 s c hs hc]
  · intro j hj
    rw [hout, a5 j hj]


theorem trackInnerAt_succ (w r b : α) (t : ℕ) :
    trackInnerAt w r b (t + 1)
      = trackInnerAt w r b t + (if t % 2 = 0 then w + w * (1 - b) else w * b) ∧
    trackOuterAt w r b t
      = trackInnerAt w r b t + (if t % 2 = 0 then w + w * (1 - b) else w * b) := by
  unfold trackInnerAt trackOuterAt
  rcases Nat.mod_two_eq_zero_or_one t with h | h
  · have h' : (t + 1) % 2 = 1 := by omega
    simp only [h, h', if_true, one_ne_zero, if_false]
    push_cast
    constructor <;> ring
  · have h' : (t + 1) % 2 = 0 := by omega
    simp only [h, h', if_true, one_ne_zero, if_false]
    push_cast
    constructor <;> ring

theorem tracks_emitted (cos sin : α → α) (S : ℕ) (D w r sb tb : α) (o : OutIt (vec2 α))
    (k : ℕ) :
    ((emitTrack cos sin S D (D * (1 - sb / 2)) (D * (sb / 2)) (w + w * (1 - tb)) (w * tb))^[k]
        ⟨o, r, true⟩).out.it = o.it + k * (2 * ((S + 1) / 2) * 4) ∧
    (∀ t s c, t < k → s < 2 * ((S + 1) / 2) → c < 4 →
      ((emitTrack cos sin S D (D * (1 - sb / 2)) (D * (sb / 2)) (w + w * (1 - tb))
        (w * tb))^[k] ⟨o, r, true⟩).out.buf (o.it + (t * (2 * ((S + 1) / 2)) + s) * 4 + c)
        = meshVertex cos sin D w r sb tb t s c) ∧
    (∀ j, j < o.it ∨ o.it + k * (2 * ((S + 1) / 2) * 4) ≤ j →
      ((emitTrack cos sin S D (D * (1 - sb / 2)) (D * (sb / 2)) (w + w * (1 - tb))
        (w * tb))^[k] ⟨o, r, true⟩).out.buf j = o.buf j) := by
  have h := iterate_writes TrackLoop.out
    (emitTrack cos sin S D (D * (1 - sb / 2)) (D * (sb / 2)) (w + w * (1 - tb)) (w * tb))
    (2 * ((S + 1) / 2) * 4)
    (fun t tr => tr.trackInnerRadius = trackInnerAt w r tb t ∧
      tr.isEvenTrack = decide (t % 2 = 0))
    (fun t i => meshVertex cos sin D w r sb tb t (i / 4) (i % 4))
    (by
      intro t tr hP
      obtain ⟨hR, hE⟩ := hP
      obtain ⟨a1, a2, a3, a4, a5⟩ := emitTrack_spec cos sin S D (D * (1 - sb / 2))
        (D * (sb / 2)) (w + w * (1 - tb)) (w * tb) tr
      refine ⟨⟨?_, ?_⟩, a3, ?_, a5⟩
      · rw [a1, hR, hE, (trackInnerAt_succ w r tb t).1]
        simp only [decide_eq_true_eq]
      · rw [a2, hE]
        rcases Nat.mod_two_eq_zero_or_one t with h | h <;>
          simp [h, Nat.add_mod]
      · intro i hi
        have hidx : tr.out.it + i / 4 * 4 + i % 4 = tr.out.it + i := by omega
        have h4 := a4 (i / 4) (i % 4) (by omega) (by omega)
        rw [hidx] at h4
        rw [h4, hR, hE]
        show _ = meshVertex cos sin D w r sb tb t (i / 4) (i % 4)
        unfold meshVertex sectorHalfAngleAt
        rw [(trackInnerAt_succ w r tb t).2]
        simp only [decide_eq_true_eq])
    ⟨o, r, true⟩ ⟨by simp [trackInnerAt], by simp⟩ k
  obtain ⟨_, h2, h3, h4⟩ := h
  refine ⟨h2, ?_, h4⟩
  intro t s c ht hs hc
  have := h3 t (s * 4 + c) ht (by omega)
  have e1 : (s * 4 + c) / 4 = s := by omega
  have e2 : (s * 4 + c) % 4 = c := by omega
  rw [e1, e2] at this
  rw [← this]
  congr 1
  ring

theorem geometry_layout (cos sin : α → α) (S T : ℕ) (r sb tb : α) (pos : OutIt (vec2 α)) :
    (CreateColorWheelGeometryLoops cos sin S T r sb tb pos).it
      = pos.it + 2 * (((if 0 ≠ T then T else 1) + 1) / 2) * (2 * ((S + 1) / 2) * 4) ∧
    (∀ t s c, t < 2 * (((if 0 ≠ T then T else 1) + 1) / 2) → s < 2 * ((S + 1) / 2) → c < 4 →
      (CreateColorWheelGeometryLoops cos sin S T r sb tb pos).buf
          (pos.it + (t * (2 * ((S + 1) / 2)) + s) * 4 + c)
        = meshVertex cos sin (TwoPi / (S : α))
            (if T > 0 then (1 - r) / (T : α) else 1 - r) r sb tb t s c) ∧
    (∀ j, j < pos.it ∨
        pos.it + 2 * (((if 0 ≠ T then T else 1) + 1) / 2) * (2 * ((S + 1) / 2) * 4) ≤ j →
      (CreateColorWheelGeometryLoops cos sin S T r sb tb pos).buf j = pos.buf j) := by
  have hout : CreateColorWheelGeometryLoops cos sin S T r sb tb pos
      = ((emitTrack cos sin S (TwoPi / (S : α)) (TwoPi / (S : α) * (1 - sb / 2))
          (TwoPi / (S : α) * (sb / 2))
          ((if T > 0 then (1 - r) / (T : α) else 1 - r)
            + (if T > 0 then (1 - r) / (T : α) else 1 - r) * (1 - tb))
          ((if T > 0 then (1 - r) / (T : α) else 1 - r) * tb))^[
            2 * (((if 0 ≠ T then T else 1) + 1) / 2)] ⟨pos, r, true⟩).out := by
    unfold CreateColorWheelGeometryLoops
    dsimp only
    rw [forLoop_two _ _ (((if 0 ≠ T then T else 1) + 1) / 2) 0 _ rfl]
    rw [Function.iterate_mul]
    congr 2
    funext tracks
    exact forLoop_one 2 _ 2 0 tracks rfl
  rw [hout]
  exact tracks_emitted cos sin S (TwoPi / (S : α))
    (if T > 0 then (1 - r) / (T : α) else 1 - r) r sb tb pos _

theorem geometry_even (cos sin : α → α) (S T : ℕ) (hS : 2 ≤ S) (hSe : S % 2 = 0)
    (hT : 2 ≤ T) (hTe : T % 2 = 0) (r sb tb : α) (pos : OutIt (vec2 α)) :
    CreateColorWheelGeometry cos sin S T r sb tb pos
      = some (CreateColorWheelGeometryLoops cos sin S T r sb tb pos) ∧
    (CreateColorWheelGeometryLoops cos sin S T r sb tb pos).it = pos.it + S * T * 4 ∧
    (∀ t s c, t < T → s < S → c < 4 →
      (CreateColorWheelGeometryLoops cos sin S T r sb tb pos).buf
          (pos.it + (t * S + s) * 4 + c)
        = meshVertex cos sin (TwoPi / (S : α)) ((1 - r) / (T : α)) r sb tb t s c) ∧
    (∀ j, j < pos.it ∨ pos.it + S * T * 4 ≤ j →
      (CreateColorWheelGeometryLoops cos sin S T r sb tb pos).buf j = pos.buf j) := by
  have hES : 2 * ((S + 1) / 2) = S := by omega
  have hT0 : (if 0 ≠ T then T else 1) = T := by
    rw [if_pos (by omega)]
  have hET : 2 * (((if 0 ≠ T then T else 1) + 1) / 2) = T := by
    rw [hT0]
    omega
  have hw : (if T > 0 then (1 - r) / (T : α) else 1 - r) = (1 - r) / (T : α) := by
    rw [if_pos (by omega)]
  obtain ⟨g1, g2, g3⟩ := geometry_layout cos sin S T r sb tb pos
  rw [hET, hES] at g1 g3
  rw [hET] at g2
  rw [hES, hw] at g2
  have hmul : T * (S * 4) = S * T * 4 := by ring
  rw [hmul] at g1 g3
  refine ⟨?_, g1, g2, g3⟩
  unfold CreateColorWheelGeometry
  rw [if_pos ⟨hS, hSe, Or.inr hTe⟩]

/-- C6 (violated by the code): with 2 sectors and the single track its assertion
admits, `CreateColorWheelGeometry` runs the two-track pair of its inner track loop and
returns the iterator advanced by 16 elements, not by `2 * 1 * 4 = 8`. -/
theorem single_track_emits_two_tracks (cos sin : α → α) (r sb tb : α)
    (pos : OutIt (vec2 α)) :
    CreateColorWheelGeometry cos sin 2 1 r sb tb pos
      = some (CreateColorWheelGeometryLoops cos sin 2 1 r sb tb pos) ∧
    (CreateColorWheelGeometryLoops cos sin 2 1 r sb tb pos).it = pos.it + 16 ∧
    (CreateColorWheelGeometryLoops cos sin 2 1 r sb tb pos).it ≠ pos.it + 2 * 1 * 4 := by
  obtain ⟨g1, _, _⟩ := geometry_layout cos sin 2 1 r sb tb pos
  have h16 : (CreateColorWheelGeometryLoops cos sin 2 1 r sb tb pos).it = pos.it + 16 := by
    rw [g1]
    norm_num
  refine ⟨?_, h16, by rw [h16]; omega⟩
  unfold CreateColorWheelGeometry
  rw [if_pos ⟨le_rfl, rfl, Or.inl rfl⟩]

theorem normSq_polar (ca sa R : α) (h : ca ^ 2 + sa ^ 2 = 1) :
    (⟨ca * R, sa * R⟩ : vec2 α).normSq = R ^ 2 := by
  unfold vec2.normSq
  dsimp only
  linear_combination R ^ 2 * h

theorem cellCorner_normSq (cos sin : α → α) (hcs : ∀ a, cos a ^ 2 + sin a ^ 2 = 1)
    (lower upper inner outer : α) (c : ℕ) (hc : c < 4) :
    (cellCorner cos sin lower upper inner outer c).normSq
      = if c % 2 = 0 then inner ^ 2 else outer ^ 2 := by
  interval_cases c <;> simp only [cellCorner] <;> norm_num <;>
    exact normSq_polar _ _ _ (hcs _)

/-- C7 (violated by the code): with 2 sectors, the single track the assertion admits,
inner radius 0.5 and both blends 0, the second position written (lower angle, outer
radius of track 0) has Euclidean norm 1.5, above 1: the track step is computed for one
track but the even track of a pair is given twice that width. -/
theorem single_track_exceeds_unit_circle (pos : OutIt (vec2 ℝ)) :
    CreateColorWheelGeometry Real.cos Real.sin 2 1 (1 / 2) 0 0 pos
      = some (CreateColorWheelGeometryLoops Real.cos Real.sin 2 1 (1 / 2) 0 0 pos) ∧
    Real.sqrt ((CreateColorWheelGeometryLoops Real.cos Real.sin 2 1 (1 / 2) 0 0 pos).buf
      (pos.it + 1)).normSq = 3 / 2 ∧
    ¬ Real.sqrt ((CreateColorWheelGeometryLoops Real.cos Real.sin 2 1 (1 / 2) 0 0 pos).buf
      (pos.it + 1)).normSq ≤ 1 := by
  obtain ⟨_, g2, _⟩ := geometry_layout Real.cos Real.sin 2 1 (1 / 2 : ℝ) 0 0 pos
  have h := g2 0 0 1 (by norm_num) (by norm_num) (by norm_num)
  have hidx : pos.it + (0 * (2 * ((2 + 1) / 2)) + 0) * 4 + 1 = pos.it + 1 := by norm_num
  rw [hidx] at h
  have hn : ((CreateColorWheelGeometryLoops Real.cos Real.sin 2 1 (1 / 2) 0 0 pos).buf
      (pos.it + 1)).normSq = (3 / 2) ^ 2 := by
    rw [h]
    unfold meshVertex
    rw [cellCorner_normSq Real.cos Real.sin Real.cos_sq_add_sin_sq _ _ _ _ 1 (by norm_num)]
    unfold trackOuterAt
    norm_num
  have hs : Real.sqrt ((CreateColorWheelGeometryLoops Real.cos Real.sin 2 1 (1 / 2) 0 0
      pos).buf (pos.it + 1)).normSq = 3 / 2 := by
    rw [hn]
    exact Real.sqrt_sq (by norm_num)
  refine ⟨?_, hs, by rw [hs]; norm_num⟩
  unfold CreateColorWheelGeometry
  rw [if_pos ⟨le_rfl, rfl, Or.inl rfl⟩]

/-- C8: mesh layout.  For even `S >= 2` and even `T >= 2` the generator succeeds and
the cell of track `t < T` and sector `s < S` occupies the output indices
`(t * S + s) * 4 .. (t * S + s) * 4 + 3` (track-major, then sector), holding the corners
(lower, inner), (lower, outer), (upper, inner), (upper, outer) as
`(cos angle * radius, sin angle * radius)` with `lower = s * D - h`, `upper = s * D + h`,
`D = 2 * pi / S`, `h = D * (1 - sectorBlendT / 2)` for even `s` and
`D * (sectorBlendT / 2)` for odd `s`. -/
theorem mesh_layout (cos sin : α → α) (S T : ℕ) (hS : 2 ≤ S) (hSe : S % 2 = 0)
    (hT : 2 ≤ T) (hTe : T % 2 = 0) (innerRadius sectorBlendT trackBlendT : α)
    (position : OutIt (vec2 α)) (t s : ℕ) (ht : t < T) (hs : s < S) :
    ∃ o, CreateColorWheelGeometry cos sin S T innerRadius sectorBlendT trackBlendT position
        = some o ∧
      MeshCellAt cos sin S T innerRadius sectorBlendT trackBlendT position.it o t s := by
  obtain ⟨g0, _, g2, _⟩ :=
    geometry_even cos sin S T hS hSe hT hTe innerRadius sectorBlendT trackBlendT position
  refine ⟨_, g0, ?_⟩
  unfold MeshCellAt
  dsimp only
  refine ⟨?_, ?_, ?_, ?_⟩
  · rw [g2 t s 0 ht hs (by norm_num)]
    rfl
  · rw [g2 t s 1 ht hs (by norm_num)]
    rfl
  · rw [g2 t s 2 ht hs (by norm_num)]
    rfl
  · rw [g2 t s 3 ht hs (by norm_num)]
    rfl

/-- Witness for C8: the start-up mesh (6 sectors, 2 tracks, inner radius 0.5), cell of
track 1 and sector 5. -/
theorem mesh_layout_witness :
    ∃ o, CreateColorWheelGeometry Real.cos Real.sin 6 2 (1 / 2) 0 0 zeroPositions = some o ∧
      MeshCellAt Real.cos Real.sin 6 2 (1 / 2) 0 0 0 o 1 5 :=
  mesh_layout Real.cos Real.sin 6 2 (by norm_num) (by norm_num) (by norm_num) (by norm_num)
    (1 / 2) 0 0 zeroPositions 1 5 (by norm_num) (by norm_num)

theorem track_radius_bounds (T : ℕ) (hT : 2 ≤ T) (hTe : T % 2 = 0) (r : α)
    (h1 : r ≤ 1) (t : ℕ) (ht : t < T) :
    (r ≤ trackInnerAt ((1 - r) / (T : α)) r 0 t ∧ trackInnerAt ((1 - r) / (T : α)) r 0 t ≤ 1) ∧
    (r ≤ trackOuterAt ((1 - r) / (T : α)) r 0 t ∧
      trackOuterAt ((1 - r) / (T : α)) r 0 t ≤ 1) := by
  have hTpos : (0 : α) < (T : α) := by exact_mod_cast (by omega : 0 < T)
  have hw : 0 ≤ (1 - r) / (T : α) := div_nonneg (by linarith) hTpos.le
  have key : ∀ m : ℕ, m ≤ T →
      r ≤ r + (1 - r) / (T : α) * (m : α) ∧ r + (1 - r) / (T : α) * (m : α) ≤ 1 := by
    intro m hm
    have hm' : (m : α) ≤ (T : α) := by exact_mod_cast hm
    have hm0 : (0 : α) ≤ (m : α) := by exact_mod_cast Nat.zero_le m
    constructor
    · have := mul_nonneg hw hm0
      linarith
    · have h2 : (1 - r) / (T : α) * (m : α) ≤ (1 - r) / (T : α) * (T : α) :=
        mul_le_mul_of_nonneg_left hm' hw
      have h3 : (1 - r) / (T : α) * (T : α) = 1 - r := div_mul_cancel₀ _ (ne_of_gt hTpos)
      linarith
  unfold trackInnerAt trackOuterAt
  rcases Nat.mod_two_eq_zero_or_one t with h | h
  · simp only [h, if_true]
    have a := key t (by omega)
    have b := key (t + 2) (by omega)
    push_cast at b
    refine ⟨a, ?_⟩
    rw [sub_zero]
    exact b
  · have hne : ¬ (1 = 0) := by norm_num
    simp only [h, hne, if_false]
    have a := key (t + 1) (by omega)
    push_cast at a
    refine ⟨?_, a⟩
    rw [sub_zero]
    exact a

theorem mesh_norm_bounds_even (S T : ℕ) (hS : 2 ≤ S) (hSe : S % 2 = 0) (hT : 2 ≤ T)
    (hTe : T % 2 = 0) (r : ℝ) (h0 : 0 ≤ r) (h1 : r ≤ 1) (pos : OutIt (vec2 ℝ))
    (t s c : ℕ) (ht : t < T) (hs : s < S) (hc : c < 4) :
    r ≤ Real.sqrt ((CreateColorWheelGeometryLoops Real.cos Real.sin S T r 0 0 pos).buf
      (pos.it + (t * S + s) * 4 + c)).normSq ∧
    Real.sqrt ((CreateColorWheelGeometryLoops Real.cos Real.sin S T r 0 0 pos).buf
      (pos.it + (t * S + s) * 4 + c)).normSq ≤ 1 := by
  obtain ⟨_, _, g2, _⟩ := geometry_even Real.cos Real.sin S T hS hSe hT hTe r 0 0 pos
  obtain ⟨⟨i0, i1⟩, ⟨o0, o1⟩⟩ := track_radius_bounds T hT hTe r h1 t ht
  rw [g2 t s c ht hs hc]
  unfold meshVertex
  rw [cellCorner_normSq Real.cos Real.sin Real.cos_sq_add_sin_sq _ _ _ _ c hc]
  split_ifs
  · rw [Real.sqrt_sq (by linarith)]
    exact ⟨i0, i1⟩
  · rw [Real.sqrt_sq (by linarith)]
    exact ⟨o0, o1⟩

/-! ### The colour generator -/

theorem TwoPi_pos : (0 : α) < TwoPi := by
  unfold TwoPi Pi
  norm_num

theorem static_cast_int_nonneg [FloorRing α] (x : α) (hx : 0 ≤ x) :
    static_cast_int x = ⌊x⌋ := by
  unfold static_cast_int
  rw [if_pos hx]

theorem ClampRadians_of_mem [FloorRing α] (h : α) (h0 : 0 ≤ h) (h1 : h < TwoPi) :
    ClampRadians h = h := by
  unfold ClampRadians
  rw [if_neg (not_le.mpr h1), if_neg (not_lt.mpr h0)]

theorem hue_of_mem [FloorRing α] (colorModel : ℤ → α) (h : α) (h0 : 0 ≤ h)
    (h1 : h < TwoPi) :
    CalculateHueForColorModel 18 h colorModel
      = vec3.mix (h / (TwoPi / 6) - ((⌊h / (TwoPi / 6)⌋ % 6 : ℤ) : α))
          (controlPoint colorModel (⌊h / (TwoPi / 6)⌋ % 6))
          (controlPoint colorModel ((⌊h / (TwoPi / 6)⌋ % 6 + 1) % 6)) := by
  have hR : (0 : α) < TwoPi / 6 := div_pos TwoPi_pos (by norm_num)
  have hq0 : 0 ≤ h / (TwoPi / 6) := div_nonneg h0 hR.le
  have hq6 : h / (TwoPi / 6) < 6 := by
    rw [div_lt_iff₀ hR]
    linarith
  have hk0 : 0 ≤ ⌊h / (TwoPi / 6)⌋ := Int.floor_nonneg.mpr hq0
  have hk6 : ⌊h / (TwoPi / 6)⌋ < 6 := by
    rw [Int.floor_lt]
    exact_mod_cast hq6
  have hmod : ⌊h / (TwoPi / 6)⌋ % 6 = ⌊h / (TwoPi / 6)⌋ := Int.emod_eq_of_lt hk0 hk6
  rw [hmod]
  generalize hk : ⌊h / (TwoPi / 6)⌋ = k at *
  unfold CalculateHueForColorModel
  dsimp only
  rw [ClampRadians_of_mem h h0 h1]
  have e63 : (18 / 3 : ℕ) = 6 := rfl
  simp only [e63, Nat.cast_ofNat, Int.cast_ofNat]
  rw [static_cast_int_nonneg _ hq0, hk]
  have hlow : ¬ (k ≥ 6) := by omega
  simp only [hlow, if_false]
  have hu : (h - (k : α) * (TwoPi / 6)) / (TwoPi / 6) = h / (TwoPi / 6) - (k : α) := by
    rw [sub_div, mul_div_assoc, div_self (ne_of_gt hR), mul_one]
  rw [hu]
  by_cases hup : k + 1 ≥ 6
  · have hk5 : k = 5 := by omega
    subst hk5
    simp [vec3.mix, controlPoint]
  · have hm : (k + 1) % 6 = k + 1 := Int.emod_eq_of_lt (by omega) (by omega)
    simp only [hup, if_false, hm, vec3.mix, controlPoint]

theorem emitColor_spec [FloorRing α] (colorModel : ℤ → α) (D : α) (st : ColorLoop α) :
    (emitColor colorModel D st).hue = st.hue + D ∧
    (emitColor colorModel D st).out.it = st.out.it + 4 ∧
    (∀ c, c < 4 → (emitColor colorModel D st).out.buf (st.out.it + c)
      = CalculateHueForColorModel 18 st.hue colorModel) ∧
    (∀ j, j < st.out.it ∨ st.out.it + 4 ≤ j →
      (emitColor colorModel D st).out.buf j = st.out.buf j) := by
  have hout : (emitColor colorModel D st).out
      = (((st.out.put (CalculateHueForColorModel 18 st.hue colorModel)).put
          (CalculateHueForColorModel 18 st.hue colorModel)).put
          (CalculateHueForColorModel 18 st.hue colorModel)).put
          (CalculateHueForColorModel 18 st.hue colorModel) := by
    unfold emitColor
    dsimp only
    rw [forLoop_one 4 _ 4 0 _ rfl]
    rfl
  refine ⟨rfl, by rw [hout]; rfl, ?_, ?_⟩
  · intro c hc
    rw [hout]
    simp only [OutIt.put_buf, OutIt.put_it]
    interval_cases c <;> simp only [Nat.add_zero] <;>
      split_ifs <;> rfl
  · intro j hj
    rw [hout]
    simp only [OutIt.put_buf, OutIt.put_it]
    have h0 : ¬ (j = st.out.it) := by omega
    have h1 : ¬ (j = st.out.it + 1) := by omega
    have h2 : ¬ (j = st.out.it + 1 + 1) := by omega
    have h3 : ¬ (j = st.out.it + 1 + 1 + 1) := by omega
    simp only [h0, h1, h2, h3, if_false]

theorem colors_first_track [FloorRing α] (colorModel : ℤ → α) (D : α)
    (pos : OutIt (vec3 α)) (k : ℕ) :
    ((emitColor colorModel D)^[k] ⟨pos, 0⟩).out.it = pos.it + k * 4 ∧
    (∀ s c, s < k → c < 4 →
      ((emitColor colorModel D)^[k] ⟨pos, 0⟩).out.buf (pos.it + s * 4 + c)
        = CalculateHueForColorModel 18 ((s : α) * D) colorModel) ∧
    (∀ j, j < pos.it ∨ pos.it + k * 4 ≤ j →
      ((emitColor colorModel D)^[k] ⟨pos, 0⟩).out.buf j = pos.buf j) := by
  have h := iterate_writes ColorLoop.out (emitColor colorModel D) 4
    (fun i st => st.hue = (i : α) * D)
    (fun s _ => CalculateHueForColorModel 18 ((s : α) * D) colorModel)
    (by
      intro i st hP
      obtain ⟨a1, a2, a3, a4⟩ := emitColor_spec colorModel D st
      refine ⟨?_, a2, ?_, a4⟩
      · show (emitColor colorModel D st).hue = ((i + 1 : ℕ) : α) * D
        rw [a1, hP]
        push_cast
        ring
      · intro c hc
        rw [a3 c hc, hP])
    ⟨pos, 0⟩ (by simp) k
  exact ⟨h.2.1, h.2.2.1, h.2.2.2⟩

theorem copyTrack_spec (position m : ℕ) (o : OutIt (vec3 α)) (hsrc : position + m ≤ o.it) :
    (copyTrack position m o).it = o.it + m ∧
    (∀ i, i < m → (copyTrack position m o).buf (o.it + i) = o.buf (position + i)) ∧
    (∀ j, j < o.it ∨ o.it + m ≤ j → (copyTrack position m o).buf j = o.buf j) := by
  have hout : copyTrack position m o = (copyElement^[m] ⟨position, o⟩).out := by
    unfold copyTrack
    rw [forLoop_one m _ m 0 _ rfl]
  have h := iterate_writes_upto CopyLoop.out (copyElement : CopyLoop α → CopyLoop α) 1 m
    (fun i c => c.srcIt = position + i ∧ c.out.it = o.it + i ∧
      ∀ j, j < o.it → c.out.buf j = o.buf j)
    (fun i _ => o.buf (position + i))
    (by
      intro i c hi hP
      obtain ⟨p1, p2, p3⟩ := hP
      refine ⟨⟨?_, ?_, ?_⟩, rfl, ?_, ?_⟩
      · show c.srcIt + 1 = position + (i + 1)
        rw [p1]
        rfl
      · show c.out.it + 1 = o.it + (i + 1)
        rw [p2]
        rfl
      · intro j hj
        show (c.out.put (c.out.buf c.srcIt)).buf j = o.buf j
        rw [OutIt.put_buf, if_neg (by omega)]
        exact p3 j hj
      · intro c' hc'
        show (c.out.put (c.out.buf c.srcIt)).buf (c.out.it + c') = o.buf (position + i)
        have hc0 : c' = 0 := by omega
        subst hc0
        rw [OutIt.put_buf, if_pos (Nat.add_zero _), p1]
        exact p3 _ (by omega)
      · intro j hj
        show (c.out.put (c.out.buf c.srcIt)).buf j = c.out.buf j
        rw [OutIt.put_buf, if_neg (by omega)])
    ⟨position, o⟩ ⟨rfl, rfl, fun _ _ => rfl⟩ m le_rfl
  obtain ⟨_, h2, h3, h4⟩ := h
  rw [hout]
  refine ⟨by rw [h2]; simp, ?_, ?_⟩
  · intro i hi
    have := h3 i 0 hi (by norm_num)
    simpa using this
  · intro j hj
    exact h4 j (by simpa using hj)


theorem colors_layout [FloorRing α] (S T : ℕ) (colorModel : ℤ → α) (pos : OutIt (vec3 α)) :
    (CreateColorWheelColors S T colorModel pos).it
      = pos.it + S * 4 + (T - 1) * (S * 4 % 2 ^ 32) ∧
    (∀ s c, s < S → c < 4 →
      (CreateColorWheelColors S T colorModel pos).buf (pos.it + s * 4 + c)
        = CalculateHueForColorModel 18 ((s : α) * (TwoPi / (S : α))) colorModel) ∧
    (∀ t s c, t < T - 1 → s * 4 + c < S * 4 % 2 ^ 32 → c < 4 →
      (CreateColorWheelColors S T colorModel pos).buf
          (pos.it + S * 4 + t * (S * 4 % 2 ^ 32) + (s * 4 + c))
        = CalculateHueForColorModel 18 ((s : α) * (TwoPi / (S : α))) colorModel) ∧
    (∀ j, j < pos.it ∨ pos.it + S * 4 + (T - 1) * (S * 4 % 2 ^ 32) ≤ j →
      (CreateColorWheelColors S T colorModel pos).buf j = pos.buf j) := by
  obtain ⟨f1, f2, f3⟩ := colors_first_track colorModel (TwoPi / (S : α)) pos S
  have hm : S * 4 % 2 ^ 32 ≤ S * 4 := Nat.mod_le _ _
  have hout : CreateColorWheelColors S T colorModel pos
      = (copyTrack pos.it (S * 4 % 2 ^ 32))^[T - 1]
          ((emitColor colorModel (TwoPi / (S : α)))^[S] ⟨pos, 0⟩).out := by
    unfold CreateColorWheelColors
    dsimp only
    rw [forLoop_one S _ S 0 _ rfl, forLoop_one T _ (T - 1) 1 _ rfl]
  generalize ((emitColor colorModel (TwoPi / (S : α)))^[S] ⟨pos, 0⟩).out = F at *
  generalize S * 4 % 2 ^ 32 = m at *
  have h := iterate_writes (fun o : OutIt (vec3 α) => o) (copyTrack pos.it m) m
    (fun t o => o.it = pos.it + S * 4 + t * m ∧ ∀ j, j < pos.it + S * 4 → o.buf j = F.buf j)
    (fun _ i => F.buf (pos.it + i))
    (by
      intro t o hP
      obtain ⟨p1, p2⟩ := hP
      obtain ⟨c1, c2, c3⟩ := copyTrack_spec pos.it m o (by rw [p1]; omega)
      refine ⟨⟨?_, ?_⟩, c1, ?_, c3⟩
      · rw [c1, p1, Nat.succ_mul]
        omega
      · intro j hj
        rw [c3 j (Or.inl (by rw [p1]; omega))]
        exact p2 j hj
      · intro i hi
        rw [c2 i hi]
        exact p2 _ (by omega))
    F ⟨by rw [f1]; simp, fun _ _ => rfl⟩ (T - 1)
  obtain ⟨_, h2, h3, h4⟩ := h
  rw [hout]
  refine ⟨by rw [h2, f1], ?_, ?_, ?_⟩
  · intro s c hs hc
    rw [h4 _ (Or.inl (by rw [f1]; omega))]
    exact f2 s c hs hc
  · intro t s c ht hsc hc
    have := h3 t (s * 4 + c) ht hsc
    rw [f1] at this
    have e : pos.it + (s * 4 + c) = pos.it + s * 4 + c := by omega
    rw [this, e]
    exact f2 s c (by omega) hc
  · intro j hj
    rw [h4 j (by rw [f1]; omega)]
    exact f3 j (by omega)


theorem hue_at_control_point [FloorRing α] (colorModel : ℤ → α) (k : ℕ) (hk : k < 6) :
    CalculateHueForColorModel 18 ((k : α) * (TwoPi / 6)) colorModel
      = controlPoint colorModel k := by
  have hR : (0 : α) < TwoPi / 6 := div_pos TwoPi_pos (by norm_num)
  have hk0 : (0 : α) ≤ (k : α) := Nat.cast_nonneg k
  have hk5 : (k : α) ≤ 5 := by exact_mod_cast (by omega : k ≤ 5)
  have h0 : 0 ≤ (k : α) * (TwoPi / 6) := mul_nonneg hk0 hR.le
  have h1 : (k : α) * (TwoPi / 6) < TwoPi := by
    have : (k : α) * (TwoPi / 6) ≤ 5 * (TwoPi / 6) := mul_le_mul_of_nonneg_right hk5 hR.le
    have hpos : (0 : α) < TwoPi := TwoPi_pos
    linarith
  have hq : (k : α) * (TwoPi / 6) / (TwoPi / 6) = (k : α) := by
    rw [mul_div_assoc, div_self (ne_of_gt hR), mul_one]
  have hfl : ⌊(k : α)⌋ = (k : ℤ) := Int.floor_natCast k
  have hmod : (k : ℤ) % 6 = (k : ℤ) := Int.emod_eq_of_lt (by omega) (by omega)
  rw [hue_of_mem colorModel _ h0 h1, hq, hfl, hmod]
  unfold vec3.mix
  simp

theorem colors_fit_layout [FloorRing α] (S T : ℕ) (hT : 1 ≤ T) (hfit : S * 4 < 2 ^ 32)
    (colorModel : ℤ → α) (pos : OutIt (vec3 α)) :
    (CreateColorWheelColors S T colorModel pos).it = pos.it + S * T * 4 ∧
    (∀ t s c, t < T → s < S → c < 4 →
      (CreateColorWheelColors S T colorModel pos).buf (pos.it + (t * S + s) * 4 + c)
        = CalculateHueForColorModel 18 ((s : α) * (TwoPi / (S : α))) colorModel) ∧
    (∀ j, j < pos.it ∨ pos.it + S * T * 4 ≤ j →
      (CreateColorWheelColors S T colorModel pos).buf j = pos.buf j) := by
  obtain ⟨g1, g2, g3, g4⟩ := colors_layout S T colorModel pos
  rw [Nat.mod_eq_of_lt hfit] at g1 g3 g4
  obtain ⟨T', rfl⟩ : ∃ T', T = T' + 1 := ⟨T - 1, by omega⟩
  have hcount : S * 4 + (T' + 1 - 1) * (S * 4) = S * (T' + 1) * 4 := by
    rw [Nat.add_sub_cancel]
    ring
  rw [Nat.add_assoc, hcount] at g1 g4
  refine ⟨g1, ?_, g4⟩
  intro t s c ht hs hc
  cases t with
  | zero =>
    have := g2 s c hs hc
    simpa using this
  | succ t =>
    have := g3 t s c (by omega) (by omega) hc
    have e : pos.it + S * 4 + t * (S * 4) + (s * 4 + c) = pos.it + ((t + 1) * S + s) * 4 + c := by
      ring
    rw [e] at this
    exact this

/-- C9: for every hue `h` in `[0, 2 * pi)` and every 6-point colour model,
`CalculateHueForColorModel` returns `(1 - u) * c[k] + u * c[(k + 1) mod 6]` componentwise,
with `R = 2 * pi / 6`, `k = floor (h / R) mod 6` and `u = h / R - k`; at `h = k * R` it
returns the control point `c[k]`; and with `sectorCount = 6` the colours written for the
six sectors are the six control points in order. -/
theorem hue_piecewise_linear [FloorRing α] (colorModel : ℤ → α) (h : α) (h0 : 0 ≤ h)
    (h1 : h < TwoPi) :
    CalculateHueForColorModel 18 h colorModel
      = vec3.mix (h / (TwoPi / 6) - ((⌊h / (TwoPi / 6)⌋ % 6 : ℤ) : α))
          (controlPoint colorModel (⌊h / (TwoPi / 6)⌋ % 6))
          (controlPoint colorModel ((⌊h / (TwoPi / 6)⌋ % 6 + 1) % 6)) ∧
    (∀ k : ℕ, k < 6 →
      CalculateHueForColorModel 18 ((k : α) * (TwoPi / 6)) colorModel
        = controlPoint colorModel k) ∧
    (∀ (T : ℕ) (pos : OutIt (vec3 α)) (t s c : ℕ), t < T → s < 6 → c < 4 →
      (CreateColorWheelColors 6 T colorModel pos).buf (pos.it + (t * 6 + s) * 4 + c)
        = controlPoint colorModel s) := by
  refine ⟨hue_of_mem colorModel h h0 h1, fun k hk => hue_at_control_point colorModel k hk, ?_⟩
  intro T pos t s c ht hs hc
  obtain ⟨_, g2, _⟩ := colors_fit_layout 6 T (by omega) (by norm_num) colorModel pos
  rw [g2 t s c ht hs hc]
  have := hue_at_control_point colorModel s hs
  push_cast
  exact this

/-- Witness for C9: the hue `pi / 2` in the RGB model. -/
theorem hue_piecewise_linear_witness :
    CalculateHueForColorModel 18 (Pi / 2 : ℚ) RgbColorModel
      = vec3.mix ((Pi / 2 : ℚ) / (TwoPi / 6) - ((⌊(Pi / 2 : ℚ) / (TwoPi / 6)⌋ % 6 : ℤ) : ℚ))
          (controlPoint RgbColorModel (⌊(Pi / 2 : ℚ) / (TwoPi / 6)⌋ % 6))
          (controlPoint RgbColorModel ((⌊(Pi / 2 : ℚ) / (TwoPi / 6)⌋ % 6 + 1) % 6)) :=
  (hue_piecewise_linear RgbColorModel (Pi / 2 : ℚ) (by unfold Pi; norm_num)
    (by unfold TwoPi Pi; norm_num)).1

/-- C10 (as stated, fails): with `2 ^ 30` sectors and 2 tracks the `unsigned int` bound
`colorCount * 4` of the copy loop wraps to 0, so nothing is copied for the second track
and `2 ^ 32` colours are written, not `2 ^ 30 * 2 * 4`. -/
theorem copy_bound_wraps :
    (CreateColorWheelColors (2 ^ 30) 2 RgbColorModel (zeroColors : OutIt (vec3 ℚ))).it
      = 2 ^ 32 ∧
    (CreateColorWheelColors (2 ^ 30) 2 RgbColorModel (zeroColors : OutIt (vec3 ℚ))).it
      ≠ (zeroColors : OutIt (vec3 ℚ)).it + 2 ^ 30 * 2 * 4 := by
  obtain ⟨g1, _⟩ := colors_layout (2 ^ 30) 2 RgbColorModel (zeroColors : OutIt (vec3 ℚ))
  have h : (CreateColorWheelColors (2 ^ 30) 2 RgbColorModel
      (zeroColors : OutIt (vec3 ℚ))).it = 2 ^ 32 := by
    rw [g1]
    unfold zeroColors
    norm_num
  refine ⟨h, ?_⟩
  rw [h]
  unfold zeroColors
  norm_num

/-- C10 (amended): for every `S >= 1` and `T >= 1` with `S * 4 < 2 ^ 32` and every
6-point colour model, `CreateColorWheelColors` writes exactly `S * T * 4` colours (the
returned iterator is advanced by that many and nothing else is changed), and for all
`t < T`, `s < S`, `c < 4` the element at index `(t * S + s) * 4 + c` equals
`CalculateHueForColorModel (s * 2 * pi / S, model)`. -/
theorem color_layout [FloorRing α] (S T : ℕ) (_hS : 1 ≤ S) (hT : 1 ≤ T)
    (hfit : S * 4 < 2 ^ 32) (colorModel : ℤ → α) (position : OutIt (vec3 α)) :
    (CreateColorWheelColors S T colorModel position).it = position.it + S * T * 4 ∧
    (∀ t s c, t < T → s < S → c < 4 →
      (CreateColorWheelColors S T colorModel position).buf
          (position.it + (t * S + s) * 4 + c)
        = CalculateHueForColorModel 18 ((s : α) * (TwoPi / (S : α))) colorModel) ∧
    (∀ j, j < position.it ∨ position.it + S * T * 4 ≤ j →
      (CreateColorWheelColors S T colorModel position).buf j = position.buf j) :=
  colors_fit_layout S T hT hfit colorModel position

/-- Witness for C10 (amended): the start-up colour buffer, 6 sectors and 2 tracks of the
RGB model. -/
theorem color_layout_witness :
    (CreateColorWheelColors 6 2 RgbColorModel (zeroColors : OutIt (vec3 ℚ))).it
      = (zeroColors : OutIt (vec3 ℚ)).it + 6 * 2 * 4 :=
  (color_layout 6 2 (by norm_num) (by norm_num) (by norm_num) RgbColorModel
    (zeroColors : OutIt (vec3 ℚ))).1

/-! ### Tessellation counts -/

/-- C15: tessellation counts are the minimum count times a power of two: for every
level `0 <= p <= MaxHueTessellations`, `ColorCountForTessellation p = MinHues * 2 ^ p`
(6, 12, ..., 768), and for every level `0 <= q <= MaxSaturationTessellations`,
`SaturationCountForTessellation q = MinSaturations * 2 ^ q` (2, 4, ..., 512). -/
theorem tessellation_counts (p q : ℤ) (hp0 : 0 ≤ p) (hp : p ≤ MaxHueTessellations)
    (hq0 : 0 ≤ q) (hq : q ≤ MaxSaturationTessellations) :
    ColorCountForTessellation p = some (MinHues * 2 ^ p.toNat) ∧
    SaturationCountForTessellation q = some (MinSaturations * 2 ^ q.toNat) ∧
    (List.range 8).map (fun n : ℕ => ColorCountForTessellation n)
      = [some 6, some 12, some 24, some 48, some 96, some 192, some 384, some 768] ∧
    (List.range 9).map (fun n : ℕ => SaturationCountForTessellation n)
      = [some 2, some 4, some 8, some 16, some 32, some 64, some 128, some 256, some 512] := by
  unfold MaxHueTessellations at hp
  unfold MaxSaturationTessellations at hq
  refine ⟨?_, ?_, by decide, by decide⟩
  · interval_cases p <;> decide
  · interval_cases q <;> decide

/-- Witness for C15: the maximum levels 7 and 8. -/
theorem tessellation_counts_witness :
    ColorCountForTessellation 7 = some (MinHues * 2 ^ (7 : ℤ).toNat) ∧
    SaturationCountForTessellation 8 = some (MinSaturations * 2 ^ (8 : ℤ).toNat) :=
  ⟨(tessellation_counts 7 8 (by decide) (by decide) (by decide) (by decide)).1,
   (tessellation_counts 7 8 (by decide) (by decide) (by decide) (by decide)).2.1⟩

/-! ### Cone scale -/

theorem coneScaleBlock_target (dt : α) (s : State α) :
    (coneScaleBlock dt s).coneScale = coneTarget s := by
  unfold coneScaleBlock coneTarget
  dsimp only
  split_ifs <;> rfl

theorem coneScaleBlock_snap_up (dt : α) (s : State α) (hu : s.isUserScalingCone = false)
    (hlt : s.currentConeScale < coneTarget s)
    (hd : |coneTarget s - s.currentConeScale| ≤ dt * ConeScaleRate) :
    (coneScaleBlock dt s).currentConeScale = coneTarget s ∧
    (coneScaleBlock dt s).coneScaleDirection = 0 ∧
    (coneScaleBlock dt s).isUserScalingCone = true := by
  unfold coneTarget at hlt hd
  unfold coneScaleBlock coneTarget
  dsimp only
  have hu' : ¬ (s.isUserScalingCone = true) := by rw [hu]; decide
  rw [if_neg hu', if_pos hlt, if_pos (ge_iff_le.mpr hd)]
  exact ⟨rfl, rfl, rfl⟩

/-- C17 (violated by the code): HSL bi-cone with lightness 0.25, so the target is 0.5,
cone not user-controlled, `currentConeScale = 1`, and a frame of 800 ms, whose step
`dt * ConeScaleRate = 1` covers the remaining distance 0.5.  The target lies below, the
direction is `-ConeScaleRate`, and the test `delta_t * coneScaleDirection >= abs(...)`
compares the negative step with the distance: no snap, the scale steps to 0 past the
target, the direction stays non-zero and `isUserScalingCone` stays false. -/
theorem cone_snap_missed_downward :
    (hslConeState (1 / 4 : ℚ)).isUserScalingCone = false ∧
    coneTarget (hslConeState (1 / 4 : ℚ)) = 1 / 2 ∧
    |coneTarget (hslConeState (1 / 4 : ℚ)) - (hslConeState (1 / 4 : ℚ)).currentConeScale|
      ≤ 800 * ConeScaleRate ∧
    (coneScaleBlock 800 (hslConeState (1 / 4 : ℚ))).currentConeScale = 0 ∧
    (coneScaleBlock 800 (hslConeState (1 / 4 : ℚ))).coneScaleDirection = -ConeScaleRate ∧
    (coneScaleBlock 800 (hslConeState (1 / 4 : ℚ))).isUserScalingCone = false := by
  decide!

/-- C18 (violated by the code): from the start-up state click "HSL"; in the next frame
drag the lightness to 0 and click the cone geometry (target 0, `currentConeScale` still
1, cone not user-controlled); then let a frame of 1000 ms pass.  The step
`1000 * ConeScaleRate = 1.25` is taken downwards without the snap and
`currentConeScale` becomes -0.25, below 0, with the lightness and value sliders in
`[0, 1]` throughout. -/
theorem cone_scale_leaves_unit_interval :
    (RunGameLoopFrame (clickConeAt 0) 16
      (RunGameLoopFrame clickHsl 0 (initialState 0 : State ℚ))).currentConeScale = 1 ∧
    (RunGameLoopFrame (clickConeAt 0) 16
      (RunGameLoopFrame clickHsl 0 (initialState 0 : State ℚ))).hsLightness = 0 ∧
    (RunGameLoopFrame (clickConeAt 0) 16
      (RunGameLoopFrame clickHsl 0 (initialState 0 : State ℚ))).hsValue = 1 ∧
    (RunGameLoopFrame idleGui 1016 (RunGameLoopFrame (clickConeAt 0) 16
      (RunGameLoopFrame clickHsl 0 (initialState 0 : State ℚ)))).currentConeScale = -1 / 4 ∧
    ¬ (0 ≤ (RunGameLoopFrame idleGui 1016 (RunGameLoopFrame (clickConeAt 0) 16
      (RunGameLoopFrame clickHsl 0 (initialState 0 : State ℚ)))).currentConeScale) := by
  decide!

/-! ### Continuous axes -/

/-- C19: continuous axes.  For the colour-model blend and the inner-radius blend: in a
frame where the direction is non-zero, `t' = Clamp (t + dt * direction, 0, 1)`, the
direction becomes 0 exactly when `t + dt * direction <= 0` or `>= 1` and is kept
otherwise; in a frame where the direction is 0, `t` and the direction are unchanged;
and the inner-radius block leaves `currentInnerRadius = t' * WheelInnerRadius` (it sets
it when the direction is non-zero and keeps it, with `t`, when the direction is 0). -/
theorem continuous_axes (dt : α) (s : State α) :
    (s.colorBlendDirection ≠ 0 →
      (colorBlendBlock dt s).colorBlendT
        = Clamp (s.colorBlendT + dt * s.colorBlendDirection) 0 1 ∧
      ((colorBlendBlock dt s).colorBlendDirection = 0 ↔
        (s.colorBlendT + dt * s.colorBlendDirection ≤ 0 ∨
          s.colorBlendT + dt * s.colorBlendDirection ≥ 1)) ∧
      (¬ (s.colorBlendT + dt * s.colorBlendDirection ≤ 0 ∨
          s.colorBlendT + dt * s.colorBlendDirection ≥ 1) →
        (colorBlendBlock dt s).colorBlendDirection = s.colorBlendDirection)) ∧
    (s.colorBlendDirection = 0 →
      (colorBlendBlock dt s).colorBlendT = s.colorBlendT ∧
      (colorBlendBlock dt s).colorBlendDirection = s.colorBlendDirection) ∧
    (s.innerRadiusBlendDirection ≠ 0 →
      (innerRadiusBlock dt s).innerRadiusBlendT
        = Clamp (s.innerRadiusBlendT + dt * s.innerRadiusBlendDirection) 0 1 ∧
      ((innerRadiusBlock dt s).innerRadiusBlendDirection = 0 ↔
        (s.innerRadiusBlendT + dt * s.innerRadiusBlendDirection ≤ 0 ∨
          s.innerRadiusBlendT + dt * s.innerRadiusBlendDirection ≥ 1)) ∧
      (¬ (s.innerRadiusBlendT + dt * s.innerRadiusBlendDirection ≤ 0 ∨
          s.innerRadiusBlendT + dt * s.innerRadiusBlendDirection ≥ 1) →
        (innerRadiusBlock dt s).innerRadiusBlendDirection = s.innerRadiusBlendDirection) ∧
      (innerRadiusBlock dt s).currentInnerRadius
        = (innerRadiusBlock dt s).innerRadiusBlendT * WheelInnerRadius) ∧
    (s.innerRadiusBlendDirection = 0 →
      (innerRadiusBlock dt s).innerRadiusBlendT = s.innerRadiusBlendT ∧
      (innerRadiusBlock dt s).innerRadiusBlendDirection = s.innerRadiusBlendDirection ∧
      (innerRadiusBlock dt s).currentInnerRadius = s.currentInnerRadius) ∧
    (s.currentInnerRadius = s.innerRadiusBlendT * WheelInnerRadius →
      (innerRadiusBlock dt s).currentInnerRadius
        = (innerRadiusBlock dt s).innerRadiusBlendT * WheelInnerRadius) := by
  refine ⟨?_, ?_, ?_, ?_, ?_⟩
  · intro hd
    have hd' : (0 : α) ≠ s.colorBlendDirection := fun h => hd h.symm
    unfold colorBlendBlock
    rw [if_pos hd']
    dsimp only
    refine ⟨rfl, ?_, ?_⟩
    · constructor
      · intro h0
        by_contra hb
        rw [if_neg hb] at h0
        exact hd h0
      · intro hb
        rw [if_pos hb]
    · intro hb
      rw [if_neg hb]
  · intro hd
    have hd' : ¬ ((0 : α) ≠ s.colorBlendDirection) := fun h => h hd.symm
    unfold colorBlendBlock
    rw [if_neg hd']
    exact ⟨rfl, rfl⟩
  · intro hd
    have hd' : (0 : α) ≠ s.innerRadiusBlendDirection := fun h => hd h.symm
    unfold innerRadiusBlock
    rw [if_pos hd']
    dsimp only
    refine ⟨rfl, ?_, ?_, rfl⟩
    · constructor
      · intro h0
        by_contra hb
        rw [if_neg hb] at h0
        exact hd h0
      · intro hb
        rw [if_pos hb]
    · intro hb
      rw [if_neg hb]
  · intro hd
    have hd' : ¬ ((0 : α) ≠ s.innerRadiusBlendDirection) := fun h => h hd.symm
    unfold innerRadiusBlock
    rw [if_neg hd']
    exact ⟨rfl, rfl, rfl⟩
  · intro hr
    unfold innerRadiusBlock
    split_ifs
    · rfl
    · exact hr

/-- Witness for C19: the colour-model blend of the start-up state set in motion towards
RYB, over a frame of 16 ms. -/
theorem continuous_axes_witness :
    (colorBlendBlock (16 : ℚ)
        { (initialState 0 : State ℚ) with colorBlendDirection := ColorBlendRate }).colorBlendT
      = Clamp ((0 : ℚ) + 16 * ColorBlendRate) 0 1 :=
  ((continuous_axes (16 : ℚ)
    { (initialState 0 : State ℚ) with colorBlendDirection := ColorBlendRate }).1
    (by decide!)).1


/-! ### Colour-space cross-fade -/

theorem colorSpaceBlock_fade (dt : α) (x : State α) :
    (x.colorSpaceBlendT ≠ 0 → (colorSpaceBlock dt x).nextColorSpace = x.nextColorSpace) ∧
    ((x.colorSpace ≠ x.currentColorSpace ∨ x.colorSpaceBlendDirection ≠ 0) →
      Clamp (x.colorSpaceBlendT + dt * ColorSpaceBlendRate) 0 1 ≥ 1 →
      (colorSpaceBlock dt x).currentColorSpace = (colorSpaceBlock dt x).nextColorSpace ∧
      (colorSpaceBlock dt x).colorSpaceBlendT = 0 ∧
      (colorSpaceBlock dt x).colorSpaceBlendDirection = 0) ∧
    (¬ ((x.colorSpace ≠ x.currentColorSpace ∨ x.colorSpaceBlendDirection ≠ 0) ∧
        Clamp (x.colorSpaceBlendT + dt * ColorSpaceBlendRate) 0 1 ≥ 1) →
      (colorSpaceBlock dt x).currentColorSpace = x.currentColorSpace) ∧
    ((x.colorSpace ≠ x.currentColorSpace ∨ x.colorSpaceBlendDirection ≠ 0) →
      ¬ (Clamp (x.colorSpaceBlendT + dt * ColorSpaceBlendRate) 0 1 ≥ 1) →
      (colorSpaceBlock dt x).colorSpaceBlendT
        = Clamp (x.colorSpaceBlendT + dt * ColorSpaceBlendRate) 0 1 ∧
      (colorSpaceBlock dt x).colorSpaceBlendDirection = ColorSpaceBlendRate) := by
  have hact : (x.colorSpace ≠ x.currentColorSpace ∨ x.colorSpaceBlendDirection ≠ 0) ↔
      (x.colorSpace ≠ x.currentColorSpace ∨ 0 ≠ x.colorSpaceBlendDirection) := by
    constructor <;> rintro (h | h)
    · exact Or.inl h
    · exact Or.inr (fun e => h e.symm)
    · exact Or.inl h
    · exact Or.inr (fun e => h e.symm)
  refine ⟨?_, ?_, ?_, ?_⟩
  · intro hb
    have hb' : ¬ ((0 : α) = x.colorSpaceBlendT) := fun e => hb e.symm
    unfold colorSpaceBlock
    dsimp only
    rw [if_neg hb']
    split_ifs <;> rfl
  · intro ha hr
    unfold colorSpaceBlock
    dsimp only
    rw [if_pos (hact.mp ha), if_pos hr]
    exact ⟨rfl, rfl, rfl⟩
  · intro hn
    unfold colorSpaceBlock
    dsimp only
    by_cases ha : x.colorSpace ≠ x.currentColorSpace ∨ 0 ≠ x.colorSpaceBlendDirection
    · have hr : ¬ (Clamp (x.colorSpaceBlendT + dt * ColorSpaceBlendRate) 0 1 ≥ 1) :=
        fun hr => hn ⟨hact.mpr ha, hr⟩
      rw [if_pos ha, if_neg hr]
    · rw [if_neg ha]
  · intro ha hr
    unfold colorSpaceBlock
    dsimp only
    rw [if_pos (hact.mp ha), if_neg hr]
    exact ⟨rfl, rfl⟩

theorem colorBlendBlock_fade (dt : α) (s : State α) :
    SameFade s (colorBlendBlock dt s) ∧ (colorBlendBlock dt s).colorSpace = s.colorSpace := by
  unfold colorBlendBlock SameFade
  dsimp only
  split_ifs <;> exact ⟨⟨rfl, rfl, rfl, rfl⟩, rfl⟩

theorem innerRadiusBlock_fade (dt : α) (s : State α) :
    SameFade s (innerRadiusBlock dt s) := by
  unfold innerRadiusBlock SameFade
  dsimp only
  split_ifs <;> exact ⟨rfl, rfl, rfl, rfl⟩

theorem sectorLevelBlock_fade (target : ℤ) (dt : α) (s : State α) :
    SameFade s (sectorLevelBlock target dt s) := by
  unfold sectorLevelBlock SameFade
  dsimp only
  split_ifs <;> exact ⟨rfl, rfl, rfl, rfl⟩

theorem trackLevelBlock_fade (target : ℤ) (dt : α) (s : State α) :
    SameFade s (trackLevelBlock target dt s) := by
  unfold trackLevelBlock SameFade
  dsimp only
  split_ifs <;> exact ⟨rfl, rfl, rfl, rfl⟩

theorem coneScaleBlock_fade (dt : α) (s : State α) : SameFade s (coneScaleBlock dt s) := by
  unfold coneScaleBlock SameFade
  dsimp only
  split_ifs <;> exact ⟨rfl, rfl, rfl, rfl⟩

theorem guiColorModel_fade (inp : GuiInput α) (s : State α) :
    SameFade s (guiColorModel inp s) := by
  unfold guiColorModel SameFade
  dsimp only
  split_ifs <;> exact ⟨rfl, rfl, rfl, rfl⟩

theorem guiColorSpace_fade (inp : GuiInput α) (s : State α) :
    SameFade s (guiColorSpace inp s) := by
  unfold guiColorSpace SameFade
  dsimp only
  split_ifs <;> exact ⟨rfl, rfl, rfl, rfl⟩

theorem guiLightness_fade (inp : GuiInput α) (s : State α) :
    SameFade s (guiLightness inp s) := by
  unfold guiLightness SameFade
  dsimp only
  split_ifs <;> exact ⟨rfl, rfl, rfl, rfl⟩

theorem SameFade_chain {s t u : State α} (h1 : SameFade s t) (h2 : SameFade t u) :
    SameFade s u := by
  unfold SameFade at *
  refine ⟨?_, ?_, ?_, ?_⟩
  · rw [h2.1, h1.1]
  · rw [h2.2.1, h1.2.1]
  · rw [h2.2.2.1, h1.2.2.1]
  · rw [h2.2.2.2, h1.2.2.2]

theorem GuiPass_fade (inp : GuiInput α) (s : State α) : SameFade s (GuiPass inp s) := by
  unfold GuiPass
  have h1 := guiColorModel_fade inp s
  have h2 : SameFade (guiColorModel inp s) (guiSliders inp (guiColorModel inp s)) :=
    ⟨rfl, rfl, rfl, rfl⟩
  have h3 := guiColorSpace_fade inp (guiSliders inp (guiColorModel inp s))
  have h4 := guiLightness_fade inp (guiColorSpace inp (guiSliders inp (guiColorModel inp s)))
  exact SameFade_chain (SameFade_chain (SameFade_chain h1 h2) h3) h4

theorem RunGameLoopFrame_fade [FloorRing α] (inp : GuiInput α) (current_ticks : ℕ)
    (s : State α) :
    ∃ x : State α, x.colorSpace = s.colorSpace ∧ SameFade s x ∧
      SameFade (colorSpaceBlock ((delta_t current_ticks s.prev_ticks : ℕ) : α) x)
        (RunGameLoopFrame inp current_ticks s) := by
  obtain ⟨a1, a2⟩ := colorBlendBlock_fade ((delta_t current_ticks s.prev_ticks : ℕ) : α)
    { s with prev_ticks := current_ticks }
  refine ⟨colorBlendBlock ((delta_t current_ticks s.prev_ticks : ℕ) : α)
    { s with prev_ticks := current_ticks }, a2, a1, ?_⟩
  unfold RunGameLoopFrame frameBody AdvanceMorphs
  dsimp only
  generalize colorSpaceBlock ((delta_t current_ticks s.prev_ticks : ℕ) : α)
    (colorBlendBlock ((delta_t current_ticks s.prev_ticks : ℕ) : α)
      { s with prev_ticks := current_ticks }) = y
  have b := innerRadiusBlock_fade ((delta_t current_ticks s.prev_ticks : ℕ) : α) y
  generalize innerRadiusBlock ((delta_t current_ticks s.prev_ticks : ℕ) : α) y = u at *
  have c := sectorLevelBlock_fade (static_cast_int u.colorCountPower)
    ((delta_t current_ticks s.prev_ticks : ℕ) : α) u
  generalize sectorLevelBlock (static_cast_int u.colorCountPower)
    ((delta_t current_ticks s.prev_ticks : ℕ) : α) u = v at *
  have d := trackLevelBlock_fade (static_cast_int v.saturationCountPower)
    ((delta_t current_ticks s.prev_ticks : ℕ) : α) v
  generalize trackLevelBlock (static_cast_int v.saturationCountPower)
    ((delta_t current_ticks s.prev_ticks : ℕ) : α) v = w at *
  have e := coneScaleBlock_fade ((delta_t current_ticks s.prev_ticks : ℕ) : α) w
  generalize coneScaleBlock ((delta_t current_ticks s.prev_ticks : ℕ) : α) w = z at *
  have f : SameFade z { z with isMorphing := false } := ⟨rfl, rfl, rfl, rfl⟩
  have g := GuiPass_fade inp { z with isMorphing := false }
  exact SameFade_chain (SameFade_chain (SameFade_chain (SameFade_chain
    (SameFade_chain b c) d) e) f) g


theorem frame_fade [FloorRing α] (inp : GuiInput α) (current_ticks : ℕ) (s : State α) :
    (s.colorSpaceBlendT ≠ 0 →
      (RunGameLoopFrame inp current_ticks s).nextColorSpace = s.nextColorSpace) ∧
    ((s.colorSpace ≠ s.currentColorSpace ∨ s.colorSpaceBlendDirection ≠ 0) →
      Clamp (s.colorSpaceBlendT
        + ((delta_t current_ticks s.prev_ticks : ℕ) : α) * ColorSpaceBlendRate) 0 1 ≥ 1 →
      (RunGameLoopFrame inp current_ticks s).currentColorSpace
        = (RunGameLoopFrame inp current_ticks s).nextColorSpace ∧
      (RunGameLoopFrame inp current_ticks s).colorSpaceBlendT = 0 ∧
      (RunGameLoopFrame inp current_ticks s).colorSpaceBlendDirection = 0) ∧
    (¬ ((s.colorSpace ≠ s.currentColorSpace ∨ s.colorSpaceBlendDirection ≠ 0) ∧
        Clamp (s.colorSpaceBlendT
          + ((delta_t current_ticks s.prev_ticks : ℕ) : α) * ColorSpaceBlendRate) 0 1 ≥ 1) →
      (RunGameLoopFrame inp current_ticks s).currentColorSpace = s.currentColorSpace) ∧
    ((s.colorSpace ≠ s.currentColorSpace ∨ s.colorSpaceBlendDirection ≠ 0) →
      ¬ (Clamp (s.colorSpaceBlendT
        + ((delta_t current_ticks s.prev_ticks : ℕ) : α) * ColorSpaceBlendRate) 0 1 ≥ 1) →
      (RunGameLoopFrame inp current_ticks s).colorSpaceBlendT
        = Clamp (s.colorSpaceBlendT
          + ((delta_t current_ticks s.prev_ticks : ℕ) : α) * ColorSpaceBlendRate) 0 1 ∧
      (RunGameLoopFrame inp current_ticks s).colorSpaceBlendDirection
        = ColorSpaceBlendRate) := by
  obtain ⟨x, hx, ⟨h1, h2, h3, h4⟩, ⟨g1, g2, g3, g4⟩⟩ :=
    RunGameLoopFrame_fade inp current_ticks s
  have key := colorSpaceBlock_fade ((delta_t current_ticks s.prev_ticks : ℕ) : α) x
  rw [hx, h1, h2, h3, h4] at key
  rw [g1, g2, g3, g4]
  exact key

theorem ColorSpaceBlendRate_pos : (0 : α) < ColorSpaceBlendRate := by
  unfold ColorSpaceBlendRate InnerRadiusBlendRate
  norm_num

theorem fade_latched [FloorRing α] (s : State α) (inp : ℕ → GuiInput α) (ticks : ℕ → ℕ) :
    ∀ n : ℕ, (∀ k, k < n → (runFrames inp ticks k s).colorSpaceBlendT ≠ 0) →
      (runFrames inp ticks n s).nextColorSpace = s.nextColorSpace ∧
      ((runFrames inp ticks n s).currentColorSpace = s.currentColorSpace ∨
        (runFrames inp ticks n s).currentColorSpace = s.nextColorSpace) := by
  intro n
  induction n with
  | zero => intro _; exact ⟨rfl, Or.inl rfl⟩
  | succ n ih =>
    intro h
    obtain ⟨i1, i2⟩ := ih (fun k hk => h k (Nat.lt_succ_of_lt hk))
    obtain ⟨a, b, c, _⟩ := frame_fade (inp n) (ticks n) (runFrames inp ticks n s)
    have e : runFrames inp ticks (n + 1) s
        = RunGameLoopFrame (inp n) (ticks n) (runFrames inp ticks n s) := rfl
    rw [e]
    have hn := a (h n (Nat.lt_succ_self n))
    refine ⟨hn.trans i1, ?_⟩
    by_cases hd : ((runFrames inp ticks n s).colorSpace ≠ (runFrames inp ticks n s).currentColorSpace
          ∨ (runFrames inp ticks n s).colorSpaceBlendDirection ≠ 0) ∧
        Clamp ((runFrames inp ticks n s).colorSpaceBlendT
          + ((delta_t (ticks n) (runFrames inp ticks n s).prev_ticks : ℕ) : α)
            * ColorSpaceBlendRate) 0 1 ≥ 1
    · right
      rw [(b hd.1 hd.2).1, hn, i1]
    · rw [c hd]
      exact i2

theorem fade_progress [FloorRing α] (s : State α) (inp : ℕ → GuiInput α) (ticks : ℕ → ℕ)
    (hb : 0 < s.colorSpaceBlendT) (hd : s.colorSpaceBlendDirection ≠ 0)
    (ht : ∀ k, 1 ≤ delta_t (ticks k) (runFrames inp ticks k s).prev_ticks) :
    ∀ n : ℕ,
      (∃ k, k ≤ n ∧ (runFrames inp ticks k s).currentColorSpace = s.nextColorSpace ∧
        (runFrames inp ticks k s).colorSpaceBlendT = 0 ∧
        (runFrames inp ticks k s).colorSpaceBlendDirection = 0) ∨
      ((runFrames inp ticks n s).colorSpaceBlendDirection ≠ 0 ∧
        s.colorSpaceBlendT + (n : α) * ColorSpaceBlendRate
          ≤ (runFrames inp ticks n s).colorSpaceBlendT ∧
        (runFrames inp ticks n s).nextColorSpace = s.nextColorSpace ∧
        (n = 0 ∨ (runFrames inp ticks n s).colorSpaceBlendT < 1)) := by
  have hr : (0 : α) < ColorSpaceBlendRate := ColorSpaceBlendRate_pos
  intro n
  induction n with
  | zero =>
    right
    have e0 : runFrames inp ticks 0 s = s := rfl
    rw [e0]
    refine ⟨hd, ?_, rfl, Or.inl rfl⟩
    simp
  | succ n ih =>
    rcases ih with ⟨k, hk, hdone⟩ | ⟨j1, j2, j3, _⟩
    · exact Or.inl ⟨k, Nat.le_succ_of_le hk, hdone⟩
    · obtain ⟨a, b, _, d⟩ := frame_fade (inp n) (ticks n) (runFrames inp ticks n s)
      have e : runFrames inp ticks (n + 1) s
          = RunGameLoopFrame (inp n) (ticks n) (runFrames inp ticks n s) := rfl
      have hn0 : (0 : α) ≤ (n : α) * ColorSpaceBlendRate :=
        mul_nonneg (Nat.cast_nonneg n) hr.le
      have hpos : (runFrames inp ticks n s).colorSpaceBlendT ≠ 0 := by
        intro h0
        rw [h0] at j2
        linarith
      have hnext := (a hpos).trans j3
      have hdt : (1 : α) ≤ ((delta_t (ticks n) (runFrames inp ticks n s).prev_ticks : ℕ) : α) := by
        exact_mod_cast ht n
      by_cases hc : Clamp ((runFrames inp ticks n s).colorSpaceBlendT
          + ((delta_t (ticks n) (runFrames inp ticks n s).prev_ticks : ℕ) : α)
            * ColorSpaceBlendRate) 0 1 ≥ 1
      · left
        obtain ⟨b1, b2, b3⟩ := b (Or.inr j1) hc
        refine ⟨n + 1, le_rfl, ?_, ?_, ?_⟩
        · rw [e, b1, hnext]
        · rw [e, b2]
        · rw [e, b3]
      · right
        obtain ⟨d1, d2⟩ := d (Or.inr j1) hc
        have hlt := lt_of_not_ge hc
        rw [e, d1, d2]
        refine ⟨hr.ne', ?_, hnext, Or.inr hlt⟩
        have hmax : max ((runFrames inp ticks n s).colorSpaceBlendT
            + ((delta_t (ticks n) (runFrames inp ticks n s).prev_ticks : ℕ) : α)
              * ColorSpaceBlendRate) 0 < 1 := by
          by_contra hge
          apply hc
          unfold Clamp
          exact le_min (le_of_not_lt hge) le_rfl
        have hcl : Clamp ((runFrames inp ticks n s).colorSpaceBlendT
            + ((delta_t (ticks n) (runFrames inp ticks n s).prev_ticks : ℕ) : α)
              * ColorSpaceBlendRate) 0 1
            = max ((runFrames inp ticks n s).colorSpaceBlendT
            + ((delta_t (ticks n) (runFrames inp ticks n s).prev_ticks : ℕ) : α)
              * ColorSpaceBlendRate) 0 := by
          unfold Clamp
          exact min_eq_left hmax.le
        rw [hcl]
        refine le_trans ?_ (le_max_left _ _)
        have hstep : ColorSpaceBlendRate
            ≤ ((delta_t (ticks n) (runFrames inp ticks n s).prev_ticks : ℕ) : α)
              * ColorSpaceBlendRate := by
          nlinarith
        push_cast
        linarith

theorem fade_completes [FloorRing α] (s : State α) (inp : ℕ → GuiInput α) (ticks : ℕ → ℕ)
    (hb : 0 < s.colorSpaceBlendT) (hd : s.colorSpaceBlendDirection ≠ 0)
    (ht : ∀ k, 1 ≤ delta_t (ticks k) (runFrames inp ticks k s).prev_ticks) :
    ∃ n, n ≤ 200 ∧ (runFrames inp ticks n s).currentColorSpace = s.nextColorSpace ∧
      (runFrames inp ticks n s).colorSpaceBlendT = 0 ∧
      (runFrames inp ticks n s).colorSpaceBlendDirection = 0 := by
  rcases fade_progress s inp ticks hb hd ht 200 with h | ⟨_, h2, _, h4⟩
  · exact h
  · exfalso
    rcases h4 with h4 | h4
    · omega
    · have e : ((200 : ℕ) : α) * ColorSpaceBlendRate = 1 := by
        unfold ColorSpaceBlendRate InnerRadiusBlendRate
        norm_num
      rw [e] at h2
      linarith

/-- C20: colour-space cross-fade.  In a frame that starts with `colorSpaceBlendT` non-zero
the GUI selection does not change `nextColorSpace`; in a frame where the fade is active
and the advanced, clamped blend reaches 1, `currentColorSpace` becomes `nextColorSpace`
and `colorSpaceBlendT` and `colorSpaceBlendDirection` are reset to 0; in every other frame
`currentColorSpace` is unchanged.  Hence, over any run of frames, while the blend stays
non-zero the latched `nextColorSpace` is kept and `currentColorSpace` is either the old
one or the latched one, and once time advances in every frame a fade in flight completes
to the latched colour space within 200 frames. -/
theorem color_space_fade [FloorRing α] (s : State α) (g : GuiInput α) (current_ticks : ℕ)
    (inp : ℕ → GuiInput α) (ticks : ℕ → ℕ) :
    (s.colorSpaceBlendT ≠ 0 →
      (RunGameLoopFrame g current_ticks s).nextColorSpace = s.nextColorSpace) ∧
    ((s.colorSpace ≠ s.currentColorSpace ∨ s.colorSpaceBlendDirection ≠ 0) →
      Clamp (s.colorSpaceBlendT
        + ((delta_t current_ticks s.prev_ticks : ℕ) : α) * ColorSpaceBlendRate) 0 1 ≥ 1 →
      (RunGameLoopFrame g current_ticks s).currentColorSpace
        = (RunGameLoopFrame g current_ticks s).nextColorSpace ∧
      (RunGameLoopFrame g current_ticks s).colorSpaceBlendT = 0 ∧
      (RunGameLoopFrame g current_ticks s).colorSpaceBlendDirection = 0) ∧
    (¬ ((s.colorSpace ≠ s.currentColorSpace ∨ s.colorSpaceBlendDirection ≠ 0) ∧
        Clamp (s.colorSpaceBlendT
          + ((delta_t current_ticks s.prev_ticks : ℕ) : α) * ColorSpaceBlendRate) 0 1 ≥ 1) →
      (RunGameLoopFrame g current_ticks s).currentColorSpace = s.currentColorSpace) ∧
    (∀ n : ℕ, (∀ k, k < n → (runFrames inp ticks k s).colorSpaceBlendT ≠ 0) →
      (runFrames inp ticks n s).nextColorSpace = s.nextColorSpace ∧
      ((runFrames inp ticks n s).currentColorSpace = s.currentColorSpace ∨
        (runFrames inp ticks n s).currentColorSpace = s.nextColorSpace)) ∧
    (0 < s.colorSpaceBlendT → s.colorSpaceBlendDirection ≠ 0 →
      (∀ k, 1 ≤ delta_t (ticks k) (runFrames inp ticks k s).prev_ticks) →
      ∃ n, n ≤ 200 ∧ (runFrames inp ticks n s).currentColorSpace = s.nextColorSpace ∧
        (runFrames inp ticks n s).colorSpaceBlendT = 0 ∧
        (runFrames inp ticks n s).colorSpaceBlendDirection = 0) := by
  obtain ⟨a, b, c, _⟩ := frame_fade g current_ticks s
  exact ⟨a, b, c, fade_latched s inp ticks, fade_completes s inp ticks⟩

theorem color_space_fade_witness :
    (0 : ℚ) < (RunGameLoopFrame idleGui 16
        (RunGameLoopFrame clickHsl 0 (initialState 0 : State ℚ))).colorSpaceBlendT ∧
    (RunGameLoopFrame idleGui 16
        (RunGameLoopFrame clickHsl 0 (initialState 0 : State ℚ))).nextColorSpace
      = ColorSpace.Hsl ∧
    ∃ n, n ≤ 200 ∧
      (runFrames (fun _ => idleGui) (fun k => 16 * (k + 2)) n
        (RunGameLoopFrame idleGui 16
          (RunGameLoopFrame clickHsl 0 (initialState 0 : State ℚ)))).currentColorSpace
        = (RunGameLoopFrame idleGui 16
          (RunGameLoopFrame clickHsl 0 (initialState 0 : State ℚ))).nextColorSpace ∧
      (runFrames (fun _ => idleGui) (fun k => 16 * (k + 2)) n
        (RunGameLoopFrame idleGui 16
          (RunGameLoopFrame clickHsl 0 (initialState 0 : State ℚ)))).colorSpaceBlendT = 0 ∧
      (runFrames (fun _ => idleGui) (fun k => 16 * (k + 2)) n
        (RunGameLoopFrame idleGui 16
          (RunGameLoopFrame clickHsl 0 (initialState 0 : State ℚ)))).colorSpaceBlendDirection
        = 0 :=
  ⟨by decide!, by decide!,
    (color_space_fade
      (RunGameLoopFrame idleGui 16 (RunGameLoopFrame clickHsl 0 (initialState 0 : State ℚ)))
      idleGui 32 (fun _ => idleGui) (fun k => 16 * (k + 2))).2.2.2.2
      (by decide!) (by decide!)
      (by
        intro k
        cases k with
        | zero =>
          have e : (runFrames (fun _ => (idleGui : GuiInput ℚ)) (fun k => 16 * (k + 2)) 0
              (RunGameLoopFrame idleGui 16
                (RunGameLoopFrame clickHsl 0 (initialState 0 : State ℚ)))).prev_ticks = 16 :=
            (RunGameLoopFrame_levels idleGui 16 _).2.2.2.2
          rw [e]
          decide
        | succ k =>
          have e : (runFrames (fun _ => (idleGui : GuiInput ℚ)) (fun k => 16 * (k + 2)) (k + 1)
              (RunGameLoopFrame idleGui 16
                (RunGameLoopFrame clickHsl 0 (initialState 0 : State ℚ)))).prev_ticks
              = 16 * (k + 2) :=
            (RunGameLoopFrame_levels idleGui (16 * (k + 2)) _).2.2.2.2
          rw [e]
          unfold delta_t
          norm_num
          omega)⟩


/-! ### Hue across the wrap boundary -/

theorem hue_low [FloorRing α] (colorModel : ℤ → α) (e : α) (h0 : 0 < e)
    (h1 : e ≤ TwoPi / 6) :
    CalculateHueForColorModel 18 e colorModel
      = vec3.mix (e / (TwoPi / 6)) (controlPoint colorModel 0) (controlPoint colorModel 1) := by
  have hR : (0 : α) < TwoPi / 6 := div_pos TwoPi_pos (by norm_num)
  rcases lt_or_eq_of_le h1 with hlt | heq
  · have hT : e < TwoPi := by linarith
    have hq0 : 0 ≤ e / (TwoPi / 6) := div_nonneg h0.le hR.le
    have hq1 : e / (TwoPi / 6) < 1 := by
      rw [div_lt_iff₀ hR]
      linarith
    have hfl : ⌊e / (TwoPi / 6)⌋ = 0 := by
      rw [Int.floor_eq_iff]
      exact ⟨by exact_mod_cast hq0, by simpa using hq1⟩
    rw [hue_of_mem colorModel e h0.le hT, hfl]
    simp
  · have hk := hue_at_control_point colorModel 1 (by norm_num)
    rw [Nat.cast_one, one_mul] at hk
    rw [heq, hk, div_self hR.ne']
    simp [vec3.mix]

theorem hue_high [FloorRing α] (colorModel : ℤ → α) (e : α) (h0 : 0 < e)
    (h1 : e ≤ TwoPi / 6) :
    CalculateHueForColorModel 18 (TwoPi - e) colorModel
      = vec3.mix (1 - e / (TwoPi / 6)) (controlPoint colorModel 5)
          (controlPoint colorModel 0) := by
  have hR : (0 : α) < TwoPi / 6 := div_pos TwoPi_pos (by norm_num)
  have hT : (0 : α) < TwoPi := TwoPi_pos
  have hq : (TwoPi - e) / (TwoPi / 6) = 6 - e / (TwoPi / 6) := by
    field_simp
    ring
  have hu0 : 0 < e / (TwoPi / 6) := div_pos h0 hR
  have hu1 : e / (TwoPi / 6) ≤ 1 := by
    rw [div_le_iff₀ hR]
    linarith
  have hfl : ⌊(TwoPi - e) / (TwoPi / 6)⌋ = 5 := by
    rw [Int.floor_eq_iff, hq]
    constructor
    · push_cast
      linarith
    · push_cast
      linarith
  rw [hue_of_mem colorModel (TwoPi - e) (by linarith) (by linarith), hfl, hq]
  have e5 : ((5 % 6 : ℤ) : α) = 5 := by norm_num
  have e0 : ((5 : ℤ) % 6 + 1) % 6 = 0 := by decide
  have e55 : (5 : ℤ) % 6 = 5 := by decide
  rw [e0, e55]
  have ev : (6 : α) - e / (TwoPi / 6) - ((5 : ℤ) : α) = 1 - e / (TwoPi / 6) := by
    push_cast
    ring
  rw [ev]

theorem hue_at_TwoPi [FloorRing α] (colorModel : ℤ → α) :
    CalculateHueForColorModel 18 0 colorModel = controlPoint colorModel 0 ∧
    CalculateHueForColorModel 18 TwoPi colorModel = controlPoint colorModel 0 := by
  have hk := hue_at_control_point colorModel 0 (by norm_num)
  rw [Nat.cast_zero, zero_mul] at hk
  have hT : (0 : α) < TwoPi := TwoPi_pos
  have hc : ClampRadians (TwoPi : α) = ClampRadians 0 := by
    have c0 : ClampRadians (0 : α) = 0 := ClampRadians_of_mem 0 le_rfl hT
    rw [c0]
    unfold ClampRadians
    rw [if_pos (le_refl _)]
    unfold fmod
    rw [div_self hT.ne', static_cast_int_nonneg _ zero_le_one]
    simp
  refine ⟨by exact_mod_cast hk, ?_⟩
  have hk0 : CalculateHueForColorModel 18 (0 : α) colorModel = controlPoint colorModel 0 := by
    exact_mod_cast hk
  rw [← hk0]
  unfold CalculateHueForColorModel
  dsimp only
  rw [hc]

/-- C11: hue interpolation is continuous across the wrap boundary.  For every 6-point
colour model and every `e` with `0 < e <= 2π/6`, each component of
`CalculateHueForColorModel(2π - e) - CalculateHueForColorModel(e)` has absolute value at
most `(e / (2π/6)) * |c[5] - c[1]|` for that component (the two are in fact equal), and
the hue at `0` and at `2π` is the control point `c[0]`. -/
theorem hue_continuous_across_wrap [FloorRing α] (colorModel : ℤ → α) (e : α) (h0 : 0 < e)
    (h1 : e ≤ TwoPi / 6) :
    |(CalculateHueForColorModel 18 (TwoPi - e) colorModel).r
        - (CalculateHueForColorModel 18 e colorModel).r|
      ≤ e / (TwoPi / 6) * |(controlPoint colorModel 5).r - (controlPoint colorModel 1).r| ∧
    |(CalculateHueForColorModel 18 (TwoPi - e) colorModel).g
        - (CalculateHueForColorModel 18 e colorModel).g|
      ≤ e / (TwoPi / 6) * |(controlPoint colorModel 5).g - (controlPoint colorModel 1).g| ∧
    |(CalculateHueForColorModel 18 (TwoPi - e) colorModel).b
        - (CalculateHueForColorModel 18 e colorModel).b|
      ≤ e / (TwoPi / 6) * |(controlPoint colorModel 5).b - (controlPoint colorModel 1).b| ∧
    CalculateHueForColorModel 18 0 colorModel = controlPoint colorModel 0 ∧
    CalculateHueForColorModel 18 TwoPi colorModel = controlPoint colorModel 0 := by
  have hR : (0 : α) < TwoPi / 6 := div_pos TwoPi_pos (by norm_num)
  have hu : 0 ≤ e / (TwoPi / 6) := (div_pos h0 hR).le
  rw [hue_low colorModel e h0 h1, hue_high colorModel e h0 h1]
  have key : ∀ p q c : α,
      |((1 - (1 - e / (TwoPi / 6))) * p + (1 - e / (TwoPi / 6)) * c)
        - ((1 - e / (TwoPi / 6)) * c + e / (TwoPi / 6) * q)|
        ≤ e / (TwoPi / 6) * |p - q| := by
    intro p q c
    have e1 : ((1 - (1 - e / (TwoPi / 6))) * p + (1 - e / (TwoPi / 6)) * c)
        - ((1 - e / (TwoPi / 6)) * c + e / (TwoPi / 6) * q)
        = e / (TwoPi / 6) * (p - q) := by ring
    rw [e1, abs_mul, abs_of_nonneg hu]
  exact ⟨key _ _ _, key _ _ _, key _ _ _, hue_at_TwoPi colorModel⟩

theorem hue_continuous_across_wrap_witness :
    (0 : ℚ) < 1 / 2 ∧ (1 / 2 : ℚ) ≤ TwoPi / 6 ∧
    |(CalculateHueForColorModel 18 (TwoPi - 1 / 2) (RgbColorModel : ℤ → ℚ)).g
        - (CalculateHueForColorModel 18 (1 / 2) (RgbColorModel : ℤ → ℚ)).g|
      ≤ 1 / 2 / (TwoPi / 6) * |(controlPoint (RgbColorModel : ℤ → ℚ) 5).g
          - (controlPoint (RgbColorModel : ℤ → ℚ) 1).g| :=
  ⟨by norm_num, by unfold TwoPi Pi; norm_num,
    (hue_continuous_across_wrap (RgbColorModel : ℤ → ℚ) (1 / 2) (by norm_num)
      (by unfold TwoPi Pi; norm_num)).2.1⟩


/-! ### The saturation generator -/

theorem put_four {β : Type} (v : β) (o : OutIt β) :
    (forLoop 4 1 (fun _ q => q.put v) 0 o).it = o.it + 4 ∧
    (∀ c, c < 4 → (forLoop 4 1 (fun _ q => q.put v) 0 o).buf (o.it + c) = v) ∧
    (∀ j, j < o.it ∨ o.it + 4 ≤ j → (forLoop 4 1 (fun _ q => q.put v) 0 o).buf j = o.buf j) := by
  have hout : forLoop 4 1 (fun _ q => q.put v) 0 o = (((o.put v).put v).put v).put v := by
    rw [forLoop_one 4 _ 4 0 _ rfl]
    rfl
  rw [hout]
  refine ⟨rfl, ?_, ?_⟩
  · intro c hc
    simp only [OutIt.put_buf, OutIt.put_it]
    interval_cases c <;> simp only [Nat.add_zero] <;> split_ifs <;> rfl
  · intro j hj
    simp only [OutIt.put_buf, OutIt.put_it]
    have h0 : ¬ (j = o.it) := by omega
    have h1 : ¬ (j = o.it + 1) := by omega
    have h2 : ¬ (j = o.it + 1 + 1) := by omega
    have h3 : ¬ (j = o.it + 1 + 1 + 1) := by omega
    simp only [h0, h1, h2, h3, if_false]

theorem fill_writes {β : Type} (v : β) (n : ℕ) (o : OutIt β) :
    (forLoop n 1 (fun _ p => forLoop 4 1 (fun _ q => q.put v) 0 p) 0 o).it = o.it + n * 4 ∧
    (∀ c, c < n * 4 →
      (forLoop n 1 (fun _ p => forLoop 4 1 (fun _ q => q.put v) 0 p) 0 o).buf (o.it + c) = v) ∧
    (∀ j, j < o.it ∨ o.it + n * 4 ≤ j →
      (forLoop n 1 (fun _ p => forLoop 4 1 (fun _ q => q.put v) 0 p) 0 o).buf j = o.buf j) := by
  rw [forLoop_one n _ n 0 _ rfl]
  have h := iterate_writes (fun p : OutIt β => p)
    (fun p => forLoop 4 1 (fun _ q => q.put v) 0 p) 4 (fun _ _ => True) (fun _ _ => v)
    (by
      intro i p _
      obtain ⟨a1, a2, a3⟩ := put_four v p
      exact ⟨trivial, a1, a2, a3⟩)
    o trivial n
  obtain ⟨_, h2, h3, h4⟩ := h
  refine ⟨h2, ?_, h4⟩
  intro c hc
  have := h3 (c / 4) (c % 4) (by omega) (by omega)
  have e : o.it + c / 4 * 4 + c % 4 = o.it + c := by omega
  rw [e] at this
  exact this

theorem emitSaturation_spec (S : ℕ) (We Wo : α) (st : SaturationLoop α) :
    (emitSaturation S We Wo st).trackInnerRadius
      = st.trackInnerRadius + (if st.isEven then We else Wo) ∧
    (emitSaturation S We Wo st).isEven = !st.isEven ∧
    (emitSaturation S We Wo st).out.it = st.out.it + S * 4 ∧
    (∀ c, c < S * 4 → (emitSaturation S We Wo st).out.buf (st.out.it + c)
      = st.trackInnerRadius + (if st.isEven then We else Wo)) ∧
    (∀ j, j < st.out.it ∨ st.out.it + S * 4 ≤ j →
      (emitSaturation S We Wo st).out.buf j = st.out.buf j) := by
  obtain ⟨a1, a2, a3⟩ := fill_writes
    (st.trackInnerRadius + (if st.isEven then We else Wo)) S st.out
  exact ⟨rfl, rfl, a1, a2, a3⟩

theorem saturation_tracks (S : ℕ) (w b : α) (o : OutIt α) (k : ℕ) :
    ((emitSaturation S (w + w * (1 - b)) (w * b))^[k] ⟨o, 0, true⟩).out.it
      = o.it + k * (S * 4) ∧
    (∀ t c, t < k → c < S * 4 →
      ((emitSaturation S (w + w * (1 - b)) (w * b))^[k] ⟨o, 0, true⟩).out.buf
          (o.it + t * (S * 4) + c) = trackOuterAt w 0 b t) ∧
    (∀ j, j < o.it ∨ o.it + k * (S * 4) ≤ j →
      ((emitSaturation S (w + w * (1 - b)) (w * b))^[k] ⟨o, 0, true⟩).out.buf j = o.buf j) := by
  have h := iterate_writes SaturationLoop.out
    (emitSaturation S (w + w * (1 - b)) (w * b)) (S * 4)
    (fun t st => st.trackInnerRadius = trackInnerAt w 0 b t ∧ st.isEven = decide (t % 2 = 0))
    (fun t _ => trackOuterAt w 0 b t)
    (by
      intro t st hP
      obtain ⟨hR, hE⟩ := hP
      obtain ⟨a1, a2, a3, a4, a5⟩ := emitSaturation_spec S (w + w * (1 - b)) (w * b) st
      refine ⟨⟨?_, ?_⟩, a3, ?_, a5⟩
      · rw [a1, hR, hE, (trackInnerAt_succ w 0 b t).1]
        simp only [decide_eq_true_eq]
      · rw [a2, hE]
        rcases Nat.mod_two_eq_zero_or_one t with h | h <;>
          simp [h, Nat.add_mod]
      · intro i hi
        rw [a4 i hi, hR, hE]
        show _ = trackOuterAt w 0 b t
        rw [(trackInnerAt_succ w 0 b t).2]
        simp only [decide_eq_true_eq])
    ⟨o, 0, true⟩ ⟨by simp [trackInnerAt], by simp⟩ k
  obtain ⟨_, h2, h3, h4⟩ := h
  exact ⟨h2, h3, h4⟩

theorem saturationOf_eq (T : ℕ) (b : α) (t : ℕ) :
    trackOuterAt (1 / (T : α)) 0 b t = saturationOf T b t := by
  unfold trackOuterAt saturationOf
  split_ifs <;> ring

theorem saturation_layout (S T : ℕ) (hT : 2 ≤ T) (hTe : T % 2 = 0) (b : α) (pos : OutIt α) :
    CreateColorWheelSaturation S T b pos
      = some (CreateColorWheelSaturationLoops S T b pos) ∧
    (CreateColorWheelSaturationLoops S T b pos).it = pos.it + T * S * 4 ∧
    (∀ t c, t < T → c < S * 4 →
      (CreateColorWheelSaturationLoops S T b pos).buf (pos.it + t * (S * 4) + c)
        = saturationOf T b t) ∧
    (∀ j, j < pos.it ∨ pos.it + T * S * 4 ≤ j →
      (CreateColorWheelSaturationLoops S T b pos).buf j = pos.buf j) := by
  have hsome : CreateColorWheelSaturation S T b pos
      = some (CreateColorWheelSaturationLoops S T b pos) := by
    unfold CreateColorWheelSaturation
    rw [if_pos (Or.inr hTe)]
  have hout : CreateColorWheelSaturationLoops S T b pos
      = ((emitSaturation S (1 / (T : α) + 1 / (T : α) * (1 - b)) (1 / (T : α) * b))^[T]
          ⟨pos, 0, true⟩).out := by
    unfold CreateColorWheelSaturationLoops
    dsimp only
    have h0 : 0 ≠ T := by omega
    have hd : decide (T ≥ 2) = true := by simpa using hT
    rw [if_pos h0, if_pos (show T > 0 by omega), hd, forLoop_one T _ T 0 _ rfl]
  obtain ⟨a1, a2, a3⟩ := saturation_tracks S (1 / (T : α)) b pos T
  have e : T * (S * 4) = T * S * 4 := by ring
  refine ⟨hsome, ?_, ?_, ?_⟩
  · rw [hout, a1, e]
  · intro t c ht hc
    rw [hout, a2 t c ht hc, saturationOf_eq]
  · intro j hj
    rw [hout]
    exact a3 j (by rw [e]; exact hj)

theorem saturation_single (S : ℕ) (b : α) (pos : OutIt α) :
    CreateColorWheelSaturation S 1 b pos
      = some (CreateColorWheelSaturationLoops S 1 b pos) ∧
    (CreateColorWheelSaturationLoops S 1 b pos).it = pos.it + S * 4 ∧
    (∀ c, c < S * 4 → (CreateColorWheelSaturationLoops S 1 b pos).buf (pos.it + c) = b) ∧
    (∀ j, j < pos.it ∨ pos.it + S * 4 ≤ j →
      (CreateColorWheelSaturationLoops S 1 b pos).buf j = pos.buf j) := by
  have hsome : CreateColorWheelSaturation S 1 b pos
      = some (CreateColorWheelSaturationLoops S 1 b pos) := by
    unfold CreateColorWheelSaturation
    rw [if_pos (Or.inl rfl)]
  have hout : CreateColorWheelSaturationLoops S 1 b pos
      = (emitSaturation S (1 / ((1 : ℕ) : α) + 1 / ((1 : ℕ) : α) * (1 - b))
          (1 / ((1 : ℕ) : α) * b) ⟨pos, 0, false⟩).out := by
    unfold CreateColorWheelSaturationLoops
    dsimp only
    have hd : decide (1 ≥ 2) = false := by decide
    rw [if_pos (show (0 : ℕ) ≠ 1 by decide), if_pos (show 1 > 0 by decide), hd,
      forLoop_one 1 _ 1 0 _ rfl]
    rfl
  obtain ⟨_, _, a3, a4, a5⟩ := emitSaturation_spec S
    (1 / ((1 : ℕ) : α) + 1 / ((1 : ℕ) : α) * (1 - b)) (1 / ((1 : ℕ) : α) * b)
    (⟨pos, 0, false⟩ : SaturationLoop α)
  refine ⟨hsome, ?_, ?_, ?_⟩
  · rw [hout, a3]
  · intro c hc
    rw [hout, a4 c hc]
    simp
  · intro j hj
    rw [hout, a5 j hj]

theorem saturationOf_range (T : ℕ) (hT : 2 ≤ T) (hTe : T % 2 = 0) (b : α) (hb0 : 0 ≤ b)
    (hb1 : b ≤ 1) :
    (∀ t, t < T → 0 ≤ saturationOf T b t ∧ saturationOf T b t ≤ 1) ∧
    (∀ t u, t ≤ u → saturationOf T b t ≤ saturationOf T b u) ∧
    saturationOf T b (T - 1) = 1 := by
  have hTpos : (0 : α) < (T : α) := by exact_mod_cast (by omega : 0 < T)
  refine ⟨?_, ?_, ?_⟩
  · intro t ht
    have ht0 : (0 : α) ≤ (t : α) := Nat.cast_nonneg t
    unfold saturationOf
    split_ifs with he
    · have ht2 : t + 2 ≤ T := by omega
      have ht2' : (t : α) + 2 ≤ (T : α) := by exact_mod_cast ht2
      refine ⟨div_nonneg (by linarith) hTpos.le, ?_⟩
      rw [div_le_one hTpos]
      linarith
    · have ht1 : (t : α) + 1 ≤ (T : α) := by exact_mod_cast (by omega : t + 1 ≤ T)
      refine ⟨div_nonneg (by linarith) hTpos.le, ?_⟩
      rw [div_le_one hTpos]
      exact ht1
  · have hmono : Monotone (saturationOf T b) := by
      apply monotone_nat_of_le_succ
      intro t
      unfold saturationOf
      rcases Nat.mod_two_eq_zero_or_one t with h | h
      · have h' : ¬ ((t + 1) % 2 = 0) := by omega
        rw [if_pos h, if_neg h']
        apply div_le_div_of_nonneg_right _ hTpos.le
        push_cast
        linarith
      · have h' : (t + 1) % 2 = 0 := by omega
        have h'' : ¬ (t % 2 = 0) := by omega
        rw [if_neg h'', if_pos h']
        apply div_le_div_of_nonneg_right _ hTpos.le
        push_cast
        linarith
    intro t u htu
    exact hmono htu
  · unfold saturationOf
    have ho : ¬ ((T - 1) % 2 = 0) := by omega
    rw [if_neg ho]
    have e : ((T - 1 : ℕ) : α) + 1 = (T : α) := by
      have : (T - 1) + 1 = T := by omega
      exact_mod_cast this
    rw [e, div_self hTpos.ne']

/-- C12: for every even trackCount `T >= 2`, every sectorCount `S` and every trackBlendT
`b` in `[0, 1]`, `CreateColorWheelSaturation` returns, having written exactly `T * S * 4`
scalars (the iterator is advanced by that many and nothing else is changed); all `S * 4`
scalars of track `t` equal `(t + 2 - b) / T` for even `t` and `(t + 1) / T` for odd `t`;
every such value lies in `[0, 1]`, the values are non-decreasing in `t`, and the value of
the last track is 1. -/
theorem saturation_tracks_layout (S T : ℕ) (hT : 2 ≤ T) (hTe : T % 2 = 0) (b : α)
    (hb0 : 0 ≤ b) (hb1 : b ≤ 1) (position : OutIt α) :
    ∃ o, CreateColorWheelSaturation S T b position = some o ∧
      o.it = position.it + T * S * 4 ∧
      (∀ t c, t < T → c < S * 4 →
        o.buf (position.it + t * (S * 4) + c)
          = if t % 2 = 0 then ((t : α) + 2 - b) / (T : α) else ((t : α) + 1) / (T : α)) ∧
      (∀ j, j < position.it ∨ position.it + T * S * 4 ≤ j → o.buf j = position.buf j) ∧
      (∀ t c, t < T → c < S * 4 →
        0 ≤ o.buf (position.it + t * (S * 4) + c) ∧
        o.buf (position.it + t * (S * 4) + c) ≤ 1) ∧
      (∀ t u c d, t ≤ u → u < T → c < S * 4 → d < S * 4 →
        o.buf (position.it + t * (S * 4) + c) ≤ o.buf (position.it + u * (S * 4) + d)) ∧
      (∀ c, c < S * 4 → o.buf (position.it + (T - 1) * (S * 4) + c) = 1) := by
  obtain ⟨a1, a2, a3, a4⟩ := saturation_layout S T hT hTe b position
  obtain ⟨r1, r2, r3⟩ := saturationOf_range T hT hTe b hb0 hb1
  refine ⟨_, a1, a2, ?_, a4, ?_, ?_, ?_⟩
  · intro t c ht hc
    rw [a3 t c ht hc]
    rfl
  · intro t c ht hc
    rw [a3 t c ht hc]
    exact r1 t ht
  · intro t u c d htu hu hc hd
    rw [a3 t c (by omega) hc, a3 u d hu hd]
    exact r2 t u htu
  · intro c hc
    rw [a3 (T - 1) c (by omega) hc]
    exact r3

/-- Witness for C12: 6 sectors, 2 tracks and blend `1/4` on an all-zero buffer. -/
theorem saturation_tracks_layout_witness :
    ∃ o, CreateColorWheelSaturation 6 2 (1 / 4 : ℚ) zeroScalars = some o ∧
      o.it = (zeroScalars : OutIt ℚ).it + 2 * 6 * 4 ∧
      (∀ c, c < 6 * 4 → o.buf ((zeroScalars : OutIt ℚ).it + (2 - 1) * (6 * 4) + c) = 1) := by
  obtain ⟨o, h1, h2, _, _, _, _, h7⟩ := saturation_tracks_layout 6 2 (by norm_num)
    (by norm_num) (1 / 4 : ℚ) (by norm_num) (by norm_num) zeroScalars
  exact ⟨o, h1, h2, h7⟩

/-- C13 (as stated, fails): with one track, one sector and trackBlendT `1/4` the
generator writes four scalars equal to `1/4`, not 1: the flag `isEven` starts as
`trackCount >= 2`, which is false, so the track gets the odd width
`TrackStep * trackBlendT`. -/
theorem single_track_saturation_is_blend :
    (CreateColorWheelSaturation 1 1 (1 / 4 : ℚ) zeroScalars).map (fun o => o.buf 0)
      = some (1 / 4) ∧
    (CreateColorWheelSaturation 1 1 (1 / 4 : ℚ) zeroScalars).map (fun o => o.buf 0)
      ≠ some 1 := by
  obtain ⟨a1, _, a3, _⟩ := saturation_single 1 (1 / 4 : ℚ) zeroScalars
  have h := a3 0 (by norm_num)
  have e : (zeroScalars : OutIt ℚ).it + 0 = 0 := rfl
  rw [e] at h
  rw [a1, Option.map_some', h]
  refine ⟨rfl, ?_⟩
  intro hc
  have := Option.some.inj hc
  norm_num at this

/-- C13 (amended): when trackCount is 1, for every sectorCount `S` and every trackBlendT
`b`, `CreateColorWheelSaturation` returns, having written exactly `S * 4` scalars, and
every scalar written equals `b`; so the scalars equal 1 exactly when `b = 1`. -/
theorem single_track_saturation (S : ℕ) (b : α) (position : OutIt α) :
    ∃ o, CreateColorWheelSaturation S 1 b position = some o ∧
      o.it = position.it + S * 4 ∧
      (∀ c, c < S * 4 → o.buf (position.it + c) = b) ∧
      (∀ j, j < position.it ∨ position.it + S * 4 ≤ j → o.buf j = position.buf j) ∧
      (∀ c, c < S * 4 → (o.buf (position.it + c) = 1 ↔ b = 1)) := by
  obtain ⟨a1, a2, a3, a4⟩ := saturation_single S b position
  refine ⟨_, a1, a2, a3, a4, ?_⟩
  intro c hc
  rw [a3 c hc]


/-! ### The draw-range tables -/

theorem forLoop_invariant {σ : Type} (n : ℕ) (body : ℕ → σ → σ) (P : ℕ → σ → Prop)
    (hstep : ∀ i s, i < n → P i s → P (i + 1) (body i s)) :
    ∀ (k i : ℕ) (s : σ), n - i = k → i ≤ n → P i s → P n (forLoop n 1 body i s) := by
  intro k
  induction k with
  | zero =>
    intro i s h hi hP
    have e : i = n := by omega
    rw [forLoop, if_neg (by omega)]
    rw [← e]
    exact hP
  | succ k ih =>
    intro i s h hi hP
    rw [forLoop, if_pos ⟨by omega, by norm_num⟩]
    exact ih (i + 1) (body i s) (by omega) (by omega) (hstep i s (by omega) hP)

theorem toInt32_congr (a b : ℕ) (h : a % 2 ^ 32 = b % 2 ^ 32) : toInt32 a = toInt32 b := by
  unfold toInt32
  rw [h]

theorem toUInt32_toInt32 (a : ℕ) : toUInt32 (toInt32 a) = a % 2 ^ 32 := by
  unfold toUInt32 toInt32
  have hlt : a % 2 ^ 32 < 2 ^ 32 := Nat.mod_lt _ (by norm_num)
  generalize a % 2 ^ 32 = m at *
  norm_num at hlt ⊢
  split_ifs <;> omega

theorem toInt32_small (a : ℕ) (h : a < 2 ^ 31) : toInt32 a = (a : ℤ) := by
  unfold toInt32
  have e : a % 2 ^ 32 = a := Nat.mod_eq_of_lt (by omega)
  rw [e, if_pos h]

theorem toInt32_step (i E : ℕ) :
    toInt32 (toUInt32 (toInt32 (i * E)) + E) = toInt32 ((i + 1) * E) := by
  rw [toUInt32_toInt32]
  apply toInt32_congr
  have e : (i + 1) * E = i * E + E := by ring
  rw [e]
  generalize i * E = m
  omega

theorem indices_layout (S T : ℕ) (starts counts : StdVector ℤ) (hT : 1 ≤ T)
    (hs : T ≤ starts.size) (hc : T ≤ counts.size) :
    ∃ r, RecalculateIndices S T starts counts = some r ∧
      r.1.size = starts.size ∧ r.2.size = counts.size ∧
      (∀ i, i < T → r.1.data i = toInt32 (i * (S * 4 % 2 ^ 32)) ∧
        r.2.data i = toInt32 (S * 4 % 2 ^ 32)) ∧
      (∀ i, T ≤ i → r.1.data i = starts.data i ∧ r.2.data i = counts.data i) := by
  have key := forLoop_invariant T
    (fun i st => recalculateTrack (S * 4 % 2 ^ 32) i st)
    (fun i st => ∃ x : IndexLoop, st = some x ∧
      x.trackStartPositions.size = starts.size ∧ x.trackIndiceCounts.size = counts.size ∧
      x.startPosition = toInt32 (i * (S * 4 % 2 ^ 32)) ∧
      (∀ j, j < i → x.trackStartPositions.data j = toInt32 (j * (S * 4 % 2 ^ 32)) ∧
        x.trackIndiceCounts.data j = toInt32 (S * 4 % 2 ^ 32)) ∧
      (∀ j, i ≤ j → x.trackStartPositions.data j = starts.data j ∧
        x.trackIndiceCounts.data j = counts.data j))
    (by
      intro i st hi hP
      obtain ⟨x, hx, p1, p2, p3, p4, p5⟩ := hP
      have s1 : i < x.trackStartPositions.size := by omega
      have s2 : i < x.trackIndiceCounts.size := by omega
      refine ⟨⟨⟨x.trackStartPositions.size,
          Function.update x.trackStartPositions.data i x.startPosition⟩,
        ⟨x.trackIndiceCounts.size,
          Function.update x.trackIndiceCounts.data i (toInt32 (S * 4 % 2 ^ 32))⟩,
        toInt32 (toUInt32 x.startPosition + S * 4 % 2 ^ 32)⟩, ?_, p1, p2, ?_, ?_, ?_⟩
      · rw [hx]
        unfold recalculateTrack StdVector.store
        simp only [Option.bind_eq_bind, Option.some_bind, if_pos s1, if_pos s2]
      · rw [p3]
        exact toInt32_step i (S * 4 % 2 ^ 32)
      · intro j hj
        dsimp only
        by_cases hji : j = i
        · subst hji
          rw [Function.update_same, Function.update_same, p3]
          exact ⟨rfl, rfl⟩
        · rw [Function.update_noteq hji, Function.update_noteq hji]
          exact p4 j (by omega)
      · intro j hj
        dsimp only
        have hji : j ≠ i := by omega
        rw [Function.update_noteq hji, Function.update_noteq hji]
        exact p5 j (by omega))
    T 0 (some ⟨starts, counts, 0⟩) (by omega) (by omega)
    ⟨⟨starts, counts, 0⟩, rfl, rfl, rfl, by simp [toInt32], fun j hj => by omega,
      fun j _ => ⟨rfl, rfl⟩⟩
  obtain ⟨x, hx, p1, p2, _, p4, p5⟩ := key
  refine ⟨(x.trackStartPositions, x.trackIndiceCounts), ?_, p1, p2, p4, p5⟩
  unfold RecalculateIndices
  dsimp only
  rw [if_pos (show 0 ≠ T by omega), hx]
  rfl

/-- C14 (as stated, fails): with `2 ^ 30` sectors and one track the `unsigned int`
product `sectorCount * 4` wraps to 0, so `trackIndiceCounts[0]` is set to 0 and not to
`2 ^ 30 * 4`. -/
theorem index_count_wraps :
    (RecalculateIndices (2 ^ 30) 1 (zeroTable 1) (zeroTable 1)).map (fun r => r.2.data 0)
      = some 0 ∧
    (RecalculateIndices (2 ^ 30) 1 (zeroTable 1) (zeroTable 1)).map (fun r => r.2.data 0)
      ≠ some (2 ^ 30 * 4) := by
  obtain ⟨r, h1, _, _, h4, _⟩ := indices_layout (2 ^ 30) 1 (zeroTable 1) (zeroTable 1)
    le_rfl le_rfl le_rfl
  have h := (h4 0 (by norm_num)).2
  have e : toInt32 (2 ^ 30 * 4 % 2 ^ 32) = 0 := by decide
  rw [e] at h
  rw [h1, Option.map_some', h]
  exact ⟨rfl, by decide⟩

/-- C14 (amended): for every sectorCount `S` and trackCount `T >= 1` not exceeding the
length of either table, with `S * 4 < 2 ^ 31` and `(T - 1) * (S * 4) < 2 ^ 31` (all
stored values representable as `int`), `RecalculateIndices` returns, sets
`trackStartPositions[i] = i * S * 4` and `trackIndiceCounts[i] = S * 4` for every
`i < T`, and leaves the table lengths and the entries at indices `>= T` unchanged. -/
theorem index_tables (S T : ℕ) (trackStartPositions trackIndiceCounts : StdVector ℤ)
    (hT : 1 ≤ T) (hs : T ≤ trackStartPositions.size) (hc : T ≤ trackIndiceCounts.size)
    (hfit : S * 4 < 2 ^ 31) (hlast : (T - 1) * (S * 4) < 2 ^ 31) :
    ∃ r, RecalculateIndices S T trackStartPositions trackIndiceCounts = some r ∧
      r.1.size = trackStartPositions.size ∧ r.2.size = trackIndiceCounts.size ∧
      (∀ i, i < T → r.1.data i = (i : ℤ) * S * 4 ∧ r.2.data i = (S : ℤ) * 4) ∧
      (∀ i, T ≤ i → r.1.data i = trackStartPositions.data i ∧
        r.2.data i = trackIndiceCounts.data i) := by
  obtain ⟨r, h1, h2, h3, h4, h5⟩ := indices_layout S T trackStartPositions trackIndiceCounts
    hT hs hc
  refine ⟨r, h1, h2, h3, ?_, h5⟩
  intro i hi
  obtain ⟨a, b⟩ := h4 i hi
  have eE : S * 4 % 2 ^ 32 = S * 4 := Nat.mod_eq_of_lt (by omega)
  rw [eE] at a b
  have hle : i * (S * 4) ≤ (T - 1) * (S * 4) := Nat.mul_le_mul_right _ (by omega)
  rw [toInt32_small _ (lt_of_le_of_lt hle hlast)] at a
  rw [toInt32_small _ hfit] at b
  refine ⟨?_, ?_⟩
  · rw [a]
    push_cast
    ring
  · rw [b]
    push_cast
    ring

/-- Witness for C14 (amended): 12 sectors and 4 tracks on tables of six zeros give the
offsets 0, 48, 96, 144 and the counts 48, 48, 48, 48, and leave entries 4 and 5 at 0. -/
theorem index_tables_witness :
    ∃ r, RecalculateIndices 12 4 (zeroTable 6) (zeroTable 6) = some r ∧
      (List.range 6).map r.1.data = [0, 48, 96, 144, 0, 0] ∧
      (List.range 6).map r.2.data = [48, 48, 48, 48, 0, 0] := by
  obtain ⟨r, h1, _, _, h4, h5⟩ := index_tables 12 4 (zeroTable 6) (zeroTable 6)
    (by norm_num) (by decide) (by decide) (by norm_num) (by norm_num)
  refine ⟨r, h1, ?_, ?_⟩
  · have a0 := (h4 0 (by norm_num)).1
    have a1 := (h4 1 (by norm_num)).1
    have a2 := (h4 2 (by norm_num)).1
    have a3 := (h4 3 (by norm_num)).1
    have a4 := (h5 4 (by norm_num)).1
    have a5 := (h5 5 (by norm_num)).1
    simp only [List.range, List.range.loop, List.map, a0, a1, a2, a3, a4, a5, zeroTable]
    norm_num
  · have a0 := (h4 0 (by norm_num)).2
    have a1 := (h4 1 (by norm_num)).2
    have a2 := (h4 2 (by norm_num)).2
    have a3 := (h4 3 (by norm_num)).2
    have a4 := (h5 4 (by norm_num)).2
    have a5 := (h5 5 (by norm_num)).2
    simp only [List.range, List.range.loop, List.map, a0, a1, a2, a3, a4, a5, zeroTable]
    norm_num


/-! ### Buffer capacity -/

theorem CreateGeometry_fits (cos sin : α → α) (S T : ℕ) (hS : 2 ≤ S) (hSe : S % 2 = 0)
    (hT : 2 ≤ T) (hTe : T % 2 = 0) (r sb tb : α) (v : StdVector (vec2 α))
    (hcap : S * T * 4 ≤ v.size) :
    ∃ w, CreateGeometry cos sin S T r sb tb v = some w ∧ w.size = v.size := by
  have hle : T * S * 4 % 2 ^ 32 ≤ v.size := by
    have e : T * S * 4 = S * T * 4 := by ring
    rw [e]
    exact le_trans (Nat.mod_le _ _) hcap
  obtain ⟨g1, g2, _, _⟩ := geometry_even cos sin S T hS hSe hT hTe r sb tb ⟨0, v.data⟩
  have hit : (CreateColorWheelGeometryLoops cos sin S T r sb tb ⟨0, v.data⟩).it ≤ v.size := by
    rw [g2]
    simpa using hcap
  unfold CreateGeometry
  dsimp only
  rw [if_pos (show 0 ≠ T by omega), if_neg (not_lt.mpr hle), g1]
  simp only [Option.some_bind]
  unfold StdVector.written
  rw [if_pos hit]
  exact ⟨_, rfl, rfl⟩

theorem CreateSaturation_fits (S T : ℕ) (hT : 2 ≤ T) (hTe : T % 2 = 0) (b : α)
    (v : StdVector α) (hcap : S * T * 4 ≤ v.size) :
    ∃ w, CreateSaturation S T b v = some w ∧ w.size = v.size := by
  have e : T * S * 4 = S * T * 4 := by ring
  have hle : T * S * 4 % 2 ^ 32 ≤ v.size := by
    rw [e]
    exact le_trans (Nat.mod_le _ _) hcap
  obtain ⟨g1, g2, _, _⟩ := saturation_layout S T hT hTe b ⟨0, v.data⟩
  have hit : (CreateColorWheelSaturationLoops S T b ⟨0, v.data⟩).it ≤ v.size := by
    rw [g2, e]
    simpa using hcap
  unfold CreateSaturation
  dsimp only
  rw [if_pos (show 0 ≠ T by omega), if_neg (not_lt.mpr hle), g1]
  simp only [Option.some_bind]
  unfold StdVector.written
  rw [if_pos hit]
  exact ⟨_, rfl, rfl⟩

theorem CreateColors_fits [FloorRing α] (S T : ℕ) (hT : 1 ≤ T) (hfit : S * 4 < 2 ^ 32)
    (v w : StdVector (vec3 α)) (hv : S * T * 4 ≤ v.size) (hw : S * T * 4 ≤ w.size) :
    ∃ r, CreateColors S T v w = some r ∧ r.1.size = v.size ∧ r.2.size = w.size := by
  have e : T * S * 4 = S * T * 4 := by ring
  have hlev : T * S * 4 % 2 ^ 32 ≤ v.size := by
    rw [e]
    exact le_trans (Nat.mod_le _ _) hv
  have hlew : T * S * 4 % 2 ^ 32 ≤ w.size := by
    rw [e]
    exact le_trans (Nat.mod_le _ _) hw
  obtain ⟨g1, _, _⟩ := colors_fit_layout S T hT hfit (RgbColorModel : ℤ → α) ⟨0, v.data⟩
  obtain ⟨k1, _, _⟩ := colors_fit_layout S T hT hfit (RybColorModel : ℤ → α) ⟨0, w.data⟩
  have hitv : (CreateColorWheelColors S T (RgbColorModel : ℤ → α) ⟨0, v.data⟩).it ≤ v.size := by
    rw [g1]
    simpa using hv
  have hitw : (CreateColorWheelColors S T (RybColorModel : ℤ → α) ⟨0, w.data⟩).it ≤ w.size := by
    rw [k1]
    simpa using hw
  unfold CreateColors
  dsimp only
  rw [if_pos (show 0 ≠ T by omega), if_neg (not_lt.mpr hlev), if_neg (not_lt.mpr hlew)]
  unfold StdVector.written
  rw [if_pos hitv, if_pos hitw]
  simp only [Option.some_bind]
  exact ⟨_, rfl, rfl, rfl⟩

theorem counts_in_range (p q : ℤ) (hp0 : 0 ≤ p) (hp : p ≤ MaxHueTessellations)
    (hq0 : 0 ≤ q) (hq : q ≤ MaxSaturationTessellations) :
    ∃ S T : ℕ, ColorCountForTessellation p = some (S : ℤ) ∧
      SaturationCountForTessellation q = some (T : ℤ) ∧
      2 ≤ S ∧ S % 2 = 0 ∧ S ≤ 768 ∧ 2 ≤ T ∧ T % 2 = 0 ∧ T ≤ 512 := by
  unfold MaxHueTessellations at hp
  unfold MaxSaturationTessellations at hq
  have hS : ∃ S : ℕ, ColorCountForTessellation p = some (S : ℤ) ∧
      2 ≤ S ∧ S % 2 = 0 ∧ S ≤ 768 := by
    interval_cases p
    · exact ⟨6, by decide⟩
    · exact ⟨12, by decide⟩
    · exact ⟨24, by decide⟩
    · exact ⟨48, by decide⟩
    · exact ⟨96, by decide⟩
    · exact ⟨192, by decide⟩
    · exact ⟨384, by decide⟩
    · exact ⟨768, by decide⟩
  have hT : ∃ T : ℕ, SaturationCountForTessellation q = some (T : ℤ) ∧
      2 ≤ T ∧ T % 2 = 0 ∧ T ≤ 512 := by
    interval_cases q
    · exact ⟨2, by decide⟩
    · exact ⟨4, by decide⟩
    · exact ⟨8, by decide⟩
    · exact ⟨16, by decide⟩
    · exact ⟨32, by decide⟩
    · exact ⟨64, by decide⟩
    · exact ⟨128, by decide⟩
    · exact ⟨256, by decide⟩
    · exact ⟨512, by decide⟩
  obtain ⟨S, s1, s2, s3, s4⟩ := hS
  obtain ⟨T, t1, t2, t3, t4⟩ := hT
  exact ⟨S, T, s1, t1, s2, s3, s4, t2, t3, t4⟩

/-- C16: capacity is respected by construction.  For every sector level `p` in
`[0, MaxHueTessellations]` and every track level `q` in `[0, MaxSaturationTessellations]`,
with `S = ColorCountForTessellation p` and `T = SaturationCountForTessellation q`, the vertex
count `S * T * 4` is at most the preallocated size `TotalVertices`
`= ColorCountForTessellation 7 * SaturationCountForTessellation 8 * 4` and `T` is at most the
table length `SaturationCountForTessellation 8`; so on buffers of the preallocated size
`CreateGeometry`, `CreateColors` and `CreateSaturation` return without resizing and without
writing past the end, and `RecalculateIndices` stays inside tables of that length. -/
theorem capacity_respected [FloorRing α] (cos sin : α → α) (p q : ℤ) (hp0 : 0 ≤ p)
    (hp : p ≤ MaxHueTessellations) (hq0 : 0 ≤ q) (hq : q ≤ MaxSaturationTessellations)
    (innerRadius sectorBlendT trackBlendT : α) :
    ∃ S T cap len : ℕ,
      ColorCountForTessellation p = some (S : ℤ) ∧
      SaturationCountForTessellation q = some (T : ℤ) ∧
      TotalVertices = some (cap : ℤ) ∧
      (ColorCountForTessellation 7).bind (fun a =>
        (SaturationCountForTessellation 8).bind fun b => some (a * b * 4)) = some (cap : ℤ) ∧
      SaturationCountForTessellation MaxSaturationTessellations = some (len : ℤ) ∧
      S * T * 4 ≤ cap ∧ T ≤ len ∧
      (∀ verts : StdVector (vec2 α), verts.size = cap →
        ∃ w, CreateGeometry cos sin S T innerRadius sectorBlendT trackBlendT verts = some w ∧
          w.size = cap) ∧
      (∀ colors alt : StdVector (vec3 α), colors.size = cap → alt.size = cap →
        ∃ r, CreateColors S T colors alt = some r ∧ r.1.size = cap ∧ r.2.size = cap) ∧
      (∀ sat : StdVector α, sat.size = cap →
        ∃ w, CreateSaturation S T trackBlendT sat = some w ∧ w.size = cap) ∧
      (∀ starts counts : StdVector ℤ, starts.size = len → counts.size = len →
        ∃ r, RecalculateIndices S T starts counts = some r ∧
          r.1.size = len ∧ r.2.size = len) := by
  obtain ⟨S, T, h1, h2, s2, s3, s4, t2, t3, t4⟩ := counts_in_range p q hp0 hp hq0 hq
  have hmul : S * T ≤ 768 * 512 := Nat.mul_le_mul s4 t4
  have hcap : S * T * 4 ≤ 1572864 := by omega
  refine ⟨S, T, 1572864, 512, h1, h2, by decide, by decide, by decide, hcap, t4,
    ?_, ?_, ?_, ?_⟩
  · intro verts hv
    obtain ⟨w, a, b⟩ := CreateGeometry_fits cos sin S T s2 s3 t2 t3 innerRadius sectorBlendT
      trackBlendT verts (by rw [hv]; exact hcap)
    exact ⟨w, a, b.trans hv⟩
  · intro colors alt hc ha
    obtain ⟨r, a, b, c⟩ := CreateColors_fits S T (by omega) (by omega) colors alt
      (by rw [hc]; exact hcap) (by rw [ha]; exact hcap)
    exact ⟨r, a, b.trans hc, c.trans ha⟩
  · intro sat hs
    obtain ⟨w, a, b⟩ := CreateSaturation_fits S T t2 t3 trackBlendT sat
      (by rw [hs]; exact hcap)
    exact ⟨w, a, b.trans hs⟩
  · intro starts counts hs hc
    obtain ⟨r, a, b, c, _, _⟩ := indices_layout S T starts counts (by omega)
      (by rw [hs]; exact t4) (by rw [hc]; exact t4)
    exact ⟨r, a, b.trans hs, c.trans hc⟩

/-- Witness for C16: the maximum levels 7 and 8 fill the buffers exactly. -/
theorem capacity_respected_witness :
    ∃ S T cap len : ℕ,
      ColorCountForTessellation 7 = some (S : ℤ) ∧
      SaturationCountForTessellation 8 = some (T : ℤ) ∧
      TotalVertices = some (cap : ℤ) ∧
      SaturationCountForTessellation MaxSaturationTessellations = some (len : ℤ) ∧
      S * T * 4 ≤ cap ∧ T ≤ len ∧
      (∀ sat : StdVector ℚ, sat.size = cap →
        ∃ w, CreateSaturation S T (1 / 2 : ℚ) sat = some w ∧ w.size = cap) := by
  obtain ⟨S, T, cap, len, h1, h2, h3, _, h5, h6, h7, _, _, h10, _⟩ :=
    capacity_respected (fun _ : ℚ => (1 : ℚ)) (fun _ : ℚ => (0 : ℚ)) 7 8 (by decide)
      (by decide) (by decide) (by decide) (189 / 1000) 0 (1 / 2)
  exact ⟨S, T, cap, len, h1, h2, h3, h5, h6, h7, h10⟩

/-! ### Track count zero, preconditions -/

/-- C23: `trackCount == 0` is treated as 1.  For every sectorCount and every other
parameter, `CreateColorWheelGeometry`, `CreateColorWheelSaturation`,
`CreateColorWheelColors` and `RecalculateIndices` each produce with trackCount 0 exactly
the output they produce with trackCount 1. -/
theorem trackCount_zero_as_one [FloorRing α] (cos sin : α → α) (sectorCount : ℕ)
    (innerRadius sectorBlendT trackBlendT : α) (colorModel : ℤ → α)
    (verts : OutIt (vec2 α)) (saturation : OutIt α) (colors : OutIt (vec3 α))
    (trackStartPositions trackIndiceCounts : StdVector ℤ) :
    CreateColorWheelGeometry cos sin sectorCount 0 innerRadius sectorBlendT trackBlendT verts
      = CreateColorWheelGeometry cos sin sectorCount 1 innerRadius sectorBlendT trackBlendT
          verts ∧
    CreateColorWheelSaturation sectorCount 0 trackBlendT saturation
      = CreateColorWheelSaturation sectorCount 1 trackBlendT saturation ∧
    CreateColorWheelColors sectorCount 0 colorModel colors
      = CreateColorWheelColors sectorCount 1 colorModel colors ∧
    RecalculateIndices sectorCount 0 trackStartPositions trackIndiceCounts
      = RecalculateIndices sectorCount 1 trackStartPositions trackIndiceCounts := by
  refine ⟨?_, ?_, ?_, ?_⟩
  · unfold CreateColorWheelGeometry CreateColorWheelGeometryLoops
    simp
  · unfold CreateColorWheelSaturation CreateColorWheelSaturationLoops
    simp
  · unfold CreateColorWheelColors
    dsimp only
    rw [forLoop_one 0 _ 0 1 _ rfl, forLoop_one 1 _ 0 1 _ rfl]
  · unfold RecalculateIndices
    simp

/-- C24: precondition checking of the mesh generator.  `CreateColorWheelGeometry` fails
its assertions exactly when sectorCount is below 2, or sectorCount is odd, or trackCount is
odd and different from 1; for every other input it runs to completion and returns the
iterator computed by its loops. -/
theorem geometry_preconditions (cos sin : α → α) (sectorCount trackCount : ℕ)
    (innerRadius sectorBlendT trackBlendT : α) (position : OutIt (vec2 α)) :
    (CreateColorWheelGeometry cos sin sectorCount trackCount innerRadius sectorBlendT
        trackBlendT position = none ↔
      sectorCount < 2 ∨ sectorCount % 2 = 1 ∨ (trackCount % 2 = 1 ∧ trackCount ≠ 1)) ∧
    (¬ (sectorCount < 2 ∨ sectorCount % 2 = 1 ∨ (trackCount % 2 = 1 ∧ trackCount ≠ 1)) →
      CreateColorWheelGeometry cos sin sectorCount trackCount innerRadius sectorBlendT
        trackBlendT position
        = some (CreateColorWheelGeometryLoops cos sin sectorCount trackCount innerRadius
            sectorBlendT trackBlendT position)) := by
  unfold CreateColorWheelGeometry
  by_cases h : sectorCount ≥ 2 ∧ sectorCount % 2 = 0 ∧ (trackCount = 1 ∨ trackCount % 2 = 0)
  · rw [if_pos h]
    refine ⟨⟨fun hc => by simp at hc, fun hb => ?_⟩, fun _ => rfl⟩
    exfalso
    omega
  · rw [if_neg h]
    refine ⟨⟨fun _ => ?_, fun _ => rfl⟩, fun hb => ?_⟩
    · by_contra hb
      apply h
      omega
    · exfalso
      apply h
      omega

/-- Witness-like instance for C24: 3 sectors fail the assertion, 6 sectors and 2 tracks
pass. -/
theorem geometry_preconditions_witness :
    CreateColorWheelGeometry (fun _ : ℚ => (1 : ℚ)) (fun _ : ℚ => (0 : ℚ)) 3 2 (1 / 2) 0 0
        zeroPositions = none ∧
    CreateColorWheelGeometry (fun _ : ℚ => (1 : ℚ)) (fun _ : ℚ => (0 : ℚ)) 6 2 (1 / 2) 0 0
        zeroPositions
      = some (CreateColorWheelGeometryLoops (fun _ : ℚ => (1 : ℚ)) (fun _ : ℚ => (0 : ℚ)) 6 2
          (1 / 2) 0 0 zeroPositions) :=
  ⟨(geometry_preconditions (fun _ : ℚ => (1 : ℚ)) (fun _ : ℚ => (0 : ℚ)) 3 2 (1 / 2) 0 0
      zeroPositions).1.mpr (by decide),
    (geometry_preconditions (fun _ : ℚ => (1 : ℚ)) (fun _ : ℚ => (0 : ℚ)) 6 2 (1 / 2) 0 0
      zeroPositions).2 (by decide)⟩

/-- C29: the assertions of the generators are unreachable from the frame driver.  For
every sector level `p` in `[0, MaxHueTessellations]` and every track level `q` in
`[0, MaxSaturationTessellations]`, `ColorCountForTessellation p` is even and at least 2 and
`SaturationCountForTessellation q` is even (and not 0, so `minTracks` is the count itself);
hence `CreateColorWheelGeometry` and `CreateColorWheelSaturation` pass their assertions
and `CreateGeometry` and `CreateSaturation` return on sufficiently large vectors. -/
theorem assertions_unreachable (cos sin : α → α) (p q : ℤ) (hp0 : 0 ≤ p)
    (hp : p ≤ MaxHueTessellations) (hq0 : 0 ≤ q) (hq : q ≤ MaxSaturationTessellations)
    (innerRadius sectorBlendT trackBlendT : α) :
    ∃ S T : ℕ, ColorCountForTessellation p = some (S : ℤ) ∧
      SaturationCountForTessellation q = some (T : ℤ) ∧
      toUInt32 (S : ℤ) = S ∧ toUInt32 (T : ℤ) = T ∧
      2 ≤ S ∧ S % 2 = 0 ∧ T % 2 = 0 ∧ (if 0 ≠ T then T else 1) = T ∧
      (∀ position : OutIt (vec2 α),
        CreateColorWheelGeometry cos sin S T innerRadius sectorBlendT trackBlendT position
          = some (CreateColorWheelGeometryLoops cos sin S T innerRadius sectorBlendT
              trackBlendT position)) ∧
      (∀ position : OutIt α,
        CreateColorWheelSaturation S T trackBlendT position
          = some (CreateColorWheelSaturationLoops S T trackBlendT position)) ∧
      (∀ verts : StdVector (vec2 α), S * T * 4 ≤ verts.size →
        ∃ w, CreateGeometry cos sin S T innerRadius sectorBlendT trackBlendT verts
          = some w) ∧
      (∀ sat : StdVector α, S * T * 4 ≤ sat.size →
        ∃ w, CreateSaturation S T trackBlendT sat = some w) := by
  obtain ⟨S, T, h1, h2, s2, s3, s4, t2, t3, t4⟩ := counts_in_range p q hp0 hp hq0 hq
  have u1 : toUInt32 (S : ℤ) = S := by
    unfold toUInt32
    omega
  have u2 : toUInt32 (T : ℤ) = T := by
    unfold toUInt32
    omega
  refine ⟨S, T, h1, h2, u1, u2, s2, s3, t3, by rw [if_pos (by omega)], ?_, ?_, ?_, ?_⟩
  · intro position
    exact (geometry_even cos sin S T s2 s3 t2 t3 innerRadius sectorBlendT trackBlendT
      position).1
  · intro position
    exact (saturation_layout S T t2 t3 trackBlendT position).1
  · intro verts hv
    obtain ⟨w, a, _⟩ := CreateGeometry_fits cos sin S T s2 s3 t2 t3 innerRadius sectorBlendT
      trackBlendT verts hv
    exact ⟨w, a⟩
  · intro sat hv
    obtain ⟨w, a, _⟩ := CreateSaturation_fits S T t2 t3 trackBlendT sat hv
    exact ⟨w, a⟩

/-- Witness for C29: the start-up levels 1 and 6, that is 12 sectors and 128 tracks. -/
theorem assertions_unreachable_witness :
    ∃ S T : ℕ, ColorCountForTessellation 1 = some (S : ℤ) ∧
      SaturationCountForTessellation 6 = some (T : ℤ) ∧
      2 ≤ S ∧ S % 2 = 0 ∧ T % 2 = 0 ∧
      (∀ position : OutIt (vec2 ℚ),
        CreateColorWheelGeometry (fun _ : ℚ => (1 : ℚ)) (fun _ : ℚ => (0 : ℚ)) S T (1 / 2) 1 0
            position
          = some (CreateColorWheelGeometryLoops (fun _ : ℚ => (1 : ℚ)) (fun _ : ℚ => (0 : ℚ))
              S T (1 / 2) 1 0 position)) := by
  obtain ⟨S, T, h1, h2, _, _, h5, h6, h7, _, h9, _⟩ :=
    assertions_unreachable (fun _ : ℚ => (1 : ℚ)) (fun _ : ℚ => (0 : ℚ)) 1 6 (by decide)
      (by decide) (by decide) (by decide) (1 / 2) 1 0
  exact ⟨S, T, h1, h2, h5, h6, h7, h9⟩


/-! ### Sector and track tiling -/

theorem halfAngles_sum (D sb : α) (s : ℕ) :
    sectorHalfAngleAt D sb s + sectorHalfAngleAt D sb (s + 1) = D := by
  unfold sectorHalfAngleAt
  rcases Nat.mod_two_eq_zero_or_one s with h | h
  · have h' : ¬ ((s + 1) % 2 = 0) := by omega
    rw [if_pos h, if_neg h']
    ring
  · have h' : (s + 1) % 2 = 0 := by omega
    have h'' : ¬ (s % 2 = 0) := by omega
    rw [if_neg h'', if_pos h']
    ring

/-- C28: sectors tile the circle with no gap and no overlap at every blend value.  For
every even sectorCount `S >= 2` and every sectorBlendT, with `D = 2π / S`, the cell of
sector `s` is written with the angles `lower = s * D - h s` and `upper = s * D + h s`,
where the even and odd half-angles `h` sum to `D`; so within a track the upper angle of
sector `s` equals the lower angle of sector `s + 1` for `s < S - 1` (the two cells share
their edge vertices), and the upper angle of sector `S - 1` equals the lower angle of
sector 0 plus `2π`; at sectorBlendT 0 every odd sector is degenerate (lower = upper) and
at sectorBlendT 1 every sector has angular width `D`. -/
theorem sectors_tile_circle (cos sin : α → α) (S T : ℕ) (hS : 2 ≤ S) (hSe : S % 2 = 0)
    (hT : 2 ≤ T) (hTe : T % 2 = 0) (innerRadius sectorBlendT trackBlendT : α)
    (position : OutIt (vec2 α)) :
    (∀ t s c, t < T → s < S → c < 4 →
      (CreateColorWheelGeometryLoops cos sin S T innerRadius sectorBlendT trackBlendT
          position).buf (position.it + (t * S + s) * 4 + c)
        = cellCorner cos sin
            ((s : α) * (TwoPi / (S : α)) - sectorHalfAngleAt (TwoPi / (S : α)) sectorBlendT s)
            ((s : α) * (TwoPi / (S : α)) + sectorHalfAngleAt (TwoPi / (S : α)) sectorBlendT s)
            (trackInnerAt ((1 - innerRadius) / (T : α)) innerRadius trackBlendT t)
            (trackOuterAt ((1 - innerRadius) / (T : α)) innerRadius trackBlendT t) c) ∧
    TwoPi / (S : α) * (1 - sectorBlendT / 2) + TwoPi / (S : α) * (sectorBlendT / 2)
      = TwoPi / (S : α) ∧
    (∀ s, s + 1 < S →
      (s : α) * (TwoPi / (S : α)) + sectorHalfAngleAt (TwoPi / (S : α)) sectorBlendT s
        = ((s + 1 : ℕ) : α) * (TwoPi / (S : α))
          - sectorHalfAngleAt (TwoPi / (S : α)) sectorBlendT (s + 1)) ∧
    (∀ t s, t < T → s + 1 < S →
      (CreateColorWheelGeometryLoops cos sin S T innerRadius sectorBlendT trackBlendT
          position).buf (position.it + (t * S + s) * 4 + 2)
        = (CreateColorWheelGeometryLoops cos sin S T innerRadius sectorBlendT trackBlendT
          position).buf (position.it + (t * S + (s + 1)) * 4 + 0) ∧
      (CreateColorWheelGeometryLoops cos sin S T innerRadius sectorBlendT trackBlendT
          position).buf (position.it + (t * S + s) * 4 + 3)
        = (CreateColorWheelGeometryLoops cos sin S T innerRadius sectorBlendT trackBlendT
          position).buf (position.it + (t * S + (s + 1)) * 4 + 1)) ∧
    ((S - 1 : ℕ) : α) * (TwoPi / (S : α))
        + sectorHalfAngleAt (TwoPi / (S : α)) sectorBlendT (S - 1)
      = ((0 : ℕ) : α) * (TwoPi / (S : α)) - sectorHalfAngleAt (TwoPi / (S : α)) sectorBlendT 0
        + TwoPi ∧
    (sectorBlendT = 0 → ∀ s : ℕ, s % 2 = 1 →
      (s : α) * (TwoPi / (S : α)) - sectorHalfAngleAt (TwoPi / (S : α)) sectorBlendT s
        = (s : α) * (TwoPi / (S : α)) + sectorHalfAngleAt (TwoPi / (S : α)) sectorBlendT s) ∧
    (sectorBlendT = 1 → ∀ s : ℕ,
      ((s : α) * (TwoPi / (S : α)) + sectorHalfAngleAt (TwoPi / (S : α)) sectorBlendT s)
        - ((s : α) * (TwoPi / (S : α)) - sectorHalfAngleAt (TwoPi / (S : α)) sectorBlendT s)
        = TwoPi / (S : α)) := by
  obtain ⟨_, _, g2, _⟩ := geometry_even cos sin S T hS hSe hT hTe innerRadius sectorBlendT
    trackBlendT position
  have hSpos : (0 : α) < (S : α) := by exact_mod_cast (by omega : 0 < S)
  have hadj : ∀ s : ℕ, (s : α) * (TwoPi / (S : α))
      + sectorHalfAngleAt (TwoPi / (S : α)) sectorBlendT s
      = ((s + 1 : ℕ) : α) * (TwoPi / (S : α))
        - sectorHalfAngleAt (TwoPi / (S : α)) sectorBlendT (s + 1) := by
    intro s
    have h := halfAngles_sum (TwoPi / (S : α)) sectorBlendT s
    push_cast
    linarith
  refine ⟨?_, by ring, fun s _ => hadj s, ?_, ?_, ?_, ?_⟩
  · intro t s c ht hs hc
    rw [g2 t s c ht hs hc]
    rfl
  · intro t s ht hs
    rw [g2 t s 2 ht (by omega) (by norm_num), g2 t s 3 ht (by omega) (by norm_num),
      g2 t (s + 1) 0 ht hs (by norm_num), g2 t (s + 1) 1 ht hs (by norm_num)]
    unfold meshVertex cellCorner
    dsimp only
    rw [hadj s]
    exact ⟨rfl, rfl⟩
  · have ho : ¬ ((S - 1) % 2 = 0) := by omega
    have e : ((S - 1 : ℕ) : α) = (S : α) - 1 := by
      have : (S - 1) + 1 = S := by omega
      have h2 : ((S - 1 : ℕ) : α) + 1 = (S : α) := by exact_mod_cast this
      linarith
    unfold sectorHalfAngleAt
    rw [if_neg ho, if_pos (by norm_num : 0 % 2 = 0), e]
    field_simp
    ring
  · intro hb s hs
    have ho : ¬ (s % 2 = 0) := by omega
    unfold sectorHalfAngleAt
    rw [if_neg ho, hb]
    ring
  · intro hb s
    unfold sectorHalfAngleAt
    rw [hb]
    split_ifs <;> ring

/-- Witness for C28: 6 sectors and 2 tracks with sectorBlendT `1/2`; the upper angle of
sector 2 is the lower angle of sector 3. -/
theorem sectors_tile_circle_witness :
    ((2 : ℕ) : ℚ) * (TwoPi / ((6 : ℕ) : ℚ)) + sectorHalfAngleAt (TwoPi / ((6 : ℕ) : ℚ)) (1 / 2) 2
      = ((2 + 1 : ℕ) : ℚ) * (TwoPi / ((6 : ℕ) : ℚ))
        - sectorHalfAngleAt (TwoPi / ((6 : ℕ) : ℚ)) (1 / 2) (2 + 1) :=
  (sectors_tile_circle (fun _ : ℚ => (1 : ℚ)) (fun _ : ℚ => (0 : ℚ)) 6 2 (by norm_num)
    (by norm_num) (by norm_num) (by norm_num) (1 / 2) (1 / 2) 0 zeroPositions).2.2.1 2
    (by norm_num)

theorem trackOuterAt_saturation (T : ℕ) (r b : α) (t : ℕ) :
    trackOuterAt ((1 - r) / (T : α)) r b t = r + (1 - r) * saturationOf T b t := by
  unfold trackOuterAt saturationOf
  split_ifs <;> ring

/-- C25: saturation tracks use the same even/odd width blending as the mesh.  For every
even trackCount `T >= 2` (and even sectorCount `S >= 2`), every trackBlendT and every
innerRadius `r`, both generators return; the cell of track `t < T` is written with an
outer radius equal to `r + (1 - r) *` (any scalar `CreateColorWheelSaturation` writes for
track `t`) and with an inner radius that is `r` for track 0 and the outer radius of track
`t - 1` otherwise; in particular the outermost radius is 1. -/
theorem saturation_matches_mesh (cos sin : α → α) (S T : ℕ) (hS : 2 ≤ S) (hSe : S % 2 = 0)
    (hT : 2 ≤ T) (hTe : T % 2 = 0) (innerRadius sectorBlendT trackBlendT : α)
    (position : OutIt (vec2 α)) (saturation : OutIt α) :
    ∃ g o,
      CreateColorWheelGeometry cos sin S T innerRadius sectorBlendT trackBlendT position
        = some g ∧
      CreateColorWheelSaturation S T trackBlendT saturation = some o ∧
      (∀ t s c d, t < T → s < S → c < 4 → d < S * 4 →
        g.buf (position.it + (t * S + s) * 4 + c)
          = cellCorner cos sin
              ((s : α) * (TwoPi / (S : α))
                - sectorHalfAngleAt (TwoPi / (S : α)) sectorBlendT s)
              ((s : α) * (TwoPi / (S : α))
                + sectorHalfAngleAt (TwoPi / (S : α)) sectorBlendT s)
              (if t = 0 then innerRadius
                else innerRadius
                  + (1 - innerRadius) * o.buf (saturation.it + (t - 1) * (S * 4) + d))
              (innerRadius + (1 - innerRadius) * o.buf (saturation.it + t * (S * 4) + d))
              c) ∧
      (∀ t d, t < T → d < S * 4 →
        trackOuterAt ((1 - innerRadius) / (T : α)) innerRadius trackBlendT t
          = innerRadius + (1 - innerRadius) * o.buf (saturation.it + t * (S * 4) + d)) ∧
      (∀ t, trackInnerAt ((1 - innerRadius) / (T : α)) innerRadius trackBlendT (t + 1)
          = trackOuterAt ((1 - innerRadius) / (T : α)) innerRadius trackBlendT t) ∧
      (∀ d, d < S * 4 →
        innerRadius + (1 - innerRadius) * o.buf (saturation.it + (T - 1) * (S * 4) + d)
          = 1) := by
  obtain ⟨g1, _, g3, _⟩ := geometry_even cos sin S T hS hSe hT hTe innerRadius sectorBlendT
    trackBlendT position
  obtain ⟨a1, _, a3, _⟩ := saturation_layout S T hT hTe trackBlendT saturation
  have hTpos : (0 : α) < (T : α) := by exact_mod_cast (by omega : 0 < T)
  have hsucc : ∀ t, trackInnerAt ((1 - innerRadius) / (T : α)) innerRadius trackBlendT (t + 1)
      = trackOuterAt ((1 - innerRadius) / (T : α)) innerRadius trackBlendT t := by
    intro t
    obtain ⟨e1, e2⟩ := trackInnerAt_succ ((1 - innerRadius) / (T : α)) innerRadius
      trackBlendT t
    rw [e1, e2]
  have hout : ∀ t d, t < T → d < S * 4 →
      trackOuterAt ((1 - innerRadius) / (T : α)) innerRadius trackBlendT t
        = innerRadius + (1 - innerRadius)
          * (CreateColorWheelSaturationLoops S T trackBlendT saturation).buf
              (saturation.it + t * (S * 4) + d) := by
    intro t d ht hd
    rw [a3 t d ht hd, trackOuterAt_saturation]
  refine ⟨_, _, g1, a1, ?_, hout, hsucc, ?_⟩
  · intro t s c d ht hs hc hd
    rw [g3 t s c ht hs hc, ← hout t d ht hd]
    unfold meshVertex
    by_cases h0 : t = 0
    · subst h0
      rw [if_pos rfl]
      have e0 : trackInnerAt ((1 - innerRadius) / (T : α)) innerRadius trackBlendT 0
          = innerRadius := by
        simp [trackInnerAt]
      rw [e0]
    · rw [if_neg h0, ← hout (t - 1) d (by omega) hd]
      have e1 : t = (t - 1) + 1 := by omega
      have e2 := hsucc (t - 1)
      rw [← e1] at e2
      rw [e2]
  · intro d hd
    rw [a3 (T - 1) d (by omega) hd]
    unfold saturationOf
    have ho : ¬ ((T - 1) % 2 = 0) := by omega
    rw [if_neg ho]
    have e : ((T - 1 : ℕ) : α) + 1 = (T : α) := by
      have : (T - 1) + 1 = T := by omega
      exact_mod_cast this
    rw [e, div_self hTpos.ne']
    ring

/-- Witness for C25: 6 sectors, 2 tracks, inner radius `1/2` and trackBlendT `1/4`. -/
theorem saturation_matches_mesh_witness :
    ∃ g o,
      CreateColorWheelGeometry (fun _ : ℚ => (1 : ℚ)) (fun _ : ℚ => (0 : ℚ)) 6 2 (1 / 2) 0
        (1 / 4) zeroPositions = some g ∧
      CreateColorWheelSaturation 6 2 (1 / 4 : ℚ) zeroScalars = some o ∧
      (∀ d, d < 6 * 4 →
        (1 / 2 : ℚ) + (1 - 1 / 2) * o.buf ((zeroScalars : OutIt ℚ).it + (2 - 1) * (6 * 4) + d)
          = 1) := by
  obtain ⟨g, o, h1, h2, _, _, _, h6⟩ :=
    saturation_matches_mesh (fun _ : ℚ => (1 : ℚ)) (fun _ : ℚ => (0 : ℚ)) 6 2 (by norm_num)
      (by norm_num) (by norm_num) (by norm_num) (1 / 2) 0 (1 / 4) zeroPositions zeroScalars
  exact ⟨g, o, h1, h2, h6⟩

/-! ### Determinism of the generators -/

theorem deterministic_of_layout {β : Type} (G : OutIt β → OutIt β) (N : ℕ) (f : ℕ → β)
    (h : ∀ p, (G p).it = p.it + N ∧ (∀ i, i < N → (G p).buf (p.it + i) = f i) ∧
      (∀ j, j < p.it ∨ p.it + N ≤ j → (G p).buf j = p.buf j)) :
    (∀ p q, p.it = q.it → (G p).it = (G q).it ∧
      (∀ j, p.it ≤ j → j < (G p).it → (G p).buf j = (G q).buf j)) ∧
    (∀ p, G ⟨p.it, (G p).buf⟩ = G p) := by
  have hin : ∀ p j, p.it ≤ j → j < p.it + N → (G p).buf j = f (j - p.it) := by
    intro p j h1 h2
    have := (h p).2.1 (j - p.it) (by omega)
    have e : p.it + (j - p.it) = j := by omega
    rw [e] at this
    exact this
  constructor
  · intro p q hpq
    refine ⟨by rw [(h p).1, (h q).1, hpq], ?_⟩
    intro j h1 h2
    rw [(h p).1] at h2
    rw [hin p j h1 h2, hin q j (by omega) (by omega), hpq]
  · intro p
    have hit : (G ⟨p.it, (G p).buf⟩).it = (G p).it := by
      rw [(h ⟨p.it, (G p).buf⟩).1, (h p).1]
    have hbuf : (G ⟨p.it, (G p).buf⟩).buf = (G p).buf := by
      funext j
      by_cases hj : p.it ≤ j ∧ j < p.it + N
      · rw [hin ⟨p.it, (G p).buf⟩ j hj.1 hj.2, hin p j hj.1 hj.2]
      · rw [(h ⟨p.it, (G p).buf⟩).2.2 j (by
          show j < p.it ∨ p.it + N ≤ j
          omega)]
    cases hG : G ⟨p.it, (G p).buf⟩ with
    | mk i1 b1 =>
      cases hG2 : G p with
      | mk i2 b2 =>
        rw [hG, hG2] at hit hbuf
        dsimp only at hit hbuf
        rw [hit, hbuf]

theorem index_split (A B i : ℕ) (h : i < A * (B * 4)) :
    i / (B * 4) < A ∧ i % (B * 4) / 4 < B ∧ i % 4 < 4 ∧
    (i / (B * 4) * B + i % (B * 4) / 4) * 4 + i % 4 = i := by
  have hB : 0 < B * 4 := by
    rcases Nat.eq_zero_or_pos (B * 4) with h0 | h0
    · rw [h0, Nat.mul_zero] at h
      omega
    · exact h0
  have h1 : i / (B * 4) < A := Nat.div_lt_of_lt_mul (by rw [Nat.mul_comm]; exact h)
  have h2 : i % (B * 4) < B * 4 := Nat.mod_lt _ hB
  have h3 : B * 4 * (i / (B * 4)) + i % (B * 4) = i := Nat.div_add_mod i (B * 4)
  have h4 : i % (B * 4) % 4 = i % 4 := Nat.mod_mod_of_dvd i (Dvd.intro_left B rfl)
  refine ⟨h1, by omega, by omega, ?_⟩
  have e : (i / (B * 4) * B + i % (B * 4) / 4) * 4 + i % 4
      = B * 4 * (i / (B * 4)) + (i % (B * 4) / 4 * 4 + i % 4) := by ring
  rw [e]
  generalize i / (B * 4) = t at *
  generalize i % (B * 4) = r at *
  generalize B * 4 * t = x at *
  omega

theorem geometry_flat (cos sin : α → α) (S T : ℕ) (r sb tb : α) (pos : OutIt (vec2 α)) :
    (CreateColorWheelGeometryLoops cos sin S T r sb tb pos).it
      = pos.it + 2 * (((if 0 ≠ T then T else 1) + 1) / 2) * (2 * ((S + 1) / 2) * 4) ∧
    (∀ i, i < 2 * (((if 0 ≠ T then T else 1) + 1) / 2) * (2 * ((S + 1) / 2) * 4) →
      (CreateColorWheelGeometryLoops cos sin S T r sb tb pos).buf (pos.it + i)
        = meshVertex cos sin (TwoPi / (S : α))
            (if T > 0 then (1 - r) / (T : α) else 1 - r) r sb tb
            (i / (2 * ((S + 1) / 2) * 4)) (i % (2 * ((S + 1) / 2) * 4) / 4) (i % 4)) ∧
    (∀ j, j < pos.it ∨
        pos.it + 2 * (((if 0 ≠ T then T else 1) + 1) / 2) * (2 * ((S + 1) / 2) * 4) ≤ j →
      (CreateColorWheelGeometryLoops cos sin S T r sb tb pos).buf j = pos.buf j) := by
  obtain ⟨g1, g2, g3⟩ := geometry_layout cos sin S T r sb tb pos
  refine ⟨g1, ?_, g3⟩
  intro i hi
  obtain ⟨h1, h2, h3, h4⟩ := index_split _ _ i hi
  have := g2 _ _ _ h1 h2 h3
  rw [Nat.add_assoc, h4] at this
  exact this

theorem saturation_zero_eq (S : ℕ) (b : α) (pos : OutIt α) :
    CreateColorWheelSaturationLoops S 0 b pos = CreateColorWheelSaturationLoops S 1 b pos := by
  unfold CreateColorWheelSaturationLoops
  simp

theorem saturation_flat (S T : ℕ) (hT : T = 0 ∨ T = 1 ∨ (2 ≤ T ∧ T % 2 = 0)) (b : α)
    (pos : OutIt α) :
    (CreateColorWheelSaturationLoops S T b pos).it
      = pos.it + (if 0 ≠ T then T else 1) * (S * 4) ∧
    (∀ i, i < (if 0 ≠ T then T else 1) * (S * 4) →
      (CreateColorWheelSaturationLoops S T b pos).buf (pos.it + i)
        = if 2 ≤ T then saturationOf T b (i / (S * 4)) else b) ∧
    (∀ j, j < pos.it ∨ pos.it + (if 0 ≠ T then T else 1) * (S * 4) ≤ j →
      (CreateColorWheelSaturationLoops S T b pos).buf j = pos.buf j) := by
  rcases hT with h0 | h1 | ⟨h2, h3⟩
  · subst h0
    rw [saturation_zero_eq]
    obtain ⟨_, a2, a3, a4⟩ := saturation_single S b pos
    simp only [ne_eq, not_true_eq_false, if_false, Nat.one_mul]
    refine ⟨a2, ?_, a4⟩
    intro i hi
    rw [a3 i hi, if_neg (by omega)]
  · subst h1
    obtain ⟨_, a2, a3, a4⟩ := saturation_single S b pos
    simp only [ne_eq, Nat.zero_ne_one, not_false_eq_true, if_true, Nat.one_mul]
    refine ⟨a2, ?_, a4⟩
    intro i hi
    rw [a3 i hi, if_neg (by omega)]
  · obtain ⟨_, a2, a3, a4⟩ := saturation_layout S T h2 h3 b pos
    have e : T * S * 4 = T * (S * 4) := by ring
    rw [if_pos (show 0 ≠ T by omega)]
    rw [e] at a2 a4
    refine ⟨a2, ?_, a4⟩
    intro i hi
    have hB : 0 < S * 4 := by
      rcases Nat.eq_zero_or_pos (S * 4) with h0 | h0
      · rw [h0, Nat.mul_zero] at hi
        omega
      · exact h0
    have h1 : i / (S * 4) < T := Nat.div_lt_of_lt_mul (by rw [Nat.mul_comm]; exact hi)
    have h5 : i % (S * 4) < S * 4 := Nat.mod_lt _ hB
    have h6 : S * 4 * (i / (S * 4)) + i % (S * 4) = i := Nat.div_add_mod i (S * 4)
    have := a3 _ _ h1 h5
    rw [Nat.add_assoc, Nat.mul_comm (i / (S * 4)) (S * 4), h6] at this
    rw [this, if_pos h2]

theorem colors_flat [FloorRing α] (S T : ℕ) (colorModel : ℤ → α) (pos : OutIt (vec3 α)) :
    (CreateColorWheelColors S T colorModel pos).it
      = pos.it + (S * 4 + (T - 1) * (S * 4 % 2 ^ 32)) ∧
    (∀ i, i < S * 4 + (T - 1) * (S * 4 % 2 ^ 32) →
      (CreateColorWheelColors S T colorModel pos).buf (pos.it + i)
        = CalculateHueForColorModel 18
            (((if i < S * 4 then i / 4 else (i - S * 4) % (S * 4 % 2 ^ 32) / 4 : ℕ) : α)
              * (TwoPi / (S : α))) colorModel) ∧
    (∀ j, j < pos.it ∨ pos.it + (S * 4 + (T - 1) * (S * 4 % 2 ^ 32)) ≤ j →
      (CreateColorWheelColors S T colorModel pos).buf j = pos.buf j) := by
  obtain ⟨g1, g2, g3, g4⟩ := colors_layout S T colorModel pos
  rw [Nat.add_assoc] at g1 g4
  refine ⟨g1, ?_, g4⟩
  intro i hi
  by_cases h : i < S * 4
  · rw [if_pos h]
    have := g2 (i / 4) (i % 4) (by omega) (by omega)
    have e : pos.it + i / 4 * 4 + i % 4 = pos.it + i := by omega
    rw [e] at this
    exact this
  · rw [if_neg h]
    generalize hm : S * 4 % 2 ^ 32 = m at *
    have hi' : i - S * 4 < (T - 1) * m := by omega
    have hmpos : 0 < m := by
      rcases Nat.eq_zero_or_pos m with h0 | h0
      · rw [h0, Nat.mul_zero] at hi'
        omega
      · exact h0
    have h1 : (i - S * 4) / m < T - 1 :=
      Nat.div_lt_of_lt_mul (by rw [Nat.mul_comm m]; exact hi')
    have h5 : (i - S * 4) % m < m := Nat.mod_lt _ hmpos
    have h6 : m * ((i - S * 4) / m) + (i - S * 4) % m = i - S * 4 :=
      Nat.div_add_mod (i - S * 4) m
    have := g3 ((i - S * 4) / m) ((i - S * 4) % m / 4) ((i - S * 4) % m % 4) h1
      (by omega) (by omega)
    have e : pos.it + S * 4 + (i - S * 4) / m * m
        + ((i - S * 4) % m / 4 * 4 + (i - S * 4) % m % 4) = pos.it + i := by
      have e1 : (i - S * 4) % m / 4 * 4 + (i - S * 4) % m % 4 = (i - S * 4) % m := by omega
      rw [e1, Nat.mul_comm ((i - S * 4) / m) m, Nat.add_assoc, h6]
      omega
    rw [e] at this
    exact this

/-- C22: generator determinism.  For each of `CreateColorWheelGeometry`,
`CreateColorWheelColors` and `CreateColorWheelSaturation` the elements written depend only
on the scalar parameters (and the colour model), not on the previous contents of the
output buffer: started at the same position in any two buffers with the same parameters,
the generator returns the same end position and the same elements between the start and
the end; and run a second time from the same position on the buffer it has just written,
it leaves exactly the result of the first run. -/
theorem generators_deterministic [FloorRing α] (cos sin : α → α) (sectorCount trackCount : ℕ)
    (innerRadius sectorBlendT trackBlendT : α) (colorModel : ℤ → α) :
    (∀ (p q g : OutIt (vec2 α)), p.it = q.it →
      CreateColorWheelGeometry cos sin sectorCount trackCount innerRadius sectorBlendT
        trackBlendT p = some g →
      ∃ g', CreateColorWheelGeometry cos sin sectorCount trackCount innerRadius sectorBlendT
          trackBlendT q = some g' ∧ g'.it = g.it ∧
        ∀ j, p.it ≤ j → j < g.it → g'.buf j = g.buf j) ∧
    (∀ (p g : OutIt (vec2 α)),
      CreateColorWheelGeometry cos sin sectorCount trackCount innerRadius sectorBlendT
        trackBlendT p = some g →
      CreateColorWheelGeometry cos sin sectorCount trackCount innerRadius sectorBlendT
        trackBlendT ⟨p.it, g.buf⟩ = some g) ∧
    (∀ (p q : OutIt (vec3 α)), p.it = q.it →
      (CreateColorWheelColors sectorCount trackCount colorModel q).it
        = (CreateColorWheelColors sectorCount trackCount colorModel p).it ∧
      ∀ j, p.it ≤ j → j < (CreateColorWheelColors sectorCount trackCount colorModel p).it →
        (CreateColorWheelColors sectorCount trackCount colorModel q).buf j
          = (CreateColorWheelColors sectorCount trackCount colorModel p).buf j) ∧
    (∀ p : OutIt (vec3 α),
      CreateColorWheelColors sectorCount trackCount colorModel
          ⟨p.it, (CreateColorWheelColors sectorCount trackCount colorModel p).buf⟩
        = CreateColorWheelColors sectorCount trackCount colorModel p) ∧
    (∀ (p q g : OutIt α), p.it = q.it →
      CreateColorWheelSaturation sectorCount trackCount trackBlendT p = some g →
      ∃ g', CreateColorWheelSaturation sectorCount trackCount trackBlendT q = some g' ∧
        g'.it = g.it ∧ ∀ j, p.it ≤ j → j < g.it → g'.buf j = g.buf j) ∧
    (∀ (p g : OutIt α),
      CreateColorWheelSaturation sectorCount trackCount trackBlendT p = some g →
      CreateColorWheelSaturation sectorCount trackCount trackBlendT ⟨p.it, g.buf⟩
        = some g) := by
  obtain ⟨G1, G2⟩ := deterministic_of_layout
    (CreateColorWheelGeometryLoops cos sin sectorCount trackCount innerRadius sectorBlendT
      trackBlendT) _ _
    (fun p => geometry_flat cos sin sectorCount trackCount innerRadius sectorBlendT
      trackBlendT p)
  obtain ⟨C1, C2⟩ := deterministic_of_layout
    (CreateColorWheelColors sectorCount trackCount colorModel) _ _
    (fun p => colors_flat sectorCount trackCount colorModel p)
  have hgeo : ∀ x g : OutIt (vec2 α),
      CreateColorWheelGeometry cos sin sectorCount trackCount innerRadius sectorBlendT
        trackBlendT x = some g →
      (∀ y : OutIt (vec2 α), CreateColorWheelGeometry cos sin sectorCount trackCount
          innerRadius sectorBlendT trackBlendT y
        = some (CreateColorWheelGeometryLoops cos sin sectorCount trackCount innerRadius
            sectorBlendT trackBlendT y)) := by
    intro x g hx y
    unfold CreateColorWheelGeometry at hx ⊢
    by_cases hc : sectorCount ≥ 2 ∧ sectorCount % 2 = 0 ∧
        (trackCount = 1 ∨ trackCount % 2 = 0)
    · rw [if_pos hc]
    · rw [if_neg hc] at hx
      simp at hx
  have hsat : ∀ x g : OutIt α,
      CreateColorWheelSaturation sectorCount trackCount trackBlendT x = some g →
      (trackCount = 0 ∨ trackCount = 1 ∨ (2 ≤ trackCount ∧ trackCount % 2 = 0)) ∧
      (∀ y : OutIt α, CreateColorWheelSaturation sectorCount trackCount trackBlendT y
        = some (CreateColorWheelSaturationLoops sectorCount trackCount trackBlendT y)) := by
    intro x g hx
    unfold CreateColorWheelSaturation at hx ⊢
    by_cases hc : trackCount = 1 ∨ trackCount % 2 = 0
    · refine ⟨by omega, fun y => ?_⟩
      rw [if_pos hc]
    · rw [if_neg hc] at hx
      simp at hx
  refine ⟨?_, ?_, ?_, C2, ?_, ?_⟩
  · intro p q g hpq hp
    have hall := hgeo p g hp
    rw [hall p] at hp
    have hg := Option.some.inj hp
    obtain ⟨e1, e2⟩ := G1 p q hpq
    refine ⟨_, hall q, ?_, ?_⟩
    · rw [← hg, e1]
    · intro j h1 h2
      rw [← hg] at h2 ⊢
      exact (e2 j h1 h2).symm
  · intro p g hp
    have hall := hgeo p g hp
    rw [hall p] at hp
    have hg := Option.some.inj hp
    rw [hall, ← hg, G2 p]
  · intro p q hpq
    obtain ⟨e1, e2⟩ := C1 p q hpq
    exact ⟨e1.symm, fun j h1 h2 => (e2 j h1 h2).symm⟩
  · intro p q g hpq hp
    obtain ⟨hT, hall⟩ := hsat p g hp
    obtain ⟨S1, _⟩ := deterministic_of_layout
      (CreateColorWheelSaturationLoops sectorCount trackCount trackBlendT) _ _
      (fun x => saturation_flat sectorCount trackCount hT trackBlendT x)
    rw [hall p] at hp
    have hg := Option.some.inj hp
    obtain ⟨e1, e2⟩ := S1 p q hpq
    refine ⟨_, hall q, ?_, ?_⟩
    · rw [← hg, e1]
    · intro j h1 h2
      rw [← hg] at h2 ⊢
      exact (e2 j h1 h2).symm
  · intro p g hp
    obtain ⟨hT, hall⟩ := hsat p g hp
    obtain ⟨_, S2⟩ := deterministic_of_layout
      (CreateColorWheelSaturationLoops sectorCount trackCount trackBlendT) _ _
      (fun x => saturation_flat sectorCount trackCount hT trackBlendT x)
    rw [hall p] at hp
    have hg := Option.some.inj hp
    rw [hall, ← hg, S2 p]

/-- Witness for C22: the saturation generator for 6 sectors and 2 tracks, started on an
all-zero buffer and on an all-one buffer. -/
theorem generators_deterministic_witness :
    ∃ g g', CreateColorWheelSaturation 6 2 (1 / 4 : ℚ) zeroScalars = some g ∧
      CreateColorWheelSaturation 6 2 (1 / 4 : ℚ) ⟨0, fun _ => 1⟩ = some g' ∧
      g'.it = g.it ∧ ∀ j, (zeroScalars : OutIt ℚ).it ≤ j → j < g.it → g'.buf j = g.buf j := by
  have h0 := (saturation_layout 6 2 (by norm_num) (by norm_num) (1 / 4 : ℚ) zeroScalars).1
  obtain ⟨g', a, b, c⟩ := (generators_deterministic (fun _ : ℚ => (1 : ℚ))
    (fun _ : ℚ => (0 : ℚ)) 6 2 (1 / 2) 0 (1 / 4) RgbColorModel).2.2.2.2.1
    zeroScalars ⟨0, fun _ => 1⟩ _ rfl h0
  exact ⟨_, g', h0, a, b, c⟩

/-! ### Angle normalisation -/

theorem fmod_nonneg [FloorRing α] (x y : α) (hx : 0 ≤ x) (hy : 0 < y) :
    0 ≤ fmod x y ∧ fmod x y < y ∧ fmod x y = x - ((⌊x / y⌋ : ℤ) : α) * y := by
  unfold fmod
  rw [static_cast_int_nonneg _ (div_nonneg hx hy.le)]
  have h1 : ((⌊x / y⌋ : ℤ) : α) ≤ x / y := Int.floor_le _
  have h2 : x / y < ((⌊x / y⌋ : ℤ) : α) + 1 := Int.lt_floor_add_one _
  rw [le_div_iff₀ hy] at h1
  rw [div_lt_iff₀ hy] at h2
  refine ⟨by linarith, by linarith, rfl⟩

theorem fmod_neg [FloorRing α] (x y : α) (hx : x < 0) (hy : 0 < y) :
    -y < fmod x y ∧ fmod x y ≤ 0 ∧ fmod x y = x - ((⌈x / y⌉ : ℤ) : α) * y := by
  have hq : ¬ (0 ≤ x / y) := not_le.mpr (div_neg_of_neg_of_pos hx hy)
  unfold fmod static_cast_int
  rw [if_neg hq]
  have h1 : x / y ≤ ((⌈x / y⌉ : ℤ) : α) := Int.le_ceil _
  have h2 : ((⌈x / y⌉ : ℤ) : α) < x / y + 1 := Int.ceil_lt_add_one _
  rw [div_le_iff₀ hy] at h1
  have h3 : ((⌈x / y⌉ : ℤ) : α) - 1 < x / y := by linarith
  rw [lt_div_iff₀ hy] at h3
  have h4 : (((⌈x / y⌉ : ℤ) : α) - 1) * y = ((⌈x / y⌉ : ℤ) : α) * y - y := by ring
  rw [h4] at h3
  refine ⟨by linarith, by linarith, rfl⟩

theorem ClampRadians_spec [FloorRing α] (r : α) :
    (0 ≤ ClampRadians r ∧ ClampRadians r ≤ TwoPi) ∧
    (∃ k : ℤ, ClampRadians r = r + (k : α) * TwoPi) ∧
    (0 ≤ r → ClampRadians r < TwoPi) ∧
    (0 ≤ r → r < TwoPi → ClampRadians r = r) ∧
    (r < 0 → 0 < ClampRadians r ∧ (ClampRadians r = TwoPi ↔ fmod r TwoPi = 0)) := by
  have hT : (0 : α) < TwoPi := TwoPi_pos
  by_cases h1 : r ≥ TwoPi
  · have hr0 : 0 ≤ r := le_trans hT.le h1
    obtain ⟨a, b, c⟩ := fmod_nonneg r TwoPi hr0 hT
    have e : ClampRadians r = fmod r TwoPi := by
      unfold ClampRadians
      rw [if_pos h1]
    rw [e]
    refine ⟨⟨a, b.le⟩, ⟨-⌊r / TwoPi⌋, ?_⟩, fun _ => b, ?_, ?_⟩
    · rw [c]
      push_cast
      ring
    · intro _ h2
      exact absurd h1 (not_le.mpr h2)
    · intro h2
      exact absurd hr0 (not_le.mpr h2)
  · by_cases h2 : r < 0
    · obtain ⟨a, b, c⟩ := fmod_neg r TwoPi h2 hT
      have e : ClampRadians r = TwoPi + fmod r TwoPi := by
        unfold ClampRadians
        rw [if_neg h1, if_pos h2]
      rw [e]
      refine ⟨⟨by linarith, by linarith⟩, ⟨1 - ⌈r / TwoPi⌉, ?_⟩, ?_, ?_, ?_⟩
      · rw [c]
        push_cast
        ring
      · intro h3
        exact absurd h3 (not_le.mpr h2)
      · intro h3
        exact absurd h3 (not_le.mpr h2)
      · intro _
        refine ⟨by linarith, ?_⟩
        constructor
        · intro h
          linarith
        · intro h
          rw [h, add_zero]
    · have e : ClampRadians r = r := by
        unfold ClampRadians
        rw [if_neg h1, if_neg h2]
      rw [e]
      have h3 : r < TwoPi := lt_of_not_ge h1
      have h4 : 0 ≤ r := le_of_not_lt h2
      refine ⟨⟨h4, h3.le⟩, ⟨0, by simp⟩, fun _ => h3, fun _ _ => rfl, ?_⟩
      intro h5
      exact absurd h5 h2

/-- C26 (violated by the code): for `r = -2π` the branch `radians < 0.0` returns
`TwoPi + fmod(-TwoPi, TwoPi) = TwoPi + 0 = TwoPi`, which is not in `[0, 2π)`; the
congruent angle `2π` is normalised to 0 by the other branch. -/
theorem ClampRadians_negative_period :
    (-TwoPi : ℚ) < 0 ∧ fmod (-TwoPi : ℚ) TwoPi = 0 ∧
    ClampRadians (-TwoPi : ℚ) = TwoPi ∧ ¬ (ClampRadians (-TwoPi : ℚ) < TwoPi) ∧
    ClampRadians (TwoPi : ℚ) = 0 := by
  decide!

/-! ### The RGB hue round trip -/

/-- C30 (violated by the code): for the hue `h = 330°` (`11/12 * 2π`),
`CalculateHueForColorModel` with the RGB model gives the colour `(1, 0, 1/2)`; red is the
maximum, so `RgbToCircularHue` computes `Hp = fmod((g - b) / C, 6.0) = fmod(-1/2, 6) = -1/2`
(`std::fmod` keeps the sign of its first argument) and returns `-30°`, that is `h - 2π`
and not `h`; the chroma is 1. -/
theorem rgb_round_trip_negative_hue :
    (0 : ℚ) ≤ 11 / 12 * TwoPi ∧ (11 / 12 * TwoPi : ℚ) < TwoPi ∧
    (CalculateHueForColorModel 18 (11 / 12 * TwoPi : ℚ) RgbColorModel).r = 1 ∧
    (CalculateHueForColorModel 18 (11 / 12 * TwoPi : ℚ) RgbColorModel).g = 0 ∧
    (CalculateHueForColorModel 18 (11 / 12 * TwoPi : ℚ) RgbColorModel).b = 1 / 2 ∧
    (RgbToCircularHue (CalculateHueForColorModel 18 (11 / 12 * TwoPi : ℚ) RgbColorModel) 0).1
      = 11 / 12 * TwoPi - TwoPi ∧
    (RgbToCircularHue (CalculateHueForColorModel 18 (11 / 12 * TwoPi : ℚ) RgbColorModel) 0).1
      ≠ 11 / 12 * TwoPi ∧
    (RgbToCircularHue (CalculateHueForColorModel 18 (11 / 12 * TwoPi : ℚ) RgbColorModel) 0).2
      = 1 := by
  decide!

/-! ### Dirty marking and regeneration -/

theorem Marked_chain {s t u : State α} (h1 : Marked s t) (h2 : Marked t u) : Marked s u := by
  unfold Marked at *
  rcases h2 with h2 | ⟨m, a1, a2, a3, a4, a5⟩
  · exact Or.inl h2
  · rcases h1 with h1 | ⟨n, b1, b2, b3, b4, b5⟩
    · left
      rw [m, h1]
    · right
      exact ⟨m.trans n, a1.trans b1, a2.trans b2, a3.trans b3, a4.trans b4, a5.trans b5⟩

theorem colorBlendBlock_marked (dt : α) (s : State α) : Marked s (colorBlendBlock dt s) := by
  unfold colorBlendBlock Marked
  dsimp only
  split_ifs <;> exact Or.inr ⟨rfl, rfl, rfl, rfl, rfl, rfl⟩

theorem colorSpaceBlock_marked (dt : α) (s : State α) : Marked s (colorSpaceBlock dt s) := by
  unfold colorSpaceBlock Marked
  dsimp only
  split_ifs <;> exact Or.inr ⟨rfl, rfl, rfl, rfl, rfl, rfl⟩

theorem innerRadiusBlock_marked (dt : α) (s : State α) :
    Marked s (innerRadiusBlock dt s) := by
  unfold innerRadiusBlock Marked
  dsimp only
  split_ifs <;> first | exact Or.inl rfl | exact Or.inr ⟨rfl, rfl, rfl, rfl, rfl, rfl⟩

theorem sectorLevelBlock_marked (target : ℤ) (dt : α) (s : State α) :
    Marked s (sectorLevelBlock target dt s) := by
  unfold sectorLevelBlock Marked
  dsimp only
  split_ifs <;> first | exact Or.inl rfl | exact Or.inr ⟨rfl, rfl, rfl, rfl, rfl, rfl⟩

theorem trackLevelBlock_marked (target : ℤ) (dt : α) (s : State α) :
    Marked s (trackLevelBlock target dt s) := by
  unfold trackLevelBlock Marked
  dsimp only
  split_ifs <;> first | exact Or.inl rfl | exact Or.inr ⟨rfl, rfl, rfl, rfl, rfl, rfl⟩

theorem coneScaleBlock_marked (dt : α) (s : State α) : Marked s (coneScaleBlock dt s) := by
  unfold coneScaleBlock Marked
  dsimp only
  split_ifs <;> exact Or.inr ⟨rfl, rfl, rfl, rfl, rfl, rfl⟩

theorem AdvanceMorphs_marked [FloorRing α] (dt : α) (s : State α) :
    Marked s (AdvanceMorphs dt s) := by
  unfold AdvanceMorphs
  dsimp only
  have a := colorBlendBlock_marked dt s
  generalize colorBlendBlock dt s = x1 at *
  have b := colorSpaceBlock_marked dt x1
  generalize colorSpaceBlock dt x1 = x2 at *
  have c := innerRadiusBlock_marked dt x2
  generalize innerRadiusBlock dt x2 = x3 at *
  have d := sectorLevelBlock_marked (static_cast_int x3.colorCountPower) dt x3
  generalize sectorLevelBlock (static_cast_int x3.colorCountPower) dt x3 = x4 at *
  have e := trackLevelBlock_marked (static_cast_int x4.saturationCountPower) dt x4
  generalize trackLevelBlock (static_cast_int x4.saturationCountPower) dt x4 = x5 at *
  have f := coneScaleBlock_marked dt x5
  exact Marked_chain (Marked_chain (Marked_chain (Marked_chain (Marked_chain a b) c) d) e) f

theorem FrameMorphs_marked [FloorRing α] (current_ticks : ℕ) (s : State α) :
    Marked s (FrameMorphs current_ticks s) := by
  unfold FrameMorphs
  have h0 : Marked s { s with prev_ticks := current_ticks } :=
    Or.inr ⟨rfl, rfl, rfl, rfl, rfl, rfl⟩
  exact Marked_chain h0 (AdvanceMorphs_marked _ _)

theorem SameAxes_chain {s t u : State α} (h1 : SameAxes s t) (h2 : SameAxes t u) :
    SameAxes s u := by
  unfold SameAxes at *
  obtain ⟨a1, a2, a3, a4, a5, a6, a7, a8⟩ := h1
  obtain ⟨b1, b2, b3, b4, b5, b6, b7, b8⟩ := h2
  refine ⟨?_, ?_, ?_, ?_, ?_, ?_, ?_, ?_⟩
  · rw [b1, a1]
  · rw [b2, a2]
  · rw [b3, a3]
  · rw [b4, a4]
  · rw [b5, a5]
  · rw [b6, a6]
  · rw [b7, a7]
  · rw [b8, a8]

theorem colorBlendBlock_axes (dt : α) (s : State α) : SameAxes s (colorBlendBlock dt s) := by
  unfold colorBlendBlock SameAxes
  dsimp only
  split_ifs <;> exact ⟨rfl, rfl, rfl, rfl, rfl, rfl, rfl, rfl⟩

theorem colorSpaceBlock_axes (dt : α) (s : State α) : SameAxes s (colorSpaceBlock dt s) := by
  unfold colorSpaceBlock SameAxes
  dsimp only
  split_ifs <;> exact ⟨rfl, rfl, rfl, rfl, rfl, rfl, rfl, rfl⟩

theorem coneScaleBlock_axes (dt : α) (s : State α) : SameAxes s (coneScaleBlock dt s) := by
  unfold coneScaleBlock SameAxes
  dsimp only
  split_ifs <;> exact ⟨rfl, rfl, rfl, rfl, rfl, rfl, rfl, rfl⟩

theorem innerRadiusBlock_idle (dt : α) (s : State α) (h : s.innerRadiusBlendDirection = 0) :
    innerRadiusBlock dt s = s := by
  unfold innerRadiusBlock
  rw [if_neg (by rw [h]; exact fun hc => hc rfl)]

theorem sectorLevelBlock_idle (target : ℤ) (dt : α) (s : State α)
    (h1 : target = s.currentColorCountPower) (h2 : s.sectorBlendVelocity = 0) :
    sectorLevelBlock target dt s = s := by
  unfold sectorLevelBlock
  rw [if_neg (by
    rw [h2]
    rintro (hc | hc)
    · exact hc h1
    · exact hc rfl)]

theorem trackLevelBlock_idle (target : ℤ) (dt : α) (s : State α)
    (h1 : target = s.currentSaturationCountPower) (h2 : s.trackBlendVelocity = 0) :
    trackLevelBlock target dt s = s := by
  unfold trackLevelBlock
  rw [if_neg (by
    rw [h2]
    rintro (hc | hc)
    · exact hc h1
    · exact hc rfl)]

theorem FrameMorphs_idle [FloorRing α] (current_ticks : ℕ) (s : State α)
    (hr : s.innerRadiusBlendDirection = 0)
    (hs : static_cast_int s.colorCountPower = s.currentColorCountPower)
    (hsv : s.sectorBlendVelocity = 0)
    (ht : static_cast_int s.saturationCountPower = s.currentSaturationCountPower)
    (htv : s.trackBlendVelocity = 0) :
    SameAxes s (FrameMorphs current_ticks s) := by
  unfold FrameMorphs AdvanceMorphs
  dsimp only
  have h0 : SameAxes s { s with prev_ticks := current_ticks } :=
    ⟨rfl, rfl, rfl, rfl, rfl, rfl, rfl, rfl⟩
  generalize ({ s with prev_ticks := current_ticks } : State α) = x0 at *
  generalize ((delta_t current_ticks s.prev_ticks : ℕ) : α) = dt
  have a := SameAxes_chain h0 (colorBlendBlock_axes dt x0)
  generalize colorBlendBlock dt x0 = x1 at *
  have b := SameAxes_chain a (colorSpaceBlock_axes dt x1)
  generalize colorSpaceBlock dt x1 = x2 at *
  obtain ⟨b1, b2, b3, b4, b5, b6, b7, b8⟩ := b
  rw [innerRadiusBlock_idle dt x2 (by rw [b2, hr])]
  rw [sectorLevelBlock_idle _ dt x2 (by rw [b3, b4, hs]) (by rw [b5, hsv])]
  rw [trackLevelBlock_idle _ dt x2 (by rw [b6, b7, ht]) (by rw [b8, htv])]
  exact SameAxes_chain ⟨b1, b2, b3, b4, b5, b6, b7, b8⟩ (coneScaleBlock_axes dt x2)

theorem isMorphing_false_eta (x : State α) (h : x.isMorphing = false) :
    ({ x with isMorphing := false } : State α) = x := by
  cases x
  simp only at h
  subst h
  rfl

theorem frame_geometry_fields [FloorRing α] (inp : GuiInput α) (current_ticks : ℕ)
    (s : State α) :
    (RunGameLoopFrame inp current_ticks s).currentColorCountPower
      = (FrameMorphs current_ticks s).currentColorCountPower ∧
    (RunGameLoopFrame inp current_ticks s).currentSaturationCountPower
      = (FrameMorphs current_ticks s).currentSaturationCountPower ∧
    (RunGameLoopFrame inp current_ticks s).sectorBlendT
      = (FrameMorphs current_ticks s).sectorBlendT ∧
    (RunGameLoopFrame inp current_ticks s).trackBlendT
      = (FrameMorphs current_ticks s).trackBlendT ∧
    (RunGameLoopFrame inp current_ticks s).currentInnerRadius
      = (FrameMorphs current_ticks s).currentInnerRadius := by
  have e : RunGameLoopFrame inp current_ticks s
      = GuiPass inp { FrameMorphs current_ticks s with isMorphing := false } := rfl
  rw [e]
  generalize FrameMorphs current_ticks s = x
  obtain ⟨a1, a2, _, _, _⟩ := GuiPass_levels inp { x with isMorphing := false }
  obtain ⟨_, _, _, _, _, b6⟩ := GuiPass_blends inp { x with isMorphing := false }
  have c1 := congrArg AxisState.current a1
  have c2 := congrArg AxisState.blendT a1
  have c3 := congrArg AxisState.current a2
  have c4 := congrArg AxisState.blendT a2
  exact ⟨c1, c3, c2, c4, b6⟩

theorem RegenerateBuffers_calls [FloorRing α] (cos sin : α → α) (ColorCount TrackCount : ℤ)
    (x : State α) (b b1 : Buffers α)
    (h : RegenerateBuffers cos sin ColorCount TrackCount x b = some b1) :
    RecalculateIndices (toUInt32 ColorCount) (toUInt32 TrackCount) b.trackStartPositions
        b.trackIndiceCounts = some (b1.trackStartPositions, b1.trackIndiceCounts) ∧
    CreateColors (toUInt32 ColorCount) (toUInt32 TrackCount) b.colorWheelColors
        b.altColorWheelColors = some (b1.colorWheelColors, b1.altColorWheelColors) ∧
    CreateSaturation (toUInt32 ColorCount) (toUInt32 TrackCount) x.trackBlendT
        b.colorWheelSaturation = some b1.colorWheelSaturation ∧
    CreateGeometry cos sin (toUInt32 ColorCount) (toUInt32 TrackCount) x.currentInnerRadius
        x.sectorBlendT x.trackBlendT b.colorWheelVerts = some b1.colorWheelVerts := by
  unfold RegenerateBuffers at h
  cases h1 : RecalculateIndices (toUInt32 ColorCount) (toUInt32 TrackCount)
      b.trackStartPositions b.trackIndiceCounts with
  | none =>
    rw [h1] at h
    simp at h
  | some tables =>
    cases h2 : CreateColors (toUInt32 ColorCount) (toUInt32 TrackCount) b.colorWheelColors
        b.altColorWheelColors with
    | none =>
      rw [h1, h2] at h
      simp at h
    | some colors =>
      cases h3 : CreateSaturation (toUInt32 ColorCount) (toUInt32 TrackCount) x.trackBlendT
          b.colorWheelSaturation with
      | none =>
        rw [h1, h2, h3] at h
        simp at h
      | some saturation =>
        cases h4 : CreateGeometry cos sin (toUInt32 ColorCount) (toUInt32 TrackCount)
            x.currentInnerRadius x.sectorBlendT x.trackBlendT b.colorWheelVerts with
        | none =>
          rw [h1, h2, h3, h4] at h
          simp at h
        | some verts =>
          rw [h1, h2, h3, h4] at h
          simp only [Option.some_bind, Option.some.injEq] at h
          rw [← h]
          exact ⟨rfl, rfl, rfl, rfl⟩

/-- C21: dirty marking.  In every frame in which `currentColorCountPower`,
`currentSaturationCountPower`, `sectorBlendT`, `trackBlendT` or `currentInnerRadius`
changes, `isMorphing` is set when the regeneration step is reached, and the frame's
buffers are those that `RecalculateIndices`, `CreateColors`, `CreateSaturation` and
`CreateGeometry` produce for the counts of the frame's current levels and the frame's
current blends (the values the frame ends with); and a frame that starts with `isMorphing`
false and with none of the inner-radius, sector and track axes active leaves every vertex
buffer and both draw-range tables as they were (the frame only evaluates `TrackCount`). -/
theorem dirty_marking [FloorRing α] (cos sin : α → α) (inp : GuiInput α) (current_ticks : ℕ)
    (s : State α) (b : Buffers α) :
    (((RunGameLoopFrame inp current_ticks s).currentColorCountPower ≠ s.currentColorCountPower ∨
      (RunGameLoopFrame inp current_ticks s).currentSaturationCountPower
        ≠ s.currentSaturationCountPower ∨
      (RunGameLoopFrame inp current_ticks s).sectorBlendT ≠ s.sectorBlendT ∨
      (RunGameLoopFrame inp current_ticks s).trackBlendT ≠ s.trackBlendT ∨
      (RunGameLoopFrame inp current_ticks s).currentInnerRadius ≠ s.currentInnerRadius) →
      (FrameMorphs current_ticks s).isMorphing = true ∧
      RunGameLoopFrameBuffers cos sin inp current_ticks s b
        = (SaturationCountForTessellation
            (RunGameLoopFrame inp current_ticks s).currentSaturationCountPower).bind
          fun TrackCount =>
            (ColorCountForTessellation
              (RunGameLoopFrame inp current_ticks s).currentColorCountPower).bind
            fun ColorCount =>
              (RegenerateBuffers cos sin ColorCount TrackCount (FrameMorphs current_ticks s)
                b).map fun b1 => (RunGameLoopFrame inp current_ticks s, b1)) ∧
    (∀ (ColorCount TrackCount : ℤ) (b1 : Buffers α),
      RegenerateBuffers cos sin ColorCount TrackCount (FrameMorphs current_ticks s) b
        = some b1 →
      RecalculateIndices (toUInt32 ColorCount) (toUInt32 TrackCount) b.trackStartPositions
          b.trackIndiceCounts = some (b1.trackStartPositions, b1.trackIndiceCounts) ∧
      CreateColors (toUInt32 ColorCount) (toUInt32 TrackCount) b.colorWheelColors
          b.altColorWheelColors = some (b1.colorWheelColors, b1.altColorWheelColors) ∧
      CreateSaturation (toUInt32 ColorCount) (toUInt32 TrackCount)
          (RunGameLoopFrame inp current_ticks s).trackBlendT b.colorWheelSaturation
        = some b1.colorWheelSaturation ∧
      CreateGeometry cos sin (toUInt32 ColorCount) (toUInt32 TrackCount)
          (RunGameLoopFrame inp current_ticks s).currentInnerRadius
          (RunGameLoopFrame inp current_ticks s).sectorBlendT
          (RunGameLoopFrame inp current_ticks s).trackBlendT b.colorWheelVerts
        = some b1.colorWheelVerts) ∧
    (s.isMorphing = false → s.innerRadiusBlendDirection = 0 →
      static_cast_int s.colorCountPower = s.currentColorCountPower →
      s.sectorBlendVelocity = 0 →
      static_cast_int s.saturationCountPower = s.currentSaturationCountPower →
      s.trackBlendVelocity = 0 →
      RunGameLoopFrameBuffers cos sin inp current_ticks s b
        = (SaturationCountForTessellation s.currentSaturationCountPower).map
            fun _ => (RunGameLoopFrame inp current_ticks s, b)) := by
  obtain ⟨f1, f2, f3, f4, f5⟩ := frame_geometry_fields inp current_ticks s
  have hframe : RunGameLoopFrame inp current_ticks s
      = GuiPass inp { FrameMorphs current_ticks s with isMorphing := false } := rfl
  refine ⟨?_, ?_, ?_⟩
  · intro hch
    rw [f1, f2, f3, f4, f5] at hch
    have hm : (FrameMorphs current_ticks s).isMorphing = true := by
      rcases FrameMorphs_marked current_ticks s with h | ⟨_, a1, a2, a3, a4, a5⟩
      · exact h
      · exfalso
        rcases hch with h | h | h | h | h
        · exact h a1
        · exact h a2
        · exact h a3
        · exact h a4
        · exact h a5
    refine ⟨hm, ?_⟩
    rw [f1, f2]
    unfold RunGameLoopFrameBuffers Regenerate
    cases hT : SaturationCountForTessellation
        (FrameMorphs current_ticks s).currentSaturationCountPower with
    | none => rfl
    | some T =>
      simp only [Option.some_bind, if_pos hm]
      cases hS : ColorCountForTessellation
          (FrameMorphs current_ticks s).currentColorCountPower with
      | none => rfl
      | some S =>
        simp only [Option.some_bind]
        cases hB : RegenerateBuffers cos sin S T (FrameMorphs current_ticks s) b with
        | none => rfl
        | some b1 => rfl
  · intro ColorCount TrackCount b1 hB
    rw [f3, f4, f5]
    exact RegenerateBuffers_calls cos sin ColorCount TrackCount _ b b1 hB
  · intro hm hr hs hsv ht htv
    obtain ⟨a1, _, _, _, _, _, a7, _⟩ := FrameMorphs_idle current_ticks s hr hs hsv ht htv
    have hm1 : (FrameMorphs current_ticks s).isMorphing = false := by rw [a1, hm]
    have hm2 : ¬ ((FrameMorphs current_ticks s).isMorphing = true) := by
      rw [hm1]
      decide
    rw [hframe, isMorphing_false_eta _ hm1, ← a7]
    unfold RunGameLoopFrameBuffers Regenerate
    cases hT : SaturationCountForTessellation
        (FrameMorphs current_ticks s).currentSaturationCountPower with
    | none => rfl
    | some T =>
      simp only [Option.some_bind, if_neg hm2]
      rfl

/-- Witness for C21: after the first frame, in which the sector slider is dragged to 3,
the frame at tick 16 steps the sector level from 1 to 2 and `isMorphing` is set; and after
an idle first frame the frame at tick 16 leaves the preallocated buffers as they are. -/
theorem dirty_marking_witness :
    (FrameMorphs 16 (RunGameLoopFrame (dragSectorsTo 3) 0 (initialState 0 : State ℚ))).isMorphing
      = true ∧
    RunGameLoopFrameBuffers (fun _ : ℚ => (1 : ℚ)) (fun _ : ℚ => (0 : ℚ)) idleGui 16
        (RunGameLoopFrame idleGui 0 (initialState 0 : State ℚ)) zeroBuffers
      = (SaturationCountForTessellation
          (RunGameLoopFrame idleGui 0 (initialState 0 : State ℚ)).currentSaturationCountPower).map
          fun _ => (RunGameLoopFrame idleGui 16
            (RunGameLoopFrame idleGui 0 (initialState 0 : State ℚ)), zeroBuffers) :=
  ⟨((dirty_marking (fun _ : ℚ => (1 : ℚ)) (fun _ : ℚ => (0 : ℚ)) idleGui 16
      (RunGameLoopFrame (dragSectorsTo 3) 0 (initialState 0 : State ℚ)) zeroBuffers).1
      (Or.inl (by decide!))).1,
    (dirty_marking (fun _ : ℚ => (1 : ℚ)) (fun _ : ℚ => (0 : ℚ)) idleGui 16
      (RunGameLoopFrame idleGui 0 (initialState 0 : State ℚ)) zeroBuffers).2.2
      (by decide!) (by decide!) (by decide!) (by decide!) (by decide!) (by decide!)⟩

/-! ### Level bounds -/

theorem specTransition_level_bounds (r : α) (hr : 0 < r) (a : AxisState α) (target : ℤ)
    (dt : α) (hdt : 0 < dt) (lo hi : ℤ) (ht0 : lo ≤ target) (ht1 : target ≤ hi)
    (hc0 : lo ≤ a.current) (hc1 : a.current ≤ hi) (hb0 : 0 ≤ a.blendT) (hb1 : a.blendT ≤ 1) :
    lo ≤ (specTransition r a target dt).current ∧
    (specTransition r a target dt).current ≤ hi := by
  have hpos : 0 < dt * r := mul_pos hdt hr
  unfold specTransition
  by_cases hle : a.current ≤ target
  · have h1 : ¬ (a.blendT + dt * r ≤ 0) := by linarith
    simp only [ge_iff_le, hle, if_true, h1, if_false]
    split_ifs <;> (try dsimp only) <;> constructor <;> omega
  · have h1 : ¬ (1 ≤ a.blendT + dt * -r) := by
      have : dt * -r = -(dt * r) := by ring
      rw [this]
      linarith
    have hlt : target < a.current := by omega
    have hne : ¬ (target = a.current ∧ a.velocity = 0) := fun h => by omega
    simp only [ge_iff_le, hle, if_false, h1, hne]
    split_ifs <;> (try dsimp only) <;> constructor <;> omega

theorem indices_overrun (S T : ℕ) (starts counts : StdVector ℤ)
    (h : starts.size < (if 0 ≠ T then T else 1)) :
    RecalculateIndices S T starts counts = none := by
  have key := forLoop_invariant (if 0 ≠ T then T else 1)
    (fun i st => recalculateTrack (S * 4 % 2 ^ 32) i st)
    (fun i st => st = none ∨ ∃ x : IndexLoop, st = some x ∧
      x.trackStartPositions.size = starts.size ∧ i ≤ starts.size)
    (by
      intro i st _ hP
      rcases hP with h0 | ⟨x, hx, p1, p2⟩
      · left
        rw [h0]
        rfl
      · rw [hx]
        unfold recalculateTrack StdVector.store
        simp only [Option.some_bind]
        by_cases a : i < x.trackStartPositions.size
        · rw [if_pos a]
          simp only [Option.some_bind]
          by_cases c : i < x.trackIndiceCounts.size
          · rw [if_pos c]
            simp only [Option.some_bind]
            right
            exact ⟨_, rfl, p1, by omega⟩
          · rw [if_neg c]
            left
            rfl
        · rw [if_neg a]
          left
          rfl)
    (if 0 ≠ T then T else 1) 0 (some ⟨starts, counts, 0⟩) (by omega) (by omega)
    (Or.inr ⟨⟨starts, counts, 0⟩, rfl, rfl, by omega⟩)
  unfold RecalculateIndices
  dsimp only
  rcases key with h0 | ⟨x, _, _, p2⟩
  · rw [h0]
    rfl
  · omega

theorem Regenerate_overrun [FloorRing α] (cos sin : α → α) (x : State α) (b : Buffers α)
    (S T : ℤ) (hT : SaturationCountForTessellation x.currentSaturationCountPower = some T)
    (hm : x.isMorphing = true)
    (hS : ColorCountForTessellation x.currentColorCountPower = some S)
    (hsz : b.trackStartPositions.size < (if 0 ≠ toUInt32 T then toUInt32 T else 1)) :
    Regenerate cos sin x b = none := by
  unfold Regenerate
  rw [hT]
  simp only [Option.some_bind, if_pos hm]
  rw [hS]
  simp only [Option.some_bind]
  unfold RegenerateBuffers
  rw [indices_overrun (toUInt32 S) (toUInt32 T) b.trackStartPositions b.trackIndiceCounts hsz]
  rfl

/-- C27 (violated by the code): from the start-up state the track slider is dragged to 8
(frame at tick 0), the level steps 6, 7, 8 and comes to rest (frames at ticks 1000, 2000,
3000), the slider is dragged to 7 in that last frame, and the next frame reads the same
tick 3000, so `delta_t = 0`.  The GUI target is in `[0, MaxSaturationTessellations]` at
the start of every frame, yet the last frame steps `currentSaturationCountPower` from 8
to 9: `trackBlendT` stays 1, the test `trackBlendT >= 1.0f` fires although the velocity is
negative.  `SaturationCountForTessellation 9` is 1024, more than the 512 table entries,
and the regeneration of that frame indexes the draw-range tables past their end. -/
theorem level_leaves_range_at_zero_dt :
    (List.map (fun x : State ℚ => static_cast_int x.saturationCountPower)
      [initialState 0,
       RunGameLoopFrame (dragTracksTo 8) 0 (initialState 0),
       RunGameLoopFrame idleGui 1000 (RunGameLoopFrame (dragTracksTo 8) 0 (initialState 0)),
       RunGameLoopFrame idleGui 2000 (RunGameLoopFrame idleGui 1000
         (RunGameLoopFrame (dragTracksTo 8) 0 (initialState 0))),
       RunGameLoopFrame (dragTracksTo 7) 3000 (RunGameLoopFrame idleGui 2000
         (RunGameLoopFrame idleGui 1000
           (RunGameLoopFrame (dragTracksTo 8) 0 (initialState 0))))]
      = [6, 8, 8, 8, 7]) ∧
    (List.map (fun x : State ℚ => x.currentSaturationCountPower)
      [initialState 0,
       RunGameLoopFrame (dragTracksTo 8) 0 (initialState 0),
       RunGameLoopFrame idleGui 1000 (RunGameLoopFrame (dragTracksTo 8) 0 (initialState 0)),
       RunGameLoopFrame idleGui 2000 (RunGameLoopFrame idleGui 1000
         (RunGameLoopFrame (dragTracksTo 8) 0 (initialState 0))),
       RunGameLoopFrame (dragTracksTo 7) 3000 (RunGameLoopFrame idleGui 2000
         (RunGameLoopFrame idleGui 1000
           (RunGameLoopFrame (dragTracksTo 8) 0 (initialState 0)))),
       RunGameLoopFrame idleGui 3000 (RunGameLoopFrame (dragTracksTo 7) 3000
         (RunGameLoopFrame idleGui 2000 (RunGameLoopFrame idleGui 1000
           (RunGameLoopFrame (dragTracksTo 8) 0 (initialState 0)))))]
      = [6, 6, 7, 8, 8, 9]) ∧
    ¬ ((9 : ℤ) ≤ MaxSaturationTessellations) ∧
    SaturationCountForTessellation 9 = some 1024 ∧
    SaturationCountForTessellation MaxSaturationTessellations = some 512 ∧
    RunGameLoopFrameBuffers (fun _ : ℚ => (1 : ℚ)) (fun _ : ℚ => (0 : ℚ)) idleGui 3000
      (RunGameLoopFrame (dragTracksTo 7) 3000 (RunGameLoopFrame idleGui 2000
        (RunGameLoopFrame idleGui 1000
          (RunGameLoopFrame (dragTracksTo 8) 0 (initialState 0 : State ℚ)))))
      zeroBuffers = none := by
  refine ⟨by decide!, by decide!, by decide, by decide, by decide, ?_⟩
  unfold RunGameLoopFrameBuffers
  rw [Regenerate_overrun (fun _ : ℚ => (1 : ℚ)) (fun _ : ℚ => (0 : ℚ)) _ zeroBuffers 12 1024
    (by decide!) (by decide!) (by decide!) (by decide)]
  rfl

/-! ### General form of the RGB round trip -/

theorem RgbColorModel_points :
    controlPoint (RgbColorModel : ℤ → α) 0 = ⟨1, 0, 0⟩ ∧
    controlPoint (RgbColorModel : ℤ → α) 1 = ⟨1, 1, 0⟩ ∧
    controlPoint (RgbColorModel : ℤ → α) 2 = ⟨0, 1, 0⟩ ∧
    controlPoint (RgbColorModel : ℤ → α) 3 = ⟨0, 1, 1⟩ ∧
    controlPoint (RgbColorModel : ℤ → α) 4 = ⟨0, 0, 1⟩ ∧
    controlPoint (RgbColorModel : ℤ → α) 5 = ⟨1, 0, 1⟩ :=
  ⟨rfl, rfl, rfl, rfl, rfl, rfl⟩

theorem fmod_small [FloorRing α] (x : α) (h0 : -1 ≤ x) (h1 : x ≤ 1) : fmod x 6 = x := by
  unfold fmod static_cast_int
  have e1 : ⌊x / 6⌋ = if 0 ≤ x then 0 else -1 := by
    split_ifs with h
    · rw [Int.floor_eq_iff]
      constructor
      · have : 0 ≤ x / 6 := div_nonneg h (by norm_num)
        simpa using this
      · have : x / 6 < 1 := by
          rw [div_lt_iff₀ (by norm_num)]
          linarith
        simpa using this
    · rw [Int.floor_eq_iff]
      push_cast
      constructor
      · rw [le_div_iff₀ (by norm_num)]
        linarith
      · have : x / 6 < 0 := div_neg_of_neg_of_pos (lt_of_not_ge h) (by norm_num)
        linarith
  have e2 : ⌈x / 6⌉ = if 0 < x then 1 else 0 := by
    split_ifs with h
    · rw [Int.ceil_eq_iff]
      push_cast
      constructor
      · have : 0 < x / 6 := div_pos h (by norm_num)
        linarith
      · rw [div_le_iff₀ (by norm_num)]
        linarith
    · rw [Int.ceil_eq_iff]
      push_cast
      constructor
      · rw [lt_div_iff₀ (by norm_num)]
        linarith
      · have : x / 6 ≤ 0 := div_nonpos_of_nonpos_of_nonneg (le_of_not_lt h) (by norm_num)
        linarith
  by_cases hx : 0 ≤ x
  · have hq : 0 ≤ x / 6 := div_nonneg hx (by norm_num)
    rw [if_pos hq, e1, if_pos hx]
    simp
  · have hq : ¬ (0 ≤ x / 6) := by
      have : x / 6 < 0 := div_neg_of_neg_of_pos (lt_of_not_ge hx) (by norm_num)
      exact not_le.mpr this
    have hx' : ¬ (0 < x) := fun h => hx h.le
    rw [if_neg hq, e2, if_neg hx']
    simp

theorem vec3_get_zero (v : vec3 α) : v.get 0 = v.r := rfl

theorem vec3_get_one (v : vec3 α) : v.get 1 = v.g := rfl

theorem vec3_get_two (v : vec3 α) : v.get 2 = v.b := rfl

theorem hue_of_red_max [FloorRing α] (g b c : α) (hg0 : 0 ≤ g) (hg1 : g < 1) (hb0 : 0 ≤ b)
    (hb1 : b < 1) (hgb : g = 0 ∨ b = 0) :
    RgbToCircularHue (⟨1, g, b⟩ : vec3 α) c = (_60Degrees * (g - b), 1) := by
  have hM : MaxIndex (⟨1, g, b⟩ : vec3 α) = 0 := by
    unfold MaxIndex
    simp only [vec3_get_zero, vec3_get_one, vec3_get_two]
    rw [if_pos (show (1 : α) > g from hg1), if_pos (show (1 : α) > b from hb1)]
  have hm : vec3.get (⟨1, g, b⟩ : vec3 α) (MinIndex (⟨1, g, b⟩ : vec3 α)) = 0 := by
    unfold MinIndex
    simp only [vec3_get_zero, vec3_get_one, vec3_get_two]
    rw [if_neg (show ¬ ((1 : α) < g) from not_lt.mpr hg1.le)]
    rcases hgb with h | h
    · subst h
      split_ifs <;> simp only [vec3_get_zero, vec3_get_one, vec3_get_two] <;> linarith
    · subst h
      split_ifs <;> simp only [vec3_get_zero, vec3_get_one, vec3_get_two] <;> linarith
  unfold RgbToCircularHue
  dsimp only
  rw [hm, hM, vec3_get_zero]
  simp only [sub_zero, one_ne_zero, if_false, if_true, div_one]
  rw [fmod_small (g - b) (by linarith) (by linarith)]

theorem hue_of_green_max [FloorRing α] (r b c : α) (hr0 : 0 ≤ r) (hr1 : r ≤ 1) (hb0 : 0 ≤ b)
    (hb1 : b < 1) (hrb : r = 0 ∨ b = 0) :
    RgbToCircularHue (⟨r, 1, b⟩ : vec3 α) c = (_60Degrees * ((b - r) + 2), 1) := by
  have hM : MaxIndex (⟨r, 1, b⟩ : vec3 α) = 1 := by
    unfold MaxIndex
    simp only [vec3_get_zero, vec3_get_one, vec3_get_two]
    rw [if_neg (show ¬ (r > 1) from not_lt.mpr hr1), if_pos (show (1 : α) > b from hb1)]
  have hm : vec3.get (⟨r, 1, b⟩ : vec3 α) (MinIndex (⟨r, 1, b⟩ : vec3 α)) = 0 := by
    unfold MinIndex
    simp only [vec3_get_zero, vec3_get_one, vec3_get_two]
    rcases hrb with h | h
    · subst h
      split_ifs <;> simp only [vec3_get_zero, vec3_get_one, vec3_get_two] <;> linarith
    · subst h
      split_ifs <;> simp only [vec3_get_zero, vec3_get_one, vec3_get_two] <;> linarith
  unfold RgbToCircularHue
  dsimp only
  rw [hm, hM, vec3_get_one]
  simp only [sub_zero, one_ne_zero, if_false, if_true, div_one]

theorem hue_of_blue_max [FloorRing α] (r g c : α) (hr0 : 0 ≤ r) (hr1 : r ≤ 1) (hg0 : 0 ≤ g)
    (hg1 : g ≤ 1) (hrg : r = 0 ∨ g = 0) :
    RgbToCircularHue (⟨r, g, 1⟩ : vec3 α) c = (_60Degrees * ((r - g) + 4), 1) := by
  have hM : MaxIndex (⟨r, g, 1⟩ : vec3 α) = 2 := by
    unfold MaxIndex
    simp only [vec3_get_zero, vec3_get_one, vec3_get_two]
    rw [if_neg (show ¬ (r > 1) from not_lt.mpr hr1), if_neg (show ¬ (g > 1) from not_lt.mpr hg1)]
    split_ifs <;> rfl
  have hm : vec3.get (⟨r, g, 1⟩ : vec3 α) (MinIndex (⟨r, g, 1⟩ : vec3 α)) = 0 := by
    unfold MinIndex
    simp only [vec3_get_zero, vec3_get_one, vec3_get_two]
    rcases hrg with h | h
    · subst h
      split_ifs <;> simp only [vec3_get_zero, vec3_get_one, vec3_get_two] <;> linarith
    · subst h
      split_ifs <;> simp only [vec3_get_zero, vec3_get_one, vec3_get_two] <;> linarith
  unfold RgbToCircularHue
  dsimp only
  rw [hm, hM, vec3_get_two]
  have e21 : ¬ ((2 : ℤ) = 0) := by decide
  have e22 : ¬ ((2 : ℤ) = 1) := by decide
  simp only [sub_zero, one_ne_zero, if_false, if_true, div_one, e21, e22]

theorem mix_eq (u : α) (p q : vec3 α) (x y z : α) (hx : (1 - u) * p.r + u * q.r = x)
    (hy : (1 - u) * p.g + u * q.g = y) (hz : (1 - u) * p.b + u * q.b = z) :
    vec3.mix u p q = ⟨x, y, z⟩ := by
  unfold vec3.mix
  rw [hx, hy, hz]

theorem rgb_round_trip [FloorRing α] (h : α) (h0 : 0 ≤ h) (h1 : h < TwoPi) (c : α) :
    RgbToCircularHue (CalculateHueForColorModel 18 h RgbColorModel) c
      = (if h ≤ 5 * (TwoPi / 6) then h else h - TwoPi, 1) := by
  have hR : (0 : α) < TwoPi / 6 := div_pos TwoPi_pos (by norm_num)
  have hq0 : 0 ≤ h / (TwoPi / 6) := div_nonneg h0 hR.le
  have hq6 : h / (TwoPi / 6) < 6 := by
    rw [div_lt_iff₀ hR]
    linarith
  have hk0 : 0 ≤ ⌊h / (TwoPi / 6)⌋ := Int.floor_nonneg.mpr hq0
  have hk6 : ⌊h / (TwoPi / 6)⌋ < 6 := by
    rw [Int.floor_lt]
    exact_mod_cast hq6
  have hmod : ⌊h / (TwoPi / 6)⌋ % 6 = ⌊h / (TwoPi / 6)⌋ := Int.emod_eq_of_lt hk0 hk6
  rw [hue_of_mem RgbColorModel h h0 h1, hmod]
  have hf1 : ((⌊h / (TwoPi / 6)⌋ : ℤ) : α) ≤ h / (TwoPi / 6) := Int.floor_le _
  have hf2 : h / (TwoPi / 6) < ((⌊h / (TwoPi / 6)⌋ : ℤ) : α) + 1 := Int.lt_floor_add_one _
  have hh : h = h / (TwoPi / 6) * (TwoPi / 6) := by
    rw [div_mul_cancel₀ h hR.ne']
  have h60 : (_60Degrees : α) = TwoPi / 6 := by
    unfold _60Degrees TwoPi
    ring
  have hT : (TwoPi : α) = 6 * (TwoPi / 6) := by ring
  obtain ⟨p0, p1, p2, p3, p4, p5⟩ := @RgbColorModel_points α _
  generalize ⌊h / (TwoPi / 6)⌋ = k at *
  generalize h / (TwoPi / 6) = q at *
  generalize (TwoPi / 6 : α) = R at *
  have hle : ∀ m : α, q ≤ m → q * R ≤ m * R := fun m hm =>
    mul_le_mul_of_nonneg_right hm hR.le
  interval_cases k
  · have e : ((0 : ℤ) + 1) % 6 = 1 := by decide
    rw [e, p0, p1]
    push_cast at hf1 hf2 ⊢
    rw [mix_eq (q - 0) ⟨1, 0, 0⟩ ⟨1, 1, 0⟩ 1 q 0 (by ring) (by ring) (by ring),
      hue_of_red_max q 0 c hf1 (by linarith) le_rfl zero_lt_one (Or.inr rfl),
      if_pos (by rw [hh]; exact hle 5 (by linarith)), h60, hh]
    congr 1
    ring
  · have e : ((1 : ℤ) + 1) % 6 = 2 := by decide
    rw [e, p1, p2]
    push_cast at hf1 hf2 ⊢
    rw [mix_eq (q - 1) ⟨1, 1, 0⟩ ⟨0, 1, 0⟩ (2 - q) 1 0 (by ring) (by ring) (by ring),
      hue_of_green_max (2 - q) 0 c (by linarith) (by linarith) le_rfl zero_lt_one (Or.inr rfl),
      if_pos (by rw [hh]; exact hle 5 (by linarith)), h60, hh]
    congr 1
    ring
  · have e : ((2 : ℤ) + 1) % 6 = 3 := by decide
    rw [e, p2, p3]
    push_cast at hf1 hf2 ⊢
    rw [mix_eq (q - 2) ⟨0, 1, 0⟩ ⟨0, 1, 1⟩ 0 1 (q - 2) (by ring) (by ring) (by ring),
      hue_of_green_max 0 (q - 2) c le_rfl zero_le_one (by linarith) (by linarith) (Or.inl rfl),
      if_pos (by rw [hh]; exact hle 5 (by linarith)), h60, hh]
    congr 1
    ring
  · have e : ((3 : ℤ) + 1) % 6 = 4 := by decide
    rw [e, p3, p4]
    push_cast at hf1 hf2 ⊢
    rw [mix_eq (q - 3) ⟨0, 1, 1⟩ ⟨0, 0, 1⟩ 0 (4 - q) 1 (by ring) (by ring) (by ring),
      hue_of_blue_max 0 (4 - q) c le_rfl zero_le_one (by linarith) (by linarith) (Or.inl rfl),
      if_pos (by rw [hh]; exact hle 5 (by linarith)), h60, hh]
    congr 1
    ring
  · have e : ((4 : ℤ) + 1) % 6 = 5 := by decide
    rw [e, p4, p5]
    push_cast at hf1 hf2 ⊢
    rw [mix_eq (q - 4) ⟨0, 0, 1⟩ ⟨1, 0, 1⟩ (q - 4) 0 1 (by ring) (by ring) (by ring),
      hue_of_blue_max (q - 4) 0 c (by linarith) (by linarith) le_rfl zero_le_one (Or.inr rfl),
      if_pos (by rw [hh]; exact hle 5 (by linarith)), h60, hh]
    congr 1
    ring
  · have e : ((5 : ℤ) + 1) % 6 = 0 := by decide
    rw [e, p5, p0]
    push_cast at hf1 hf2 ⊢
    rw [mix_eq (q - 5) ⟨1, 0, 1⟩ ⟨1, 0, 0⟩ 1 0 (6 - q) (by ring) (by ring) (by ring)]
    rcases eq_or_lt_of_le hf1 with h5 | h5
    · have e6 : (6 : α) - q = 1 := by
        rw [← h5]
        norm_num
      rw [e6, hue_of_blue_max 1 0 c zero_le_one le_rfl le_rfl zero_le_one (Or.inr rfl),
        if_pos (by rw [hh]; exact hle 5 h5.ge), h60, hh, ← h5]
      congr 1
      ring
    · rw [hue_of_red_max 0 (6 - q) c le_rfl zero_lt_one (by linarith) (by linarith)
          (Or.inl rfl),
        if_neg (by
          rw [hh]
          exact not_le.mpr (mul_lt_mul_of_pos_right h5 hR)), h60, hT, hh]
      congr 1
      ring

end ColorWheel
